import Mathlib

/-!
# Wall functions of Code_Saturne (`src/base/cs_wall_functions.h`)

A shallow embedding of the six inline closure variants of
`cs_wall_functions.h`, followed by theorems about them.

Conventions of the embedding.

* `cs_real_t` (a C `double`) is idealised as an element of a linearly ordered
  field `α`; rounding, infinities and NaN are outside the model.  The C
  operators `+ - * /` and the comparisons are the field operations, `fabs` is
  the absolute value.
* The `<math.h>` functions `sqrt`, `exp`, `log`, `pow` are supplied by a record
  `Libm α`, so every definition below is an executable function of its
  arguments.  `realLibm` instantiates them with the real functions of
  Mathlib; these agree with the C functions wherever the C call has no domain
  error.
* The constants `cs_turb_*` are declared in `cs_turbulence_model.h` and the
  descriptor `*cs_glob_wall_functions` is set elsewhere; both are taken as
  parameters (`cs_turb_t`, `cs_wall_functions_t`).
* The values behind the output pointers are gathered in the record `Outputs`;
  a C function `void f(in..., T *out...)` becomes `f in... (s : Outputs α) :
  Outputs α`, where `s` holds the values found behind the pointers on entry.
* `cs_lnum_t` and `int` are signed C integers; the counters are modelled in
  `Int` (signed overflow is undefined in C and the callers count at most the
  local number of faces, itself a `cs_lnum_t`).
-/

namespace CsWall

/-! ## Data model -/

/-- The functions of `<math.h>` called by the wall functions. -/
structure Libm (α : Type) where
  sqrt : α → α
  exp : α → α
  log : α → α
  pow : α → α → α

/-- Wall function type (`cs_wall_function_type_t`). -/
inductive cs_wall_function_type_t where
  | CS_WALL_F_DISABLED
  | CS_WALL_F_1SCALE_POWER
  | CS_WALL_F_1SCALE_LOG
  | CS_WALL_F_2SCALES_LOG
  | CS_WALL_F_SCALABLE_2SCALES_LOG
  | CS_WALL_F_2SCALES_VDRIEST
  deriving DecidableEq, Repr

/-- Wall functions descriptor (`cs_wall_functions_t`). -/
structure cs_wall_functions_t (α : Type) where
  iwallf : cs_wall_function_type_t
  iwallt : Int
  ypluli : α

/-- The turbulence constants read by the wall functions; they are declared in
`cs_turbulence_model.h` and enter the embedding as parameters. -/
structure cs_turb_t (α : Type) where
  cs_turb_xkappa : α
  cs_turb_cstlog : α
  cs_turb_apow : α
  cs_turb_bpow : α
  cs_turb_dpow : α
  cs_turb_cmu025 : α
  cs_turb_crij1 : α
  cs_turb_crij2 : α
  cs_turb_vdriest : α

/-- The values behind the output pointers of the wall functions. -/
structure Outputs (α : Type) where
  iuntur : Int
  nsubla : Int
  nlogla : Int
  ustar : α
  uk : α
  yplus : α
  dplus : α
  ypup : α
  cofimp : α
  lmk : α

/-- What one call of `cs_wall_functions_1scale_log` leaves behind besides its
outputs: the final value of the local `iter`, the final value of the local
`ustaro` (`none` when it was never assigned), and the arguments
`(ifac, *ustar)` of every `bft_printf` warning, in order. -/
structure LogRun (α : Type) where
  iter : Nat
  ustaro : Option α
  printed : List (Int × α)
  out : Outputs α

section Code

variable {α : Type} [LinearOrderedField α]

/-- The macro `CS_MAX(a,b)`, that is `((a) > (b) ? (a) : (b))`. -/
def CS_MAX (a b : α) : α := if a > b then a else b

/-- The macro `CS_MIN(a,b)`, that is `((a) < (b) ? (a) : (b))`. -/
def CS_MIN (a b : α) : α := if a < b then a else b

/-! ## Power law: Werner & Wengle -/

/-- Embedding of `cs_wall_functions_1scale_power`. -/
def cs_wall_functions_1scale_power (m : Libm α) (t : cs_turb_t α)
    (g : cs_wall_functions_t α) (l_visc vel y : α) (s : Outputs α) : Outputs α :=
  let ypluli := g.ypluli
  let ydvisc := y / l_visc
  -- Compute the friction velocity ustar
  let ustar := m.pow (vel / (t.cs_turb_apow * m.pow ydvisc t.cs_turb_bpow)) t.cs_turb_dpow
  let uk := ustar
  let yplus := ustar * ydvisc
  if yplus ≤ ypluli then
    -- In the viscous sub-layer: U+ = y+
    let ustar := m.sqrt (vel / ydvisc)
    let yplus := ustar * ydvisc
    let uk := ustar
    { s with ustar := ustar, yplus := yplus, uk := uk, ypup := 1, cofimp := 0,
             iuntur := 0, nsubla := s.nsubla + 1 }
  else
    -- In the log layer
    let ypup := m.pow vel (2 * t.cs_turb_dpow - 1) / m.pow t.cs_turb_apow (2 * t.cs_turb_dpow)
    let cofimp := 1 + t.cs_turb_bpow
                      * m.pow ustar (t.cs_turb_bpow + 1 - 1 / t.cs_turb_dpow)
                      * (m.pow 2 (t.cs_turb_bpow - 1) - 2)
    { s with ustar := ustar, uk := uk, yplus := yplus, ypup := ypup, cofimp := cofimp,
             nlogla := s.nlogla + 1 }

/-! ## Log law with one velocity scale -/

/-- The right-hand side of the fixed-point update of
`cs_wall_functions_1scale_log`:
`(cs_turb_xkappa * vel + ustaro) / (log(ydvisc * ustaro) + cs_turb_xkappa * cs_turb_cstlog + 1.)`. -/
def ustar_update (m : Libm α) (t : cs_turb_t α) (vel ydvisc ustaro : α) : α :=
  (t.cs_turb_xkappa * vel + ustaro)
    / (m.log (ydvisc * ustaro) + t.cs_turb_xkappa * t.cs_turb_cstlog + 1)

/-- The loop
`for (iter = 0; iter < niter_max && fabs(*ustar - ustaro) >= eps * ustaro; iter++)`
of `cs_wall_functions_1scale_log`, entered with the current values of `iter`,
`ustaro` and `*ustar`; it returns their values on exit. -/
def ustar_loop (m : Libm α) (t : cs_turb_t α) (vel ydvisc eps : α) (niter_max : Nat)
    (iter : Nat) (ustaro ustar : α) : Nat × α × α :=
  if iter < niter_max ∧ |ustar - ustaro| ≥ eps * ustaro then
    ustar_loop m t vel ydvisc eps niter_max (iter + 1) ustar (ustar_update m t vel ydvisc ustar)
  else
    (iter, ustaro, ustar)
termination_by niter_max - iter

/-- Embedding of `cs_wall_functions_1scale_log`, with the final values of the
locals `iter` and `ustaro` and the printed warnings kept (`LogRun`). -/
def cs_wall_functions_1scale_log_run (m : Libm α) (t : cs_turb_t α)
    (g : cs_wall_functions_t α) (ifac : Int) (l_visc vel y : α) (s : Outputs α) : LogRun α :=
  let ypluli := g.ypluli
  let eps : α := 0.001
  let niter_max : Nat := 100
  let iter : Nat := 0
  -- Compute the local Reynolds number
  let ydvisc := y / l_visc
  let reynolds := vel * ydvisc
  if reynolds ≤ ypluli * ypluli then
    -- In the viscous sub-layer: U+ = y+
    let ustar := m.sqrt (vel / ydvisc)
    let yplus := ustar * ydvisc
    let uk := ustar
    { iter := iter, ustaro := none, printed := [],
      out := { s with ustar := ustar, yplus := yplus, uk := uk, ypup := 1, cofimp := 0,
                      iuntur := 0, nsubla := s.nsubla + 1 } }
  else
    -- The initial value is Wener or the minimun ustar to ensure convergence
    let ustarwer := m.pow (|vel| / t.cs_turb_apow / m.pow ydvisc t.cs_turb_bpow) t.cs_turb_dpow
    let ustarmin := m.exp (-t.cs_turb_cstlog * t.cs_turb_xkappa) / ydvisc
    let ustaro := CS_MAX ustarwer ustarmin
    let ustar := ustar_update m t vel ydvisc ustaro
    -- Iterative solving
    let r := ustar_loop m t vel ydvisc eps niter_max iter ustaro ustar
    let iter := r.1
    let ustaro := r.2.1
    let ustar := r.2.2
    let printed := if iter ≥ niter_max then [(ifac, ustar)] else []
    let uk := ustar
    let yplus := ustar * ydvisc
    let ypup := yplus / (m.log yplus / t.cs_turb_xkappa + t.cs_turb_cstlog)
    let cofimp := 1 - ypup / t.cs_turb_xkappa * 1.5 / yplus
    { iter := iter, ustaro := some ustaro, printed := printed,
      out := { s with ustar := ustar, uk := uk, yplus := yplus, ypup := ypup, cofimp := cofimp,
                      nlogla := s.nlogla + 1 } }

/-- The outputs of `cs_wall_functions_1scale_log`. -/
def cs_wall_functions_1scale_log (m : Libm α) (t : cs_turb_t α)
    (g : cs_wall_functions_t α) (ifac : Int) (l_visc vel y : α) (s : Outputs α) : Outputs α :=
  (cs_wall_functions_1scale_log_run m t g ifac l_visc vel y s).out

/-! ## Log law with two velocity scales -/

/-- Embedding of `cs_wall_functions_2scales_log`. -/
def cs_wall_functions_2scales_log (m : Libm α) (t : cs_turb_t α)
    (g : cs_wall_functions_t α) (l_visc t_visc vel y kinetic_en : α) (s : Outputs α) :
    Outputs α :=
  let ypluli := g.ypluli
  -- Blending for very low values of k
  let Re := m.sqrt kinetic_en * y / l_visc
  let g := m.exp (-Re / 11)
  let uk := m.sqrt ((1 - g) * t.cs_turb_cmu025 * t.cs_turb_cmu025 * kinetic_en
                    + g * l_visc * vel / y)
  let yplus := uk * y / l_visc
  if yplus > ypluli then
    -- log layer
    let ustar := vel / (m.log yplus / t.cs_turb_xkappa + t.cs_turb_cstlog)
    let ypup := yplus / (m.log yplus / t.cs_turb_xkappa + t.cs_turb_cstlog)
    -- Mixing length viscosity
    let ml_visc := t.cs_turb_xkappa * l_visc * yplus
    let rcprod := CS_MIN t.cs_turb_xkappa (CS_MAX 1 (m.sqrt (ml_visc / t_visc)) / yplus)
    let cofimp := 1 - ypup / t.cs_turb_xkappa * (2 * rcprod - 1 / (2 * yplus))
    { s with uk := uk, yplus := yplus, ustar := ustar, ypup := ypup, cofimp := cofimp,
             nlogla := s.nlogla + 1 }
  else
    -- viscous sub-layer
    let ustar := if yplus > 1e-12 then |vel / yplus| else 0
    { s with uk := uk, yplus := yplus, ustar := ustar, ypup := 1, cofimp := 0,
             iuntur := 0, nsubla := s.nsubla + 1 }

/-! ## Scalable wall function -/

set_option linter.unusedVariables false in
/-- Embedding of `cs_wall_functions_2scales_scalable`.  The first assignments
of `*uk` and `*yplus` (the blended scale) are overwritten before they are
read. -/
def cs_wall_functions_2scales_scalable (m : Libm α) (t : cs_turb_t α)
    (g : cs_wall_functions_t α) (l_visc t_visc vel y kinetic_en : α) (s : Outputs α) :
    Outputs α :=
  let ypluli := g.ypluli
  -- Blending for very low values of k
  let Re := m.sqrt kinetic_en * y / l_visc
  let g := m.exp (-Re / 11)
  let uk := m.sqrt ((1 - g) * t.cs_turb_cmu025 * t.cs_turb_cmu025 * kinetic_en
                    + g * l_visc * vel / y)
  let yplus := uk * y / l_visc
  -- Compute the friction velocity ustar (both values are assigned anew)
  let uk := t.cs_turb_cmu025 * m.sqrt kinetic_en
  let yplus := uk * y / l_visc
  -- Log layer, or viscous sub-layer and therefore shift
  let s1 : Outputs α :=
    if yplus > ypluli then
      { s with uk := uk, yplus := yplus, dplus := 0, nlogla := s.nlogla + 1 }
    else
      { s with uk := uk, dplus := ypluli - yplus, yplus := ypluli, nsubla := s.nsubla + 1 }
  -- Mixing length viscosity
  let ml_visc := t.cs_turb_xkappa * l_visc * s1.yplus
  let rcprod := CS_MIN t.cs_turb_xkappa (CS_MAX 1 (m.sqrt (ml_visc / t_visc)) / s1.yplus)
  let ustar := vel / (m.log s1.yplus / t.cs_turb_xkappa + t.cs_turb_cstlog)
  let ypup := (s1.yplus - s1.dplus) / (m.log s1.yplus / t.cs_turb_xkappa + t.cs_turb_cstlog)
  let cofimp := 1 - ypup / t.cs_turb_xkappa * (2 * rcprod - 1 / (2 * s1.yplus - s1.dplus))
  { s1 with ustar := ustar, ypup := ypup, cofimp := cofimp }

/-! ## Two velocity scales wall function with Van Driest mixing length -/

/-- Coefficients of the polynome fitting u+ for yk < 200 (`aa[11]`). -/
def aa : List α :=
  [-0.0091921, 3.9577, 0.031578, -0.51013, -2.3254, -0.72665,
   2.969, 0.48506, -1.5944, 0.087309, 0.1987]

/-- The element `aa[i]`. -/
def aa_at (i : Nat) : α := (aa (α := α)).getD i 0

/-- Embedding of `cs_wall_functions_2scales_vdriest`. -/
def cs_wall_functions_2scales_vdriest (m : Libm α) (t : cs_turb_t α)
    (rnnb l_visc vel y kinetic_en : α) (kr : α) (wf : Bool) (s : Outputs α) : Outputs α :=
  let uk := if wf then
      m.sqrt (m.sqrt ((1 - t.cs_turb_crij2) / t.cs_turb_crij1 * rnnb * kinetic_en))
    else s.uk
  -- Set a low threshold value in case tangential velocity is zero
  let yplus := CS_MAX (uk * y / l_visc) 1e-4
  let s := { s with uk := uk, yplus := yplus }
  -- Dimensionless roughness
  let krp := uk * kr / l_visc
  -- Extension of Van Driest mixing length according to Rotta (1962) with
  -- Cebeci & Chang (1978) correlation
  let dyrp := 0.9 * (m.sqrt krp - krp * m.exp (-krp / 6))
  let yrplus := yplus + dyrp
  if yrplus ≤ 1e-1 then
    let uplus := yplus
    let s := if wf then
        { s with iuntur := 0, nsubla := s.nsubla + 1, lmk := 0, ypup := 1, cofimp := 0 }
      else s
    { s with ustar := vel / uplus }
  else if yrplus ≤ 200 then
    let y1 := 0.25 * m.log yrplus
    let y2 := y1 * y1
    let y3 := y2 * y1
    let y4 := y3 * y1
    let y5 := y4 * y1
    let y6 := y5 * y1
    let y7 := y6 * y1
    let y8 := y7 * y1
    let y9 := y8 * y1
    let y10 := y9 * y1
    let uplus := aa_at 0
               + aa_at 1 * y1
               + aa_at 2 * y2
               + aa_at 3 * y3
               + aa_at 4 * y4
               + aa_at 5 * y5
               + aa_at 6 * y6
               + aa_at 7 * y7
               + aa_at 8 * y8
               + aa_at 9 * y9
               + aa_at 10 * y10
    let uplus := m.exp uplus
    let s := if wf then
        let ypup := yplus / uplus
        -- Mixing length in y+
        let lmk := t.cs_turb_xkappa * yplus * (1 - m.exp (-yplus / t.cs_turb_vdriest))
        -- Mixing length in 3/2*y+
        let lmk15 := t.cs_turb_xkappa * 1.5 * yplus
                      * (1 - m.exp (-1.5 * yplus / t.cs_turb_vdriest))
        let cofimp := 1 - (2 / (1 + lmk) - 1 / (1 + lmk15)) * ypup
        { s with nlogla := s.nlogla + 1, ypup := ypup, lmk := lmk, cofimp := cofimp }
      else s
    { s with ustar := vel / uplus }
  else
    let uplus := 16.088739022054590 + m.log (yrplus / (200 + dyrp)) / t.cs_turb_xkappa
    let s := if wf then
        let ypup := yplus / uplus
        -- Mixing length in y+
        let lmk := t.cs_turb_xkappa * yplus * (1 - m.exp (-yplus / t.cs_turb_vdriest))
        -- Mixing length in 3/2*y+
        let lmk15 := t.cs_turb_xkappa * 1.5 * yplus
                      * (1 - m.exp (-1.5 * yplus / t.cs_turb_vdriest))
        let cofimp := 1 - (2 / lmk - 1 / lmk15) * ypup
        { s with nlogla := s.nlogla + 1, ypup := ypup, lmk := lmk, cofimp := cofimp }
      else s
    { s with ustar := vel / uplus }

/-! ## No wall function -/

/-- Embedding of `cs_wall_functions_disabled`. -/
def cs_wall_functions_disabled (m : Libm α) (g : cs_wall_functions_t α)
    (l_visc t_visc vel y : α) (s : Outputs α) : Outputs α :=
  let ypluli := g.ypluli
  -- Compute the friction velocity ustar
  let ustar := m.sqrt (vel * l_visc / y)
  let yplus := ustar * y / l_visc
  let s := { s with ustar := ustar, yplus := yplus, uk := ustar,
                    ypup := l_visc / (l_visc + t_visc), cofimp := 0, iuntur := 0 }
  if yplus ≤ ypluli then
    -- Disable the wall funcion count the cell in the viscous sub-layer
    { s with nsubla := s.nsubla + 1 }
  else
    -- Count the cell as if it was in the viscous sub-layer
    { s with nsubla := s.nsubla + 1 }

/-! ## Named intermediate values -/

/-- The value assigned to `*yplus` by `cs_wall_functions_2scales_scalable` just
before its test against `ypluli` (the second assignment,
`*uk = cs_turb_cmu025 * sqrt(kinetic_en); *yplus = *uk * y / l_visc;`): the
dimensionless distance before the shift. -/
def scalable_yplus_raw (m : Libm α) (t : cs_turb_t α) (l_visc y kinetic_en : α) : α :=
  t.cs_turb_cmu025 * m.sqrt kinetic_en * y / l_visc

/-- The value assigned to `*yplus` by `cs_wall_functions_1scale_power` before its
test against `ypluli`: the power-law `ustar` times `y / l_visc`. -/
def power_law_yplus (m : Libm α) (t : cs_turb_t α) (l_visc vel y : α) : α :=
  m.pow (vel / (t.cs_turb_apow * m.pow (y / l_visc) t.cs_turb_bpow)) t.cs_turb_dpow
    * (y / l_visc)

/-- The value of `uplus` in the branch `0.1 < yrplus <= 200` of
`cs_wall_functions_2scales_vdriest`: the exponential of the polynome in
`y1 = 0.25 * log(yrplus)`. -/
def vdriest_uplus_fit (m : Libm α) (yrplus : α) : α :=
  let y1 := 0.25 * m.log yrplus
  let y2 := y1 * y1
  let y3 := y2 * y1
  let y4 := y3 * y1
  let y5 := y4 * y1
  let y6 := y5 * y1
  let y7 := y6 * y1
  let y8 := y7 * y1
  let y9 := y8 * y1
  let y10 := y9 * y1
  m.exp (aa_at 0
         + aa_at 1 * y1
         + aa_at 2 * y2
         + aa_at 3 * y3
         + aa_at 4 * y4
         + aa_at 5 * y5
         + aa_at 6 * y6
         + aa_at 7 * y7
         + aa_at 8 * y8
         + aa_at 9 * y9
         + aa_at 10 * y10)

/-- The value of `uplus` in the branch `yrplus > 200` of
`cs_wall_functions_2scales_vdriest`:
`16.088739022054590 + log((yrplus)/(200.+dyrp)) / cs_turb_xkappa`. -/
def vdriest_uplus_asym (m : Libm α) (t : cs_turb_t α) (yrplus dyrp : α) : α :=
  16.088739022054590 + m.log (yrplus / (200 + dyrp)) / t.cs_turb_xkappa

/-- The dimensionless roughness shift `dyrp` of
`cs_wall_functions_2scales_vdriest` for the velocity scale `uk`. -/
def vdriest_dyrp (m : Libm α) (l_visc kr uk : α) : α :=
  0.9 * (m.sqrt (uk * kr / l_visc) - uk * kr / l_visc * m.exp (-(uk * kr / l_visc) / 6))

/-- The values of `ustaro` with which the body of the loop of
`cs_wall_functions_1scale_log` evaluates the update, in the order of the
iterations: each iteration executes `ustaro = *ustar;` and then divides by
`log(ydvisc * ustaro) + cs_turb_xkappa * cs_turb_cstlog + 1.`. -/
def ustar_loop_ustaro (m : Libm α) (t : cs_turb_t α) (vel ydvisc eps : α) (niter_max : Nat)
    (iter : Nat) (ustaro ustar : α) : List α :=
  if iter < niter_max ∧ |ustar - ustaro| ≥ eps * ustaro then
    ustar :: ustar_loop_ustaro m t vel ydvisc eps niter_max (iter + 1) ustar
      (ustar_update m t vel ydvisc ustar)
  else
    []
termination_by niter_max - iter

/-- The blending weight `g = exp(-Re/11.)`, `Re = sqrt(kinetic_en) * y / l_visc`, of
`cs_wall_functions_2scales_log`. -/
def blending_weight (m : Libm α) (l_visc y kinetic_en : α) : α :=
  m.exp (-(m.sqrt kinetic_en * y / l_visc) / 11)

/-- The clamped ratio `rcprod` of `cs_wall_functions_2scales_log` and
`cs_wall_functions_2scales_scalable` for the value `yplus` of `*yplus`:
`ml_visc = cs_turb_xkappa * l_visc * *yplus;`
`rcprod = CS_MIN(cs_turb_xkappa, CS_MAX(1., sqrt(ml_visc / t_visc)) / *yplus);`. -/
def rcprod (m : Libm α) (t : cs_turb_t α) (l_visc t_visc yplus : α) : α :=
  CS_MIN t.cs_turb_xkappa
    (CS_MAX 1 (m.sqrt (t.cs_turb_xkappa * l_visc * yplus / t_visc)) / yplus)

/-! ## Domains of the executed operations

For each of the six functions, the conjunction of the domain conditions of the
operations it executes, in the order of the source and following its branches:
a divisor is not zero, the argument of `sqrt` is not negative, the argument of
`log` is positive, `pow` has a positive base or a zero base with a non-negative
exponent.  Divisions by a non-zero literal (`/ 11.`, `/ 6.`) need no
condition.  The values named in a condition are those the function computes. -/

/-- The domain of `pow(x, y)`: a positive base, or a zero base with a
non-negative exponent (a negative base, for which C requires an integer
exponent, is counted as outside the domain). -/
def pow_defined (x y : α) : Prop := 0 < x ∨ (x = 0 ∧ 0 ≤ y)

/-- The operations of `cs_wall_functions_disabled`. -/
def cs_wall_functions_disabled_defined (l_visc t_visc vel y : α) : Prop :=
  -- sqrt(vel * l_visc / y)
  y ≠ 0 ∧ 0 ≤ vel * l_visc / y
  -- *ustar * y / l_visc
  ∧ l_visc ≠ 0
  -- l_visc / (l_visc + t_visc)
  ∧ l_visc + t_visc ≠ 0

/-- The operations of `cs_wall_functions_1scale_power`. -/
def cs_wall_functions_1scale_power_defined (m : Libm α) (t : cs_turb_t α)
    (g : cs_wall_functions_t α) (l_visc vel y : α) : Prop :=
  let ydvisc := y / l_visc
  let ustar := m.pow (vel / (t.cs_turb_apow * m.pow ydvisc t.cs_turb_bpow)) t.cs_turb_dpow
  let yplus := ustar * ydvisc
  -- y / l_visc
  l_visc ≠ 0
  -- pow((vel/(cs_turb_apow * pow(ydvisc, cs_turb_bpow))), cs_turb_dpow)
  ∧ pow_defined ydvisc t.cs_turb_bpow
  ∧ t.cs_turb_apow * m.pow ydvisc t.cs_turb_bpow ≠ 0
  ∧ pow_defined (vel / (t.cs_turb_apow * m.pow ydvisc t.cs_turb_bpow)) t.cs_turb_dpow
  ∧ (if yplus ≤ g.ypluli then
      -- sqrt(vel / ydvisc)
      ydvisc ≠ 0 ∧ 0 ≤ vel / ydvisc
    else
      -- pow(vel, 2. * cs_turb_dpow-1.) / pow(cs_turb_apow, 2. * cs_turb_dpow)
      pow_defined vel (2 * t.cs_turb_dpow - 1)
      ∧ pow_defined t.cs_turb_apow (2 * t.cs_turb_dpow)
      ∧ m.pow t.cs_turb_apow (2 * t.cs_turb_dpow) ≠ 0
      -- pow(*ustar, cs_turb_bpow + 1. - 1./cs_turb_dpow)
      ∧ t.cs_turb_dpow ≠ 0
      ∧ pow_defined ustar (t.cs_turb_bpow + 1 - 1 / t.cs_turb_dpow)
      -- pow(2., cs_turb_bpow - 1.)
      ∧ pow_defined 2 (t.cs_turb_bpow - 1))

/-- The operations of one update
`(cs_turb_xkappa * vel + ustaro) / (log(ydvisc * ustaro) + cs_turb_xkappa * cs_turb_cstlog + 1.)`. -/
def ustar_update_defined (m : Libm α) (t : cs_turb_t α) (ydvisc ustaro : α) : Prop :=
  0 < ydvisc * ustaro
  ∧ m.log (ydvisc * ustaro) + t.cs_turb_xkappa * t.cs_turb_cstlog + 1 ≠ 0

/-- The operations of the updates executed by the loop of
`cs_wall_functions_1scale_log` entered with `iter`, `ustaro`, `*ustar`. -/
def ustar_loop_defined (m : Libm α) (t : cs_turb_t α) (vel ydvisc eps : α) (niter_max : Nat)
    (iter : Nat) (ustaro ustar : α) : Prop :=
  if iter < niter_max ∧ |ustar - ustaro| ≥ eps * ustaro then
    ustar_update_defined m t ydvisc ustar
    ∧ ustar_loop_defined m t vel ydvisc eps niter_max (iter + 1) ustar
        (ustar_update m t vel ydvisc ustar)
  else
    True
termination_by niter_max - iter

/-- The operations of `cs_wall_functions_1scale_log`. -/
def cs_wall_functions_1scale_log_defined (m : Libm α) (t : cs_turb_t α)
    (g : cs_wall_functions_t α) (l_visc vel y : α) : Prop :=
  let ydvisc := y / l_visc
  -- y / l_visc
  l_visc ≠ 0
  ∧ (if vel * ydvisc ≤ g.ypluli * g.ypluli then
      -- sqrt(vel / ydvisc)
      ydvisc ≠ 0 ∧ 0 ≤ vel / ydvisc
    else
      let ustarwer := m.pow (|vel| / t.cs_turb_apow / m.pow ydvisc t.cs_turb_bpow) t.cs_turb_dpow
      let ustarmin := m.exp (-t.cs_turb_cstlog * t.cs_turb_xkappa) / ydvisc
      let ustaro := CS_MAX ustarwer ustarmin
      let ustar := ustar_update m t vel ydvisc ustaro
      let yplus := (ustar_loop m t vel ydvisc 0.001 100 0 ustaro ustar).2.2 * ydvisc
      -- pow(fabs(vel) / cs_turb_apow / pow(ydvisc, cs_turb_bpow), cs_turb_dpow)
      t.cs_turb_apow ≠ 0
      ∧ pow_defined ydvisc t.cs_turb_bpow
      ∧ m.pow ydvisc t.cs_turb_bpow ≠ 0
      ∧ pow_defined (|vel| / t.cs_turb_apow / m.pow ydvisc t.cs_turb_bpow) t.cs_turb_dpow
      -- exp(-cs_turb_cstlog * cs_turb_xkappa)/ydvisc
      ∧ ydvisc ≠ 0
      -- the first evaluation and the loop
      ∧ ustar_update_defined m t ydvisc ustaro
      ∧ ustar_loop_defined m t vel ydvisc 0.001 100 0 ustaro ustar
      -- *yplus / (log(*yplus) / cs_turb_xkappa + cs_turb_cstlog)
      ∧ 0 < yplus
      ∧ t.cs_turb_xkappa ≠ 0
      ∧ m.log yplus / t.cs_turb_xkappa + t.cs_turb_cstlog ≠ 0
      -- *ypup / cs_turb_xkappa * 1.5 / *yplus
      ∧ yplus ≠ 0)

/-- The operations of `cs_wall_functions_2scales_log`. -/
def cs_wall_functions_2scales_log_defined (m : Libm α) (t : cs_turb_t α)
    (g : cs_wall_functions_t α) (l_visc t_visc vel y kinetic_en : α) : Prop :=
  let Re := m.sqrt kinetic_en * y / l_visc
  let g1 := m.exp (-Re / 11)
  let uk := m.sqrt ((1 - g1) * t.cs_turb_cmu025 * t.cs_turb_cmu025 * kinetic_en
                    + g1 * l_visc * vel / y)
  let yplus := uk * y / l_visc
  -- sqrt(kinetic_en) * y / l_visc
  0 ≤ kinetic_en ∧ l_visc ≠ 0
  -- sqrt((1.-g) * cs_turb_cmu025 * cs_turb_cmu025 * kinetic_en + g * l_visc * vel / y)
  ∧ y ≠ 0
  ∧ 0 ≤ (1 - g1) * t.cs_turb_cmu025 * t.cs_turb_cmu025 * kinetic_en + g1 * l_visc * vel / y
  ∧ (if yplus > g.ypluli then
      -- vel / (log(*yplus) / cs_turb_xkappa + cs_turb_cstlog), and the same divisor for *ypup
      0 < yplus ∧ t.cs_turb_xkappa ≠ 0
      ∧ m.log yplus / t.cs_turb_xkappa + t.cs_turb_cstlog ≠ 0
      -- sqrt(ml_visc / t_visc)
      ∧ t_visc ≠ 0
      ∧ 0 ≤ t.cs_turb_xkappa * l_visc * yplus / t_visc
      -- CS_MAX(1., sqrt(ml_visc / t_visc)) / *yplus
      ∧ yplus ≠ 0
      -- 1. / (2. * *yplus)
      ∧ 2 * yplus ≠ 0
    else
      -- fabs(vel / *yplus), executed when *yplus > 1.e-12
      (yplus > 1e-12 → yplus ≠ 0))

/-- The operations of `cs_wall_functions_2scales_scalable` (those of the
overwritten assignments are executed as well). -/
def cs_wall_functions_2scales_scalable_defined (m : Libm α) (t : cs_turb_t α)
    (g : cs_wall_functions_t α) (l_visc t_visc vel y kinetic_en : α) : Prop :=
  let Re := m.sqrt kinetic_en * y / l_visc
  let g1 := m.exp (-Re / 11)
  let yplus_raw := t.cs_turb_cmu025 * m.sqrt kinetic_en * y / l_visc
  let yplus := if yplus_raw > g.ypluli then yplus_raw else g.ypluli
  let dplus := if yplus_raw > g.ypluli then 0 else g.ypluli - yplus_raw
  -- sqrt(kinetic_en) * y / l_visc
  0 ≤ kinetic_en ∧ l_visc ≠ 0
  -- sqrt((1.-g) * cs_turb_cmu025 * cs_turb_cmu025 * kinetic_en + g * l_visc * vel / y)
  ∧ y ≠ 0
  ∧ 0 ≤ (1 - g1) * t.cs_turb_cmu025 * t.cs_turb_cmu025 * kinetic_en + g1 * l_visc * vel / y
  -- sqrt(ml_visc / t_visc)
  ∧ t_visc ≠ 0
  ∧ 0 ≤ t.cs_turb_xkappa * l_visc * yplus / t_visc
  -- CS_MAX(1., sqrt(ml_visc / t_visc)) / *yplus
  ∧ yplus ≠ 0
  -- vel / (log(*yplus) / cs_turb_xkappa + cs_turb_cstlog), and the same divisor for *ypup
  ∧ 0 < yplus ∧ t.cs_turb_xkappa ≠ 0
  ∧ m.log yplus / t.cs_turb_xkappa + t.cs_turb_cstlog ≠ 0
  -- 1. / (2. * *yplus - *dplus)
  ∧ 2 * yplus - dplus ≠ 0

/-- The operations of `cs_wall_functions_2scales_vdriest`, entered with the
value `uk0` behind `uk`. -/
def cs_wall_functions_2scales_vdriest_defined (m : Libm α) (t : cs_turb_t α)
    (rnnb l_visc y kinetic_en kr : α) (wf : Bool) (uk0 : α) : Prop :=
  let uk := if wf then
      m.sqrt (m.sqrt ((1 - t.cs_turb_crij2) / t.cs_turb_crij1 * rnnb * kinetic_en))
    else uk0
  let yplus := CS_MAX (uk * y / l_visc) 1e-4
  let krp := uk * kr / l_visc
  let dyrp := 0.9 * (m.sqrt krp - krp * m.exp (-krp / 6))
  let yrplus := yplus + dyrp
  let lmk := t.cs_turb_xkappa * yplus * (1 - m.exp (-yplus / t.cs_turb_vdriest))
  let lmk15 := t.cs_turb_xkappa * 1.5 * yplus * (1 - m.exp (-1.5 * yplus / t.cs_turb_vdriest))
  -- sqrt(sqrt((1.-cs_turb_crij2)/cs_turb_crij1 * rnnb * kinetic_en)), executed when wf
  (wf = true → t.cs_turb_crij1 ≠ 0
      ∧ 0 ≤ (1 - t.cs_turb_crij2) / t.cs_turb_crij1 * rnnb * kinetic_en
      ∧ 0 ≤ m.sqrt ((1 - t.cs_turb_crij2) / t.cs_turb_crij1 * rnnb * kinetic_en))
  -- *uk * y / l_visc and *uk * kr / l_visc
  ∧ l_visc ≠ 0
  -- sqrt(krp)
  ∧ 0 ≤ krp
  ∧ (if yrplus ≤ 1e-1 then
      -- vel / uplus with uplus = *yplus
      yplus ≠ 0
    else if yrplus ≤ 200 then
      -- log(yrplus)
      0 < yrplus
      -- vel / uplus, and when wf *yplus / uplus
      ∧ vdriest_uplus_fit m yrplus ≠ 0
      -- when wf: the exponents / cs_turb_vdriest, 2. / (1. + *lmk), 1. / (1. + lmk15)
      ∧ (wf = true → t.cs_turb_vdriest ≠ 0 ∧ 1 + lmk ≠ 0 ∧ 1 + lmk15 ≠ 0)
    else
      -- log((yrplus)/(200.+dyrp)) / cs_turb_xkappa
      200 + dyrp ≠ 0 ∧ 0 < yrplus / (200 + dyrp) ∧ t.cs_turb_xkappa ≠ 0
      -- vel / uplus, and when wf *yplus / uplus
      ∧ vdriest_uplus_asym m t yrplus dyrp ≠ 0
      -- when wf: the exponents / cs_turb_vdriest, 2. / *lmk, 1. / lmk15
      ∧ (wf = true → t.cs_turb_vdriest ≠ 0 ∧ lmk ≠ 0 ∧ lmk15 ≠ 0))

/-! ## Vocabulary of the statements -/

/-- The call that turned `s` into `s1` incremented `nlogla`. -/
def counted_log_layer (s s1 : Outputs α) : Prop := s1.nlogla = s.nlogla + 1

/-- Two results carry the same `ustar`, `uk`, `yplus`, `ypup` and `cofimp`. -/
def same_physical (r1 r2 : Outputs α) : Prop :=
  r1.ustar = r2.ustar ∧ r1.uk = r2.uk ∧ r1.yplus = r2.yplus
    ∧ r1.ypup = r2.ypup ∧ r1.cofimp = r2.cofimp

/-- The call that turned `s1` into `r1` and the call that turned `s2` into `r2`
applied the same increments to `nsubla` and to `nlogla`. -/
def same_increments (s1 r1 s2 r2 : Outputs α) : Prop :=
  r1.nsubla - s1.nsubla = r2.nsubla - s2.nsubla
    ∧ r1.nlogla - s1.nlogla = r2.nlogla - s2.nlogla

/-- Between the counters of `s` (before a call) and `s1` (after it), exactly
one of `nsubla`, `nlogla` grew by exactly 1 and the other did not move. -/
def counted_once (s s1 : Outputs α) : Prop :=
  (s1.nsubla = s.nsubla + 1 ∧ s1.nlogla = s.nlogla)
    ∨ (s1.nsubla = s.nsubla ∧ s1.nlogla = s.nlogla + 1)

/-- The call that turned `s` into `s1` incremented `nsubla`. -/
def counted_sublayer (s s1 : Outputs α) : Prop := s1.nsubla = s.nsubla + 1

end Code

/-! ## The real instance and the standard constants -/

/-- The `<math.h>` functions over the reals. -/
noncomputable def realLibm : Libm ℝ where
  sqrt := Real.sqrt
  exp := Real.exp
  log := Real.log
  pow := fun x y => x ^ y

/-- The constants named by the scenarios: `kappa = 0.42`, `cstlog = 5.2`, the
Werner-Wengle `apow = 8.3`, `bpow = 1/7`, `dpow = 1/(1+bpow)`; the remaining
fields carry the usual Code_Saturne values (`cmu = 0.09`, `crij1 = 1.8`,
`crij2 = 0.6`, `vdriest = 25.6`). -/
noncomputable def stdTurb : cs_turb_t ℝ where
  cs_turb_xkappa := 0.42
  cs_turb_cstlog := 5.2
  cs_turb_apow := 8.3
  cs_turb_bpow := 1 / 7
  cs_turb_dpow := 1 / (1 + 1 / 7)
  cs_turb_cmu025 := Real.sqrt (Real.sqrt 0.09)
  cs_turb_crij1 := 1.8
  cs_turb_crij2 := 0.6
  cs_turb_vdriest := 25.6

/-- A descriptor with the default limit `ypluli = 10.88` and the given model. -/
noncomputable def stdConf (iwallf : cs_wall_function_type_t) : cs_wall_functions_t ℝ where
  iwallf := iwallf
  iwallt := 0
  ypluli := 10.88

/-- Some values behind the output pointers on entry, with `iuntur = 1` and the
counters at zero. -/
noncomputable def entry1 : Outputs ℝ where
  iuntur := 1
  nsubla := 0
  nlogla := 0
  ustar := 0
  uk := 0
  yplus := 0
  dplus := 0
  ypup := 0
  cofimp := 0
  lmk := 0

/-! ## Counters and the regime indicator -/

section Counters

variable {α : Type} [LinearOrderedField α]

/-- C1. One call of any variant (disabled, 1-scale power, 1-scale log, 2-scale
log, 2-scale scalable, Van Driest with `wf = true`) increases exactly one of
the counters `nsubla`, `nlogla` by exactly 1 and leaves the other unchanged, so
`nsubla + nlogla` increases by exactly 1.  This holds for every input, in
particular for `l_visc > 0`, `y > 0`, `vel >= 0`. -/
theorem counters_increase_by_one (m : Libm α) (t : cs_turb_t α) (g : cs_wall_functions_t α)
    (ifac : Int) (rnnb l_visc t_visc vel y kinetic_en kr : α) (s : Outputs α) :
    (counted_once s (cs_wall_functions_disabled m g l_visc t_visc vel y s)
      ∧ counted_once s (cs_wall_functions_1scale_power m t g l_visc vel y s)
      ∧ counted_once s (cs_wall_functions_1scale_log m t g ifac l_visc vel y s)
      ∧ counted_once s (cs_wall_functions_2scales_log m t g l_visc t_visc vel y kinetic_en s)
      ∧ counted_once s (cs_wall_functions_2scales_scalable m t g l_visc t_visc vel y kinetic_en s)
      ∧ counted_once s
          (cs_wall_functions_2scales_vdriest m t rnnb l_visc vel y kinetic_en kr true s))
    ∧ (∀ s1 : Outputs α, counted_once s s1 → s1.nsubla + s1.nlogla = s.nsubla + s.nlogla + 1) := by
  refine ⟨⟨?_, ?_, ?_, ?_, ?_, ?_⟩, ?_⟩
  · unfold cs_wall_functions_disabled counted_once
    dsimp only
    split_ifs <;> simp
  · unfold cs_wall_functions_1scale_power counted_once
    dsimp only
    split_ifs <;> simp
  · unfold cs_wall_functions_1scale_log cs_wall_functions_1scale_log_run counted_once
    dsimp only
    split_ifs <;> simp
  · unfold cs_wall_functions_2scales_log counted_once
    dsimp only
    split_ifs <;> simp
  · unfold cs_wall_functions_2scales_scalable counted_once
    dsimp only
    split_ifs <;> simp
  · unfold cs_wall_functions_2scales_vdriest counted_once
    simp only [if_true]
    split_ifs <;> simp
  · intro s1 h
    rcases h with ⟨h1, h2⟩ | ⟨h1, h2⟩ <;> rw [h1, h2] <;> ring

/-- C2 (as amended). With `iuntur = 1` on entry, for the disabled, 1-scale
power, 1-scale log, 2-scale log and Van Driest variants `iuntur` is 0 after the
call if and only if the call incremented `nsubla`; the scalable variant leaves
`iuntur` at 1 in both of its branches. -/
theorem iuntur_zero_iff_sublayer (m : Libm α) (t : cs_turb_t α) (g : cs_wall_functions_t α)
    (ifac : Int) (rnnb l_visc t_visc vel y kinetic_en kr : α) (wf : Bool) (s : Outputs α)
    (h : s.iuntur = 1) :
    ((cs_wall_functions_disabled m g l_visc t_visc vel y s).iuntur = 0
        ↔ counted_sublayer s (cs_wall_functions_disabled m g l_visc t_visc vel y s))
    ∧ ((cs_wall_functions_1scale_power m t g l_visc vel y s).iuntur = 0
        ↔ counted_sublayer s (cs_wall_functions_1scale_power m t g l_visc vel y s))
    ∧ ((cs_wall_functions_1scale_log m t g ifac l_visc vel y s).iuntur = 0
        ↔ counted_sublayer s (cs_wall_functions_1scale_log m t g ifac l_visc vel y s))
    ∧ ((cs_wall_functions_2scales_log m t g l_visc t_visc vel y kinetic_en s).iuntur = 0
        ↔ counted_sublayer s
            (cs_wall_functions_2scales_log m t g l_visc t_visc vel y kinetic_en s))
    ∧ ((cs_wall_functions_2scales_vdriest m t rnnb l_visc vel y kinetic_en kr wf s).iuntur = 0
        ↔ counted_sublayer s
            (cs_wall_functions_2scales_vdriest m t rnnb l_visc vel y kinetic_en kr wf s))
    ∧ (cs_wall_functions_2scales_scalable m t g l_visc t_visc vel y kinetic_en s).iuntur = 1 := by
  refine ⟨?_, ?_, ?_, ?_, ?_, ?_⟩
  · unfold cs_wall_functions_disabled counted_sublayer
    dsimp only
    split_ifs <;> simp
  · unfold cs_wall_functions_1scale_power counted_sublayer
    dsimp only
    split_ifs <;> simp [h]
  · unfold cs_wall_functions_1scale_log cs_wall_functions_1scale_log_run counted_sublayer
    dsimp only
    split_ifs <;> simp [h]
  · unfold cs_wall_functions_2scales_log counted_sublayer
    dsimp only
    split_ifs <;> simp [h]
  · unfold cs_wall_functions_2scales_vdriest counted_sublayer
    cases wf <;> simp only [if_true, if_false, Bool.false_eq_true] <;> split_ifs <;> simp [h]
  · unfold cs_wall_functions_2scales_scalable
    dsimp only
    split_ifs <;> simp [h]

end Counters

/-- C2, witness of the amended statement: the six calls at `l_visc = 1e-5`,
`t_visc = 1e-5`, `vel = 1`, `y = 0.001`, `kinetic_en = 0`, `rnnb = 0`, `kr = 0`,
entered with `iuntur = 1`. -/
theorem iuntur_zero_iff_sublayer_witness :
    entry1.iuntur = 1
    ∧ (((cs_wall_functions_disabled realLibm (stdConf .CS_WALL_F_DISABLED)
            1e-5 1e-5 1 0.001 entry1).iuntur = 0
        ↔ counted_sublayer entry1 (cs_wall_functions_disabled realLibm
            (stdConf .CS_WALL_F_DISABLED) 1e-5 1e-5 1 0.001 entry1))
      ∧ ((cs_wall_functions_1scale_power realLibm stdTurb (stdConf .CS_WALL_F_DISABLED)
            1e-5 1 0.001 entry1).iuntur = 0
        ↔ counted_sublayer entry1 (cs_wall_functions_1scale_power realLibm stdTurb
            (stdConf .CS_WALL_F_DISABLED) 1e-5 1 0.001 entry1))
      ∧ ((cs_wall_functions_1scale_log realLibm stdTurb (stdConf .CS_WALL_F_DISABLED) 7
            1e-5 1 0.001 entry1).iuntur = 0
        ↔ counted_sublayer entry1 (cs_wall_functions_1scale_log realLibm stdTurb
            (stdConf .CS_WALL_F_DISABLED) 7 1e-5 1 0.001 entry1))
      ∧ ((cs_wall_functions_2scales_log realLibm stdTurb (stdConf .CS_WALL_F_DISABLED)
            1e-5 1e-5 1 0.001 0 entry1).iuntur = 0
        ↔ counted_sublayer entry1 (cs_wall_functions_2scales_log realLibm stdTurb
            (stdConf .CS_WALL_F_DISABLED) 1e-5 1e-5 1 0.001 0 entry1))
      ∧ ((cs_wall_functions_2scales_vdriest realLibm stdTurb 0 1e-5 1 0.001 0 0 true
            entry1).iuntur = 0
        ↔ counted_sublayer entry1 (cs_wall_functions_2scales_vdriest realLibm stdTurb
            0 1e-5 1 0.001 0 0 true entry1))
      ∧ (cs_wall_functions_2scales_scalable realLibm stdTurb (stdConf .CS_WALL_F_DISABLED)
            1e-5 1e-5 1 0.001 0 entry1).iuntur = 1) :=
  ⟨rfl, iuntur_zero_iff_sublayer realLibm stdTurb (stdConf .CS_WALL_F_DISABLED) 7
    0 1e-5 1e-5 1 0.001 0 0 true entry1 rfl⟩

/-- C2, counterexample: the scalable variant at the valid input `l_visc = 1e-5`,
`t_visc = 1e-5`, `vel = 1`, `y = 0.001`, `kinetic_en = 0`, entered with
`iuntur = 1`, increments `nsubla` (the raw `yplus` is 0, below `ypluli`) and
leaves `iuntur` at 1: "`iuntur == 0` iff the call incremented `nsubla`" fails. -/
theorem scalable_counts_sublayer_keeps_iuntur :
    entry1.iuntur = 1 ∧ (0 : ℝ) < 1e-5 ∧ (0 : ℝ) < 0.001 ∧ (0 : ℝ) ≤ 1
    ∧ counted_sublayer entry1
        (cs_wall_functions_2scales_scalable realLibm stdTurb
          (stdConf .CS_WALL_F_SCALABLE_2SCALES_LOG) 1e-5 1e-5 1 0.001 0 entry1)
    ∧ (cs_wall_functions_2scales_scalable realLibm stdTurb
          (stdConf .CS_WALL_F_SCALABLE_2SCALES_LOG) 1e-5 1e-5 1 0.001 0 entry1).iuntur = 1
    ∧ ¬ ((cs_wall_functions_2scales_scalable realLibm stdTurb
            (stdConf .CS_WALL_F_SCALABLE_2SCALES_LOG) 1e-5 1e-5 1 0.001 0 entry1).iuntur = 0
          ↔ counted_sublayer entry1
              (cs_wall_functions_2scales_scalable realLibm stdTurb
                (stdConf .CS_WALL_F_SCALABLE_2SCALES_LOG) 1e-5 1e-5 1 0.001 0 entry1)) := by
  have hb : ¬ (stdTurb.cs_turb_cmu025 * realLibm.sqrt 0 * 0.001 / 1e-5
      > (stdConf .CS_WALL_F_SCALABLE_2SCALES_LOG).ypluli) := by
    simp only [realLibm, stdConf, Real.sqrt_zero]
    norm_num
  have h1 : counted_sublayer entry1
        (cs_wall_functions_2scales_scalable realLibm stdTurb
          (stdConf .CS_WALL_F_SCALABLE_2SCALES_LOG) 1e-5 1e-5 1 0.001 0 entry1) := by
    unfold cs_wall_functions_2scales_scalable counted_sublayer
    simp only [if_neg hb]
  have h2 : (cs_wall_functions_2scales_scalable realLibm stdTurb
          (stdConf .CS_WALL_F_SCALABLE_2SCALES_LOG) 1e-5 1e-5 1 0.001 0 entry1).iuntur = 1 := by
    unfold cs_wall_functions_2scales_scalable
    simp only [if_neg hb]
    rfl
  refine ⟨rfl, by norm_num, by norm_num, by norm_num, h1, h2, ?_⟩
  intro hiff
  have h0 := hiff.mpr h1
  rw [h2] at h0
  exact absurd h0 (by decide)

/-! ## Disabled variant and linear sublayer branches -/

/-- C3. The disabled variant returns `ustar = sqrt(vel*l_visc/y)`,
`yplus = ustar*y/l_visc`, `uk = ustar`, `ypup = l_visc/(l_visc + t_visc)`,
`cofimp = 0`, `iuntur = 0`, increments `nsubla` and leaves `nlogla` unchanged,
for every input and every `ypluli`; at `l_visc = 1e-5`, `t_visc = 0`, `vel = 1`,
`y = 0.001` it gives `ustar = 0.1`, `yplus = 10`, `iuntur = 0`, `nsubla + 1`. -/
theorem disabled_outputs :
    (∀ (α : Type) [LinearOrderedField α] (m : Libm α) (g : cs_wall_functions_t α)
        (l_visc t_visc vel y : α) (s : Outputs α),
        (cs_wall_functions_disabled m g l_visc t_visc vel y s).ustar = m.sqrt (vel * l_visc / y)
        ∧ (cs_wall_functions_disabled m g l_visc t_visc vel y s).yplus
            = (cs_wall_functions_disabled m g l_visc t_visc vel y s).ustar * y / l_visc
        ∧ (cs_wall_functions_disabled m g l_visc t_visc vel y s).uk
            = (cs_wall_functions_disabled m g l_visc t_visc vel y s).ustar
        ∧ (cs_wall_functions_disabled m g l_visc t_visc vel y s).ypup = l_visc / (l_visc + t_visc)
        ∧ (cs_wall_functions_disabled m g l_visc t_visc vel y s).cofimp = 0
        ∧ (cs_wall_functions_disabled m g l_visc t_visc vel y s).iuntur = 0
        ∧ (cs_wall_functions_disabled m g l_visc t_visc vel y s).nsubla = s.nsubla + 1
        ∧ (cs_wall_functions_disabled m g l_visc t_visc vel y s).nlogla = s.nlogla)
    ∧ (∀ (g : cs_wall_functions_t ℝ) (s : Outputs ℝ),
        (cs_wall_functions_disabled realLibm g 1e-5 0 1 0.001 s).ustar = 0.1
        ∧ (cs_wall_functions_disabled realLibm g 1e-5 0 1 0.001 s).yplus = 10
        ∧ (cs_wall_functions_disabled realLibm g 1e-5 0 1 0.001 s).iuntur = 0
        ∧ (cs_wall_functions_disabled realLibm g 1e-5 0 1 0.001 s).nsubla = s.nsubla + 1) := by
  have gen : ∀ (α : Type) [LinearOrderedField α] (m : Libm α) (g : cs_wall_functions_t α)
        (l_visc t_visc vel y : α) (s : Outputs α),
        (cs_wall_functions_disabled m g l_visc t_visc vel y s).ustar = m.sqrt (vel * l_visc / y)
        ∧ (cs_wall_functions_disabled m g l_visc t_visc vel y s).yplus
            = (cs_wall_functions_disabled m g l_visc t_visc vel y s).ustar * y / l_visc
        ∧ (cs_wall_functions_disabled m g l_visc t_visc vel y s).uk
            = (cs_wall_functions_disabled m g l_visc t_visc vel y s).ustar
        ∧ (cs_wall_functions_disabled m g l_visc t_visc vel y s).ypup = l_visc / (l_visc + t_visc)
        ∧ (cs_wall_functions_disabled m g l_visc t_visc vel y s).cofimp = 0
        ∧ (cs_wall_functions_disabled m g l_visc t_visc vel y s).iuntur = 0
        ∧ (cs_wall_functions_disabled m g l_visc t_visc vel y s).nsubla = s.nsubla + 1
        ∧ (cs_wall_functions_disabled m g l_visc t_visc vel y s).nlogla = s.nlogla := by
    intro α _ m g l_visc t_visc vel y s
    unfold cs_wall_functions_disabled
    dsimp only
    split_ifs <;> simp
  refine ⟨gen, ?_⟩
  intro g s
  obtain ⟨hu, hy, -, -, -, hi, hn, -⟩ := gen ℝ realLibm g 1e-5 0 1 0.001 s
  have hsq : Real.sqrt (1 * 1e-5 / 0.001) = 0.1 := by
    have e : (1 * 1e-5 / 0.001 : ℝ) = 0.1 ^ 2 := by norm_num
    rw [e, Real.sqrt_sq (by norm_num)]
  have hu1 : (cs_wall_functions_disabled realLibm g 1e-5 0 1 0.001 s).ustar = 0.1 := by
    rw [hu]
    exact hsq
  refine ⟨hu1, ?_, hi, hn⟩
  rw [hy, hu1]
  norm_num

section Sublayer

variable {α : Type} [LinearOrderedField α]

/-- C4. 1-scale power law: whenever the power-law value
`yplus_p = (vel/(apow*(y/l_visc)^bpow))^dpow * (y/l_visc)` is `<= ypluli`, the
call returns the linear-sublayer closed form `ustar = sqrt(vel*l_visc/y)`,
`uk = ustar`, `yplus = ustar*y/l_visc`, `ypup = 1`, `cofimp = 0`, `iuntur = 0`
and increments `nsubla`, not `nlogla`. -/
theorem power_sublayer_closed_form (m : Libm α) (t : cs_turb_t α) (g : cs_wall_functions_t α)
    (l_visc vel y : α) (s : Outputs α)
    (h : m.pow (vel / (t.cs_turb_apow * m.pow (y / l_visc) t.cs_turb_bpow)) t.cs_turb_dpow
          * (y / l_visc) ≤ g.ypluli) :
    (cs_wall_functions_1scale_power m t g l_visc vel y s).ustar = m.sqrt (vel * l_visc / y)
    ∧ (cs_wall_functions_1scale_power m t g l_visc vel y s).uk
        = (cs_wall_functions_1scale_power m t g l_visc vel y s).ustar
    ∧ (cs_wall_functions_1scale_power m t g l_visc vel y s).yplus
        = (cs_wall_functions_1scale_power m t g l_visc vel y s).ustar * y / l_visc
    ∧ (cs_wall_functions_1scale_power m t g l_visc vel y s).ypup = 1
    ∧ (cs_wall_functions_1scale_power m t g l_visc vel y s).cofimp = 0
    ∧ (cs_wall_functions_1scale_power m t g l_visc vel y s).iuntur = 0
    ∧ (cs_wall_functions_1scale_power m t g l_visc vel y s).nsubla = s.nsubla + 1
    ∧ (cs_wall_functions_1scale_power m t g l_visc vel y s).nlogla = s.nlogla := by
  unfold cs_wall_functions_1scale_power
  simp only [if_pos h, div_div_eq_mul_div, mul_div_assoc, and_self]

/-- C6. 1-scale log law: whenever `reynolds = vel*y/l_visc` is not above
`ypluli^2`, the call returns the linear-sublayer closed form
`ustar = sqrt(vel*l_visc/y)`, `uk = ustar`, `yplus = ustar*y/l_visc`, `ypup = 1`,
`cofimp = 0`, `iuntur = 0`, increments `nsubla` (not `nlogla`), performs no
iteration (`iter` stays 0, `ustaro` is never assigned) and prints no warning. -/
theorem log_sublayer_closed_form (m : Libm α) (t : cs_turb_t α) (g : cs_wall_functions_t α)
    (ifac : Int) (l_visc vel y : α) (s : Outputs α)
    (h : vel * y / l_visc ≤ g.ypluli ^ 2) :
    (cs_wall_functions_1scale_log m t g ifac l_visc vel y s).ustar = m.sqrt (vel * l_visc / y)
    ∧ (cs_wall_functions_1scale_log m t g ifac l_visc vel y s).uk
        = (cs_wall_functions_1scale_log m t g ifac l_visc vel y s).ustar
    ∧ (cs_wall_functions_1scale_log m t g ifac l_visc vel y s).yplus
        = (cs_wall_functions_1scale_log m t g ifac l_visc vel y s).ustar * y / l_visc
    ∧ (cs_wall_functions_1scale_log m t g ifac l_visc vel y s).ypup = 1
    ∧ (cs_wall_functions_1scale_log m t g ifac l_visc vel y s).cofimp = 0
    ∧ (cs_wall_functions_1scale_log m t g ifac l_visc vel y s).iuntur = 0
    ∧ (cs_wall_functions_1scale_log m t g ifac l_visc vel y s).nsubla = s.nsubla + 1
    ∧ (cs_wall_functions_1scale_log m t g ifac l_visc vel y s).nlogla = s.nlogla
    ∧ (cs_wall_functions_1scale_log_run m t g ifac l_visc vel y s).iter = 0
    ∧ (cs_wall_functions_1scale_log_run m t g ifac l_visc vel y s).ustaro = none
    ∧ (cs_wall_functions_1scale_log_run m t g ifac l_visc vel y s).printed = [] := by
  have h1 : vel * (y / l_visc) ≤ g.ypluli * g.ypluli := by
    rw [← mul_div_assoc, ← sq]
    exact h
  unfold cs_wall_functions_1scale_log cs_wall_functions_1scale_log_run
  simp only [if_pos h1, div_div_eq_mul_div, mul_div_assoc, and_self]

end Sublayer

/-- C4, witness: a wall at rest relative to the fluid (`vel = 0`,
`l_visc = 1e-5`, `y = 0.001`) has power-law `yplus = 0 <= 10.88`. -/
theorem power_sublayer_closed_form_witness :
    (realLibm.pow (0 / (stdTurb.cs_turb_apow * realLibm.pow (0.001 / 1e-5) stdTurb.cs_turb_bpow))
        stdTurb.cs_turb_dpow * (0.001 / 1e-5) ≤ (stdConf .CS_WALL_F_1SCALE_POWER).ypluli)
    ∧ ((cs_wall_functions_1scale_power realLibm stdTurb (stdConf .CS_WALL_F_1SCALE_POWER)
          1e-5 0 0.001 entry1).ustar = realLibm.sqrt (0 * 1e-5 / 0.001)
      ∧ (cs_wall_functions_1scale_power realLibm stdTurb (stdConf .CS_WALL_F_1SCALE_POWER)
          1e-5 0 0.001 entry1).uk
          = (cs_wall_functions_1scale_power realLibm stdTurb (stdConf .CS_WALL_F_1SCALE_POWER)
              1e-5 0 0.001 entry1).ustar
      ∧ (cs_wall_functions_1scale_power realLibm stdTurb (stdConf .CS_WALL_F_1SCALE_POWER)
          1e-5 0 0.001 entry1).yplus
          = (cs_wall_functions_1scale_power realLibm stdTurb (stdConf .CS_WALL_F_1SCALE_POWER)
              1e-5 0 0.001 entry1).ustar * 0.001 / 1e-5
      ∧ (cs_wall_functions_1scale_power realLibm stdTurb (stdConf .CS_WALL_F_1SCALE_POWER)
          1e-5 0 0.001 entry1).ypup = 1
      ∧ (cs_wall_functions_1scale_power realLibm stdTurb (stdConf .CS_WALL_F_1SCALE_POWER)
          1e-5 0 0.001 entry1).cofimp = 0
      ∧ (cs_wall_functions_1scale_power realLibm stdTurb (stdConf .CS_WALL_F_1SCALE_POWER)
          1e-5 0 0.001 entry1).iuntur = 0
      ∧ (cs_wall_functions_1scale_power realLibm stdTurb (stdConf .CS_WALL_F_1SCALE_POWER)
          1e-5 0 0.001 entry1).nsubla = entry1.nsubla + 1
      ∧ (cs_wall_functions_1scale_power realLibm stdTurb (stdConf .CS_WALL_F_1SCALE_POWER)
          1e-5 0 0.001 entry1).nlogla = entry1.nlogla) := by
  have h : realLibm.pow
        (0 / (stdTurb.cs_turb_apow * realLibm.pow (0.001 / 1e-5) stdTurb.cs_turb_bpow))
        stdTurb.cs_turb_dpow * (0.001 / 1e-5) ≤ (stdConf .CS_WALL_F_1SCALE_POWER).ypluli := by
    have e : (0 : ℝ) ^ (1 / (1 + 1 / 7) : ℝ) = 0 := Real.zero_rpow (by norm_num)
    simp only [realLibm, stdTurb, stdConf, zero_div, e]
    norm_num
  exact ⟨h, power_sublayer_closed_form realLibm stdTurb (stdConf .CS_WALL_F_1SCALE_POWER)
    1e-5 0 0.001 entry1 h⟩

/-- C6, witness: `vel = 0`, `l_visc = 1e-5`, `y = 0.001` has `reynolds = 0`,
not above `10.88^2`. -/
theorem log_sublayer_closed_form_witness :
    ((0 : ℝ) * 0.001 / 1e-5 ≤ (stdConf .CS_WALL_F_1SCALE_LOG).ypluli ^ 2)
    ∧ ((cs_wall_functions_1scale_log realLibm stdTurb (stdConf .CS_WALL_F_1SCALE_LOG) 7
          1e-5 0 0.001 entry1).ustar = realLibm.sqrt (0 * 1e-5 / 0.001)
      ∧ (cs_wall_functions_1scale_log realLibm stdTurb (stdConf .CS_WALL_F_1SCALE_LOG) 7
          1e-5 0 0.001 entry1).uk
          = (cs_wall_functions_1scale_log realLibm stdTurb (stdConf .CS_WALL_F_1SCALE_LOG) 7
              1e-5 0 0.001 entry1).ustar
      ∧ (cs_wall_functions_1scale_log realLibm stdTurb (stdConf .CS_WALL_F_1SCALE_LOG) 7
          1e-5 0 0.001 entry1).yplus
          = (cs_wall_functions_1scale_log realLibm stdTurb (stdConf .CS_WALL_F_1SCALE_LOG) 7
              1e-5 0 0.001 entry1).ustar * 0.001 / 1e-5
      ∧ (cs_wall_functions_1scale_log realLibm stdTurb (stdConf .CS_WALL_F_1SCALE_LOG) 7
          1e-5 0 0.001 entry1).ypup = 1
      ∧ (cs_wall_functions_1scale_log realLibm stdTurb (stdConf .CS_WALL_F_1SCALE_LOG) 7
          1e-5 0 0.001 entry1).cofimp = 0
      ∧ (cs_wall_functions_1scale_log realLibm stdTurb (stdConf .CS_WALL_F_1SCALE_LOG) 7
          1e-5 0 0.001 entry1).iuntur = 0
      ∧ (cs_wall_functions_1scale_log realLibm stdTurb (stdConf .CS_WALL_F_1SCALE_LOG) 7
          1e-5 0 0.001 entry1).nsubla = entry1.nsubla + 1
      ∧ (cs_wall_functions_1scale_log realLibm stdTurb (stdConf .CS_WALL_F_1SCALE_LOG) 7
          1e-5 0 0.001 entry1).nlogla = entry1.nlogla
      ∧ (cs_wall_functions_1scale_log_run realLibm stdTurb (stdConf .CS_WALL_F_1SCALE_LOG) 7
          1e-5 0 0.001 entry1).iter = 0
      ∧ (cs_wall_functions_1scale_log_run realLibm stdTurb (stdConf .CS_WALL_F_1SCALE_LOG) 7
          1e-5 0 0.001 entry1).ustaro = none
      ∧ (cs_wall_functions_1scale_log_run realLibm stdTurb (stdConf .CS_WALL_F_1SCALE_LOG) 7
          1e-5 0 0.001 entry1).printed = []) := by
  have h : (0 : ℝ) * 0.001 / 1e-5 ≤ (stdConf .CS_WALL_F_1SCALE_LOG).ypluli ^ 2 := by
    simp only [stdConf]
    norm_num
  exact ⟨h, log_sublayer_closed_form realLibm stdTurb (stdConf .CS_WALL_F_1SCALE_LOG) 7
    1e-5 0 0.001 entry1 h⟩

/-! ## 1-scale power law, log-layer scenario -/

/-- The seventh root of `y/l_visc = 0.01/1.5e-5` is at most 3. -/
lemma ydvisc_root_le_three : ((0.01 / 1.5e-5 : ℝ)) ^ (1 / 7 : ℝ) ≤ 3 := by
  have h3 : ((3 : ℝ) ^ (7 : ℕ)) ^ (1 / 7 : ℝ) = 3 := by
    have := Real.pow_rpow_inv_natCast (x := (3 : ℝ)) (n := 7) (by norm_num) (by norm_num)
    simpa using this
  calc ((0.01 / 1.5e-5 : ℝ)) ^ (1 / 7 : ℝ)
      ≤ ((3 : ℝ) ^ (7 : ℕ)) ^ (1 / 7 : ℝ) :=
        Real.rpow_le_rpow (by norm_num) (by norm_num) (by norm_num)
    _ = 3 := h3

/-- The Werner-Wengle friction velocity of the scenario `vel = 20`, `y = 0.01`,
`l_visc = 1.5e-5` is at least `0.8`. -/
lemma power_scenario_ustar_ge :
    (0.8 : ℝ) ≤ ((20 : ℝ) / (8.3 * (0.01 / 1.5e-5 : ℝ) ^ (1 / 7 : ℝ))) ^ (1 / (1 + 1 / 7) : ℝ) := by
  have ht := ydvisc_root_le_three
  have ht0 : (0 : ℝ) < (0.01 / 1.5e-5 : ℝ) ^ (1 / 7 : ℝ) :=
    Real.rpow_pos_of_pos (by norm_num) _
  have hb : (0.8 : ℝ) ≤ (20 : ℝ) / (8.3 * (0.01 / 1.5e-5 : ℝ) ^ (1 / 7 : ℝ)) := by
    rw [le_div_iff₀ (by positivity)]
    nlinarith
  have h1 : (0.8 : ℝ) ≤ (0.8 : ℝ) ^ (1 / (1 + 1 / 7) : ℝ) := by
    have := Real.rpow_le_rpow_of_exponent_ge (x := (0.8 : ℝ)) (y := 1)
      (z := (1 / (1 + 1 / 7) : ℝ)) (by norm_num) (by norm_num) (by norm_num)
    simpa using this
  exact h1.trans (Real.rpow_le_rpow (by norm_num) hb (by norm_num))

/-- C5. 1-scale power law with `apow = 8.3`, `bpow = 1/7`, `dpow = 1/(1+bpow)`,
`ypluli = 10.88` at `vel = 20`, `y = 0.01`, `l_visc = 1.5e-5`: the power-law
`yplus` exceeds `ypluli`, the call is counted in the log layer (`nlogla + 1`,
`nsubla` and `iuntur` unchanged), `ustar = (vel/(apow*(y/l_visc)^bpow))^dpow`,
`uk = ustar`, `ypup = vel^(2*dpow-1)/apow^(2*dpow)` and
`cofimp = 1 + bpow*ustar^(bpow+1-1/dpow)*(2^(bpow-1) - 2)`. -/
theorem power_log_layer_scenario (s : Outputs ℝ) :
    (cs_wall_functions_1scale_power realLibm stdTurb (stdConf .CS_WALL_F_1SCALE_POWER)
        1.5e-5 20 0.01 s).yplus > 10.88
    ∧ (cs_wall_functions_1scale_power realLibm stdTurb (stdConf .CS_WALL_F_1SCALE_POWER)
        1.5e-5 20 0.01 s).nlogla = s.nlogla + 1
    ∧ (cs_wall_functions_1scale_power realLibm stdTurb (stdConf .CS_WALL_F_1SCALE_POWER)
        1.5e-5 20 0.01 s).nsubla = s.nsubla
    ∧ (cs_wall_functions_1scale_power realLibm stdTurb (stdConf .CS_WALL_F_1SCALE_POWER)
        1.5e-5 20 0.01 s).iuntur = s.iuntur
    ∧ (cs_wall_functions_1scale_power realLibm stdTurb (stdConf .CS_WALL_F_1SCALE_POWER)
        1.5e-5 20 0.01 s).ustar
        = ((20 : ℝ) / (8.3 * (0.01 / 1.5e-5 : ℝ) ^ (1 / 7 : ℝ))) ^ (1 / (1 + 1 / 7) : ℝ)
    ∧ (cs_wall_functions_1scale_power realLibm stdTurb (stdConf .CS_WALL_F_1SCALE_POWER)
        1.5e-5 20 0.01 s).yplus
        = (cs_wall_functions_1scale_power realLibm stdTurb (stdConf .CS_WALL_F_1SCALE_POWER)
            1.5e-5 20 0.01 s).ustar * (0.01 / 1.5e-5)
    ∧ (cs_wall_functions_1scale_power realLibm stdTurb (stdConf .CS_WALL_F_1SCALE_POWER)
        1.5e-5 20 0.01 s).uk
        = (cs_wall_functions_1scale_power realLibm stdTurb (stdConf .CS_WALL_F_1SCALE_POWER)
            1.5e-5 20 0.01 s).ustar
    ∧ (cs_wall_functions_1scale_power realLibm stdTurb (stdConf .CS_WALL_F_1SCALE_POWER)
        1.5e-5 20 0.01 s).ypup
        = (20 : ℝ) ^ (2 * (1 / (1 + 1 / 7)) - 1 : ℝ) / (8.3 : ℝ) ^ (2 * (1 / (1 + 1 / 7)) : ℝ)
    ∧ (cs_wall_functions_1scale_power realLibm stdTurb (stdConf .CS_WALL_F_1SCALE_POWER)
        1.5e-5 20 0.01 s).cofimp
        = 1 + (1 / 7 : ℝ)
            * (cs_wall_functions_1scale_power realLibm stdTurb
                (stdConf .CS_WALL_F_1SCALE_POWER) 1.5e-5 20 0.01 s).ustar
                ^ (1 / 7 + 1 - 1 / (1 / (1 + 1 / 7)) : ℝ)
            * ((2 : ℝ) ^ (1 / 7 - 1 : ℝ) - 2) := by
  have hu := power_scenario_ustar_ge
  have hy : ¬ (realLibm.pow ((20 : ℝ) / (stdTurb.cs_turb_apow
        * realLibm.pow (0.01 / 1.5e-5) stdTurb.cs_turb_bpow)) stdTurb.cs_turb_dpow
        * (0.01 / 1.5e-5) ≤ (stdConf .CS_WALL_F_1SCALE_POWER).ypluli) := by
    simp only [realLibm, stdTurb, stdConf, not_le]
    nlinarith
  unfold cs_wall_functions_1scale_power
  simp only [if_neg hy]
  simp only [realLibm, stdTurb, stdConf, and_true, true_and]
  nlinarith

/-! ## 1-scale log law: the fixed-point loop -/

section Loop

variable {α : Type} [LinearOrderedField α]

/-- The loop never moves `iter` past `niter_max`. -/
lemma ustar_loop_iter_le (m : Libm α) (t : cs_turb_t α) (vel ydvisc eps : α) (niter_max : Nat)
    (iter : Nat) (ustaro ustar : α) (h : iter ≤ niter_max) :
    (ustar_loop m t vel ydvisc eps niter_max iter ustaro ustar).1 ≤ niter_max := by
  induction iter, ustaro, ustar using ustar_loop.induct m t vel ydvisc eps niter_max with
  | case1 iter ustaro ustar hc ih =>
    rw [ustar_loop, if_pos hc]
    exact ih (Nat.succ_le_of_lt hc.1)
  | case2 iter ustaro ustar hc =>
    rw [ustar_loop, if_neg hc]
    exact h

/-- When the loop stops before `niter_max`, the stopping test
`fabs(*ustar - ustaro) >= eps * ustaro` is false for the values it returns. -/
lemma ustar_loop_exit (m : Libm α) (t : cs_turb_t α) (vel ydvisc eps : α) (niter_max : Nat)
    (iter : Nat) (ustaro ustar : α)
    (h : (ustar_loop m t vel ydvisc eps niter_max iter ustaro ustar).1 < niter_max) :
    |(ustar_loop m t vel ydvisc eps niter_max iter ustaro ustar).2.2
        - (ustar_loop m t vel ydvisc eps niter_max iter ustaro ustar).2.1|
      < eps * (ustar_loop m t vel ydvisc eps niter_max iter ustaro ustar).2.1 := by
  induction iter, ustaro, ustar using ustar_loop.induct m t vel ydvisc eps niter_max with
  | case1 iter ustaro ustar hc ih =>
    rw [ustar_loop, if_pos hc] at h ⊢
    exact ih h
  | case2 iter ustaro ustar hc =>
    rw [ustar_loop, if_neg hc] at h ⊢
    by_contra hn
    exact hc ⟨h, not_lt.mp hn⟩

/-- C9. 1-scale log law termination: on every input the fixed-point loop
executes at most 100 update steps (the final `iter` is at most
`niter_max = 100`); the function, defined by recursion on `niter_max - iter`,
returns on every input. -/
theorem log_loop_at_most_100_steps (m : Libm α) (t : cs_turb_t α) (g : cs_wall_functions_t α)
    (ifac : Int) (l_visc vel y : α) (s : Outputs α) :
    (cs_wall_functions_1scale_log_run m t g ifac l_visc vel y s).iter ≤ 100 := by
  unfold cs_wall_functions_1scale_log_run
  by_cases hc : vel * (y / l_visc) ≤ g.ypluli * g.ypluli
  · simp only [if_pos hc]
    exact Nat.zero_le _
  · simp only [if_neg hc]
    exact ustar_loop_iter_le m t vel (y / l_visc) 0.001 100 0 _ _ (Nat.zero_le _)

/-- C8. 1-scale log law, log branch (`reynolds > ypluli^2`): the warning, which
carries `ifac` and the final `ustar`, is printed if and only if the loop
performed all 100 update steps, and nothing is printed otherwise; in both
cases `uk`, `yplus`, `ypup`, `cofimp` are computed from the last iterate
`ustar` by the same formulas and `nlogla` is incremented. -/
theorem log_warning_iff_cap_reached (m : Libm α) (t : cs_turb_t α) (g : cs_wall_functions_t α)
    (ifac : Int) (l_visc vel y : α) (s : Outputs α)
    (h : vel * y / l_visc > g.ypluli ^ 2) :
    ((cs_wall_functions_1scale_log_run m t g ifac l_visc vel y s).printed
        = [(ifac, (cs_wall_functions_1scale_log_run m t g ifac l_visc vel y s).out.ustar)]
      ↔ (cs_wall_functions_1scale_log_run m t g ifac l_visc vel y s).iter = 100)
    ∧ ((cs_wall_functions_1scale_log_run m t g ifac l_visc vel y s).printed = []
      ↔ (cs_wall_functions_1scale_log_run m t g ifac l_visc vel y s).iter < 100)
    ∧ (cs_wall_functions_1scale_log_run m t g ifac l_visc vel y s).out.uk
        = (cs_wall_functions_1scale_log_run m t g ifac l_visc vel y s).out.ustar
    ∧ (cs_wall_functions_1scale_log_run m t g ifac l_visc vel y s).out.yplus
        = (cs_wall_functions_1scale_log_run m t g ifac l_visc vel y s).out.ustar * (y / l_visc)
    ∧ (cs_wall_functions_1scale_log_run m t g ifac l_visc vel y s).out.ypup
        = (cs_wall_functions_1scale_log_run m t g ifac l_visc vel y s).out.yplus
          / (m.log (cs_wall_functions_1scale_log_run m t g ifac l_visc vel y s).out.yplus
              / t.cs_turb_xkappa + t.cs_turb_cstlog)
    ∧ (cs_wall_functions_1scale_log_run m t g ifac l_visc vel y s).out.cofimp
        = 1 - (cs_wall_functions_1scale_log_run m t g ifac l_visc vel y s).out.ypup
              / t.cs_turb_xkappa * 1.5
              / (cs_wall_functions_1scale_log_run m t g ifac l_visc vel y s).out.yplus
    ∧ (cs_wall_functions_1scale_log_run m t g ifac l_visc vel y s).out.nlogla = s.nlogla + 1
    ∧ (cs_wall_functions_1scale_log_run m t g ifac l_visc vel y s).out.nsubla = s.nsubla
    ∧ (cs_wall_functions_1scale_log_run m t g ifac l_visc vel y s).out.iuntur = s.iuntur := by
  have h1 : ¬ (vel * (y / l_visc) ≤ g.ypluli * g.ypluli) := by
    rw [← mul_div_assoc, ← sq]
    exact not_le.mpr h
  have hle := log_loop_at_most_100_steps m t g ifac l_visc vel y s
  unfold cs_wall_functions_1scale_log_run at hle ⊢
  simp only [if_neg h1, and_true] at hle ⊢
  refine ⟨?_, ?_⟩
  · constructor
    · intro hp
      by_contra hne
      rw [if_neg (by omega)] at hp
      exact absurd hp (by simp)
    · intro he
      rw [if_pos (by omega)]
  · constructor
    · intro hp
      by_contra hne
      rw [if_pos (by omega)] at hp
      exact absurd hp (by simp)
    · intro he
      rw [if_neg (by omega)]

end Loop

/-! ## 2-scale log law, viscous branch -/

section TwoScales

variable {α : Type} [LinearOrderedField α]

/-- C10. 2-scale log law, viscous branch: when `yplus = uk*y/l_visc <= ypluli`
the call returns `ustar = |vel/yplus|` if `yplus > 1e-12` and the constant
`ustar = 0` if `yplus <= 1e-12`, with `ypup = 1`, `cofimp = 0`, `iuntur = 0`,
`nsubla` incremented and `nlogla` unchanged. -/
theorem two_scales_log_viscous_branch (m : Libm α) (t : cs_turb_t α)
    (g : cs_wall_functions_t α) (l_visc t_visc vel y kinetic_en : α) (s : Outputs α)
    (h : (cs_wall_functions_2scales_log m t g l_visc t_visc vel y kinetic_en s).uk * y / l_visc
          ≤ g.ypluli) :
    (cs_wall_functions_2scales_log m t g l_visc t_visc vel y kinetic_en s).yplus
        = (cs_wall_functions_2scales_log m t g l_visc t_visc vel y kinetic_en s).uk * y / l_visc
    ∧ ((cs_wall_functions_2scales_log m t g l_visc t_visc vel y kinetic_en s).yplus > 1e-12 →
        (cs_wall_functions_2scales_log m t g l_visc t_visc vel y kinetic_en s).ustar
          = |vel / (cs_wall_functions_2scales_log m t g l_visc t_visc vel y kinetic_en s).yplus|)
    ∧ ((cs_wall_functions_2scales_log m t g l_visc t_visc vel y kinetic_en s).yplus ≤ 1e-12 →
        (cs_wall_functions_2scales_log m t g l_visc t_visc vel y kinetic_en s).ustar = 0)
    ∧ (cs_wall_functions_2scales_log m t g l_visc t_visc vel y kinetic_en s).ypup = 1
    ∧ (cs_wall_functions_2scales_log m t g l_visc t_visc vel y kinetic_en s).cofimp = 0
    ∧ (cs_wall_functions_2scales_log m t g l_visc t_visc vel y kinetic_en s).iuntur = 0
    ∧ (cs_wall_functions_2scales_log m t g l_visc t_visc vel y kinetic_en s).nsubla
        = s.nsubla + 1
    ∧ (cs_wall_functions_2scales_log m t g l_visc t_visc vel y kinetic_en s).nlogla
        = s.nlogla := by
  have huk : (cs_wall_functions_2scales_log m t g l_visc t_visc vel y kinetic_en s).uk
      = m.sqrt ((1 - m.exp (-(m.sqrt kinetic_en * y / l_visc) / 11)) * t.cs_turb_cmu025
                  * t.cs_turb_cmu025 * kinetic_en
                + m.exp (-(m.sqrt kinetic_en * y / l_visc) / 11) * l_visc * vel / y) := by
    unfold cs_wall_functions_2scales_log
    dsimp only
    split_ifs <;> rfl
  rw [huk] at h
  have hb : ¬ (m.sqrt ((1 - m.exp (-(m.sqrt kinetic_en * y / l_visc) / 11)) * t.cs_turb_cmu025
                  * t.cs_turb_cmu025 * kinetic_en
                + m.exp (-(m.sqrt kinetic_en * y / l_visc) / 11) * l_visc * vel / y)
                * y / l_visc > g.ypluli) := not_lt.mpr h
  unfold cs_wall_functions_2scales_log
  simp only [if_neg hb, true_and, and_true]
  constructor
  · intro hy
    rw [if_pos hy]
  · intro hy
    rw [if_neg (not_lt.mpr hy)]

end TwoScales

/-! ## 1-scale log law: convergence of the scenario `vel = 1`, `y = 0.01`, `l_visc = 1e-5`

On the interval `[0.06, 0.07]`, which contains the seed, the update map sends
the interval into itself and contracts distances by `1/40`; the stopping test
therefore holds after at most two update steps. -/

lemma exp_four_le : Real.exp 4 ≤ 60 := by
  have e1 : Real.exp 1 ≤ 2.72 := by
    have := Real.exp_one_lt_d9
    linarith
  have e4 : Real.exp 4 = Real.exp 1 ^ 4 := by
    rw [← Real.exp_nat_mul]
    norm_num
  rw [e4]
  calc Real.exp 1 ^ 4 ≤ (2.72 : ℝ) ^ 4 := pow_le_pow_left₀ (Real.exp_pos 1).le e1 4
    _ ≤ 60 := by norm_num

lemma le_exp_four_half : (70 : ℝ) ≤ Real.exp 4.5 := by
  have e1 : (2.71 : ℝ) ≤ Real.exp 1 := by
    have := Real.exp_one_gt_d9
    linarith
  have e4 : Real.exp 4 = Real.exp 1 ^ 4 := by
    rw [← Real.exp_nat_mul]
    norm_num
  have h4 : (53 : ℝ) ≤ Real.exp 4 := by
    rw [e4]
    calc (53 : ℝ) ≤ (2.71 : ℝ) ^ 4 := by norm_num
      _ ≤ Real.exp 1 ^ 4 := pow_le_pow_left₀ (by norm_num) e1 4
  have h5 : (1.5 : ℝ) ≤ Real.exp 0.5 := by
    have := Real.add_one_le_exp (0.5 : ℝ)
    linarith
  have e : Real.exp 4.5 = Real.exp 4 * Real.exp 0.5 := by
    rw [← Real.exp_add]
    norm_num
  rw [e]
  nlinarith

lemma log_bounds (u : ℝ) (h1 : 0.06 ≤ u) (h2 : u ≤ 0.07) :
    4 ≤ Real.log (1000 * u) ∧ Real.log (1000 * u) ≤ 4.5 := by
  have hpos : (0 : ℝ) < 1000 * u := by linarith
  constructor
  · rw [Real.le_log_iff_exp_le hpos]
    have := exp_four_le
    linarith
  · rw [Real.log_le_iff_le_exp hpos]
    have := le_exp_four_half
    linarith

lemma log_diff_bounds (x y : ℝ) (hy : 0 < y) (hx : 0 < x) :
    (x - y) ≤ (Real.log (1000 * x) - Real.log (1000 * y)) * x
    ∧ (Real.log (1000 * x) - Real.log (1000 * y)) * y ≤ (x - y) := by
  have hx0 : (1000 * x) ≠ 0 := by positivity
  have hy0 : (1000 * y) ≠ 0 := by positivity
  constructor
  · have h := Real.log_le_sub_one_of_pos (x := 1000 * y / (1000 * x)) (by positivity)
    rw [Real.log_div hy0 hx0] at h
    have e : 1000 * y / (1000 * x) - 1 = (y - x) / x := by
      field_simp
      ring
    rw [e, le_div_iff₀ hx] at h
    linarith
  · have h := Real.log_le_sub_one_of_pos (x := 1000 * x / (1000 * y)) (by positivity)
    rw [Real.log_div hx0 hy0] at h
    have e : 1000 * x / (1000 * y) - 1 = (x - y) / y := by
      field_simp
      ring
    rw [e, le_div_iff₀ hy] at h
    linarith

/-- The update map of the scenario `vel = 1`, `y = 0.01`, `l_visc = 1e-5` with
`kappa = 0.42`, `cstlog = 5.2`, written out. -/
lemma ustar_update_scenario (u : ℝ) :
    ustar_update realLibm stdTurb 1 (0.01 / 1e-5) u
      = (0.42 + u) / (Real.log (1000 * u) + 3.184) := by
  have e1 : (0.01 / 1e-5 : ℝ) = 1000 := by norm_num
  have e2 : (0.42 * 1 : ℝ) = 0.42 := by norm_num
  have e3 : ∀ z : ℝ, z + 0.42 * 5.2 + 1 = z + 3.184 := fun z => by norm_num [add_assoc]
  unfold ustar_update
  simp only [realLibm, stdTurb]
  rw [e1, e2, e3]

lemma update_maps (u : ℝ) (h1 : 0.06 ≤ u) (h2 : u ≤ 0.07) : 0.06 ≤ ustar_update realLibm stdTurb 1 (0.01 / 1e-5) u ∧ ustar_update realLibm stdTurb 1 (0.01 / 1e-5) u ≤ 0.07 := by
  obtain ⟨ha, hb⟩ := log_bounds u h1 h2
  have hD : (0 : ℝ) < Real.log (1000 * u) + 3.184 := by linarith
  rw [ustar_update_scenario]
  constructor
  · rw [le_div_iff₀ hD]
    nlinarith
  · rw [div_le_iff₀ hD]
    nlinarith

lemma update_contract_aux (x y : ℝ) (hy1 : 0.06 ≤ y) (hyx : y ≤ x) (hx2 : x ≤ 0.07) :
    |ustar_update realLibm stdTurb 1 (0.01 / 1e-5) x - ustar_update realLibm stdTurb 1 (0.01 / 1e-5) y| ≤ (1 / 40) * (x - y) := by
  have hx1 : 0.06 ≤ x := hy1.trans hyx
  have hy2 : y ≤ 0.07 := hyx.trans hx2
  obtain ⟨hax, hbx⟩ := log_bounds x hx1 hx2
  obtain ⟨hay, hby⟩ := log_bounds y hy1 hy2
  obtain ⟨hl1, hl2⟩ := log_diff_bounds x y (by linarith) (by linarith)
  set a := Real.log (1000 * x) with ha
  set b := Real.log (1000 * y) with hb
  have hDx : (0 : ℝ) < a + 3.184 := by linarith
  have hDy : (0 : ℝ) < b + 3.184 := by linarith
  have hd : 0 ≤ x - y := by linarith
  have hL0 : 0 ≤ a - b := by
    by_contra hneg
    push_neg at hneg
    nlinarith
  -- bounds of L = a - b in terms of d = x - y
  have hLlo : (x - y) ≤ (a - b) * 0.07 := by nlinarith
  have hLhi : (a - b) * 0.06 ≤ (x - y) := by nlinarith
  have hDD : (51 : ℝ) ≤ (a + 3.184) * (b + 3.184) := by nlinarith
  have e : ustar_update realLibm stdTurb 1 (0.01 / 1e-5) x
        - ustar_update realLibm stdTurb 1 (0.01 / 1e-5) y
      = ((x - y) * (b + 3.184) - (0.42 + y) * (a - b)) / ((a + 3.184) * (b + 3.184)) := by
    rw [ustar_update_scenario, ustar_update_scenario, ← ha, ← hb]
    field_simp
    ring
  have hpos : (0 : ℝ) < (a + 3.184) * (b + 3.184) := by positivity
  rw [e, abs_le]
  constructor
  · rw [le_div_iff₀ hpos]
    have h1 : (0.42 + y) * (a - b) ≤ 0.49 * (a - b) :=
      mul_le_mul_of_nonneg_right (by linarith) hL0
    have h2 : (x - y) * 7.184 ≤ (x - y) * (b + 3.184) :=
      mul_le_mul_of_nonneg_left (by linarith) hd
    have h3 : (x - y) * 51 ≤ (x - y) * ((a + 3.184) * (b + 3.184)) :=
      mul_le_mul_of_nonneg_left hDD hd
    linarith
  · rw [div_le_iff₀ hpos]
    have h1 : 0.48 * (a - b) ≤ (0.42 + y) * (a - b) :=
      mul_le_mul_of_nonneg_right (by linarith) hL0
    have h2 : (x - y) * (b + 3.184) ≤ (x - y) * 7.684 :=
      mul_le_mul_of_nonneg_left (by linarith) hd
    have h3 : (x - y) * 51 ≤ (x - y) * ((a + 3.184) * (b + 3.184)) :=
      mul_le_mul_of_nonneg_left hDD hd
    linarith

lemma update_contract (x y : ℝ) (hx1 : 0.06 ≤ x) (hx2 : x ≤ 0.07) (hy1 : 0.06 ≤ y) (hy2 : y ≤ 0.07) :
    |ustar_update realLibm stdTurb 1 (0.01 / 1e-5) x - ustar_update realLibm stdTurb 1 (0.01 / 1e-5) y| ≤ (1 / 40) * |x - y| := by
  rcases le_total y x with h | h
  · rw [abs_of_nonneg (sub_nonneg.mpr h)]
    exact update_contract_aux x y hy1 h hx2
  · rw [abs_sub_comm (ustar_update realLibm stdTurb 1 (0.01 / 1e-5) x), abs_sub_comm x, abs_of_nonneg (sub_nonneg.mpr h)]
    exact update_contract_aux y x hx1 h hy2

lemma root7_bounds : (2.6 : ℝ) ≤ (1000 : ℝ) ^ (1 / 7 : ℝ) ∧ (1000 : ℝ) ^ (1 / 7 : ℝ) ≤ 2.7 := by
  have e1 : ((2.6 : ℝ) ^ (7 : ℕ)) ^ (1 / 7 : ℝ) = 2.6 := by
    have := Real.pow_rpow_inv_natCast (x := (2.6 : ℝ)) (n := 7) (by norm_num) (by norm_num)
    simpa using this
  have e2 : ((2.7 : ℝ) ^ (7 : ℕ)) ^ (1 / 7 : ℝ) = 2.7 := by
    have := Real.pow_rpow_inv_natCast (x := (2.7 : ℝ)) (n := 7) (by norm_num) (by norm_num)
    simpa using this
  constructor
  · calc (2.6 : ℝ) = ((2.6 : ℝ) ^ (7 : ℕ)) ^ (1 / 7 : ℝ) := e1.symm
      _ ≤ (1000 : ℝ) ^ (1 / 7 : ℝ) :=
        Real.rpow_le_rpow (by norm_num) (by norm_num) (by norm_num)
  · calc (1000 : ℝ) ^ (1 / 7 : ℝ) ≤ ((2.7 : ℝ) ^ (7 : ℕ)) ^ (1 / 7 : ℝ) :=
        Real.rpow_le_rpow (by norm_num) (by norm_num) (by norm_num)
      _ = 2.7 := e2

lemma rpow_seven_eighths_bounds (b : ℝ) (h1 : 0.0446 ≤ b) (h2 : b ≤ 0.0464) :
    0.06 ≤ b ^ (1 / (1 + 1 / 7) : ℝ) ∧ b ^ (1 / (1 + 1 / 7) : ℝ) ≤ 0.07 := by
  have hb0 : (0 : ℝ) ≤ b := by linarith
  have e : b ^ (1 / (1 + 1 / 7) : ℝ) = (b ^ (7 : ℕ)) ^ (1 / 8 : ℝ) := by
    rw [← Real.rpow_natCast_mul hb0]
    norm_num
  have e1 : ((0.06 : ℝ) ^ (8 : ℕ)) ^ (1 / 8 : ℝ) = 0.06 := by
    have := Real.pow_rpow_inv_natCast (x := (0.06 : ℝ)) (n := 8) (by norm_num) (by norm_num)
    simpa using this
  have e2 : ((0.07 : ℝ) ^ (8 : ℕ)) ^ (1 / 8 : ℝ) = 0.07 := by
    have := Real.pow_rpow_inv_natCast (x := (0.07 : ℝ)) (n := 8) (by norm_num) (by norm_num)
    simpa using this
  have p1 : (0.0446 : ℝ) ^ (7 : ℕ) ≤ b ^ (7 : ℕ) := pow_le_pow_left₀ (by norm_num) h1 7
  have p2 : b ^ (7 : ℕ) ≤ (0.0464 : ℝ) ^ (7 : ℕ) := pow_le_pow_left₀ hb0 h2 7
  rw [e]
  constructor
  · calc (0.06 : ℝ) = ((0.06 : ℝ) ^ (8 : ℕ)) ^ (1 / 8 : ℝ) := e1.symm
      _ ≤ (b ^ (7 : ℕ)) ^ (1 / 8 : ℝ) :=
        Real.rpow_le_rpow (by positivity) (le_trans (by norm_num) p1) (by norm_num)
  · calc (b ^ (7 : ℕ)) ^ (1 / 8 : ℝ) ≤ ((0.07 : ℝ) ^ (8 : ℕ)) ^ (1 / 8 : ℝ) :=
        Real.rpow_le_rpow (by positivity) (le_trans p2 (by norm_num)) (by norm_num)
      _ = 0.07 := e2

lemma seed_bounds :
    0.06 ≤ (|(1 : ℝ)| / 8.3 / (0.01 / 1e-5 : ℝ) ^ (1 / 7 : ℝ)) ^ (1 / (1 + 1 / 7) : ℝ)
    ∧ (|(1 : ℝ)| / 8.3 / (0.01 / 1e-5 : ℝ) ^ (1 / 7 : ℝ)) ^ (1 / (1 + 1 / 7) : ℝ) ≤ 0.07 := by
  obtain ⟨t1, t2⟩ := root7_bounds
  have ey : (0.01 / 1e-5 : ℝ) = 1000 := by norm_num
  rw [ey, abs_one]
  have ht : (0 : ℝ) < (1000 : ℝ) ^ (1 / 7 : ℝ) := by linarith
  apply rpow_seven_eighths_bounds
  · rw [le_div_iff₀ ht]
    nlinarith
  · rw [div_le_iff₀ ht]
    nlinarith

/-- The seed `CS_MAX(ustarwer, ustarmin)` of the scenario lies in `[0.06, 0.07]`. -/
lemma scenario_seed_bounds :
    0.06 ≤ CS_MAX (realLibm.pow (|(1 : ℝ)| / stdTurb.cs_turb_apow
              / realLibm.pow (0.01 / 1e-5) stdTurb.cs_turb_bpow) stdTurb.cs_turb_dpow)
            (realLibm.exp (-stdTurb.cs_turb_cstlog * stdTurb.cs_turb_xkappa) / (0.01 / 1e-5))
    ∧ CS_MAX (realLibm.pow (|(1 : ℝ)| / stdTurb.cs_turb_apow
              / realLibm.pow (0.01 / 1e-5) stdTurb.cs_turb_bpow) stdTurb.cs_turb_dpow)
            (realLibm.exp (-stdTurb.cs_turb_cstlog * stdTurb.cs_turb_xkappa) / (0.01 / 1e-5))
        ≤ 0.07 := by
  obtain ⟨w1, w2⟩ := seed_bounds
  have hmin : Real.exp (-(5.2 : ℝ) * 0.42) / (0.01 / 1e-5) ≤ 0.001 := by
    have h1 : Real.exp (-(5.2 : ℝ) * 0.42) ≤ 1 := Real.exp_le_one_iff.mpr (by norm_num)
    rw [div_le_iff₀ (by norm_num)]
    calc Real.exp (-(5.2 : ℝ) * 0.42) ≤ 1 := h1
      _ ≤ 0.001 * (0.01 / 1e-5) := by norm_num
  simp only [realLibm, stdTurb, CS_MAX]
  rw [if_pos (by linarith)]
  exact ⟨w1, w2⟩

/-- Entered at a seed in `[0.06, 0.07]`, the loop of the scenario stops after at
most two update steps. -/
lemma scenario_loop_iter_le (u0 : ℝ) (h1 : 0.06 ≤ u0) (h2 : u0 ≤ 0.07) :
    (ustar_loop realLibm stdTurb 1 (0.01 / 1e-5) 0.001 100 0 u0
        (ustar_update realLibm stdTurb 1 (0.01 / 1e-5) u0)).1 ≤ 2 := by
  obtain ⟨a1, a2⟩ := update_maps u0 h1 h2
  obtain ⟨b1, b2⟩ := update_maps _ a1 a2
  have c01 := update_contract _ u0 a1 a2 h1 h2
  have c12 := update_contract _ _ b1 b2 a1 a2
  have d0 : |ustar_update realLibm stdTurb 1 (0.01 / 1e-5) u0 - u0| ≤ 0.01 := by
    rw [abs_le]
    constructor <;> linarith
  rw [ustar_loop]
  split_ifs with k0
  · rw [ustar_loop]
    split_ifs with k1
    · have k2 : ¬ (0 + 1 + 1 < 100
          ∧ |ustar_update realLibm stdTurb 1 (0.01 / 1e-5)
                (ustar_update realLibm stdTurb 1 (0.01 / 1e-5)
                  (ustar_update realLibm stdTurb 1 (0.01 / 1e-5) u0))
              - ustar_update realLibm stdTurb 1 (0.01 / 1e-5)
                  (ustar_update realLibm stdTurb 1 (0.01 / 1e-5) u0)|
            ≥ 0.001 * ustar_update realLibm stdTurb 1 (0.01 / 1e-5)
                  (ustar_update realLibm stdTurb 1 (0.01 / 1e-5) u0)) := by
        rintro ⟨-, k2⟩
        have : (0.001 : ℝ) * 0.06 ≤ 0.001 * ustar_update realLibm stdTurb 1 (0.01 / 1e-5)
            (ustar_update realLibm stdTurb 1 (0.01 / 1e-5) u0) := by linarith
        linarith
      rw [ustar_loop, if_neg k2]
    · exact Nat.le_succ 1
  · exact Nat.zero_le 2

/-- C7. 1-scale log law with `kappa = 0.42`, `cstlog = 5.2`, `apow = 8.3`,
`bpow = 1/7`, `dpow = 1/(1+bpow)`, `ypluli = 10.88` at `vel = 1`, `y = 0.01`,
`l_visc = 1e-5`: `reynolds = 1000 > ypluli^2`, the loop stops after fewer than
100 update steps (in fact at most 2) with `|ustar - ustaro| < 0.001 * ustaro`,
and no warning is printed. -/
theorem log_scenario_converges (ifac : Int) (s : Outputs ℝ) :
    ((1 : ℝ) * 0.01 / 1e-5 = 1000 ∧ (1000 : ℝ) > (stdConf .CS_WALL_F_1SCALE_LOG).ypluli ^ 2)
    ∧ (cs_wall_functions_1scale_log_run realLibm stdTurb (stdConf .CS_WALL_F_1SCALE_LOG)
        ifac 1e-5 1 0.01 s).iter < 100
    ∧ (cs_wall_functions_1scale_log_run realLibm stdTurb (stdConf .CS_WALL_F_1SCALE_LOG)
        ifac 1e-5 1 0.01 s).iter ≤ 2
    ∧ (∃ ustaro : ℝ,
        (cs_wall_functions_1scale_log_run realLibm stdTurb (stdConf .CS_WALL_F_1SCALE_LOG)
          ifac 1e-5 1 0.01 s).ustaro = some ustaro
        ∧ |(cs_wall_functions_1scale_log_run realLibm stdTurb (stdConf .CS_WALL_F_1SCALE_LOG)
              ifac 1e-5 1 0.01 s).out.ustar - ustaro| < 0.001 * ustaro)
    ∧ (cs_wall_functions_1scale_log_run realLibm stdTurb (stdConf .CS_WALL_F_1SCALE_LOG)
        ifac 1e-5 1 0.01 s).printed = [] := by
  have hre : ¬ ((1 : ℝ) * (0.01 / 1e-5) ≤ (stdConf .CS_WALL_F_1SCALE_LOG).ypluli
      * (stdConf .CS_WALL_F_1SCALE_LOG).ypluli) := by
    simp only [stdConf]
    norm_num
  obtain ⟨s1, s2⟩ := scenario_seed_bounds
  have hit := scenario_loop_iter_le _ s1 s2
  have hex := ustar_loop_exit realLibm stdTurb 1 (0.01 / 1e-5) 0.001 100 0 _ _
    (lt_of_le_of_lt hit (by norm_num))
  refine ⟨⟨by norm_num, by simp only [stdConf]; norm_num⟩, ?_⟩
  unfold cs_wall_functions_1scale_log_run
  simp only [if_neg hre]
  refine ⟨lt_of_le_of_lt hit (by norm_num), hit, ⟨_, rfl, hex⟩, ?_⟩
  rw [if_neg]
  exact not_le.mpr (lt_of_le_of_lt hit (by norm_num))

/-! ## Witnesses of the log-branch and viscous-branch statements -/

/-- C8, witness: the face 7 with `vel = 1`, `y = 0.01`, `l_visc = 1e-5`, whose
`reynolds = 1000` is above `10.88^2`. -/
theorem log_warning_iff_cap_reached_witness :
    ((1 : ℝ) * 0.01 / 1e-5 > (stdConf .CS_WALL_F_1SCALE_LOG).ypluli ^ 2)
    ∧ (((cs_wall_functions_1scale_log_run realLibm stdTurb (stdConf .CS_WALL_F_1SCALE_LOG) 7
          1e-5 1 0.01 entry1).printed
          = [(7, (cs_wall_functions_1scale_log_run realLibm stdTurb (stdConf .CS_WALL_F_1SCALE_LOG) 7
          1e-5 1 0.01 entry1).out.ustar)]
        ↔ (cs_wall_functions_1scale_log_run realLibm stdTurb (stdConf .CS_WALL_F_1SCALE_LOG) 7
          1e-5 1 0.01 entry1).iter = 100)
      ∧ ((cs_wall_functions_1scale_log_run realLibm stdTurb (stdConf .CS_WALL_F_1SCALE_LOG) 7
          1e-5 1 0.01 entry1).printed = []
        ↔ (cs_wall_functions_1scale_log_run realLibm stdTurb (stdConf .CS_WALL_F_1SCALE_LOG) 7
          1e-5 1 0.01 entry1).iter < 100)
      ∧ (cs_wall_functions_1scale_log_run realLibm stdTurb (stdConf .CS_WALL_F_1SCALE_LOG) 7
          1e-5 1 0.01 entry1).out.uk
          = (cs_wall_functions_1scale_log_run realLibm stdTurb (stdConf .CS_WALL_F_1SCALE_LOG) 7
          1e-5 1 0.01 entry1).out.ustar
      ∧ (cs_wall_functions_1scale_log_run realLibm stdTurb (stdConf .CS_WALL_F_1SCALE_LOG) 7
          1e-5 1 0.01 entry1).out.yplus
          = (cs_wall_functions_1scale_log_run realLibm stdTurb (stdConf .CS_WALL_F_1SCALE_LOG) 7
          1e-5 1 0.01 entry1).out.ustar * (0.01 / 1e-5)
      ∧ (cs_wall_functions_1scale_log_run realLibm stdTurb (stdConf .CS_WALL_F_1SCALE_LOG) 7
          1e-5 1 0.01 entry1).out.ypup
          = (cs_wall_functions_1scale_log_run realLibm stdTurb (stdConf .CS_WALL_F_1SCALE_LOG) 7
          1e-5 1 0.01 entry1).out.yplus
            / (realLibm.log (cs_wall_functions_1scale_log_run realLibm stdTurb (stdConf .CS_WALL_F_1SCALE_LOG) 7
          1e-5 1 0.01 entry1).out.yplus
                / stdTurb.cs_turb_xkappa + stdTurb.cs_turb_cstlog)
      ∧ (cs_wall_functions_1scale_log_run realLibm stdTurb (stdConf .CS_WALL_F_1SCALE_LOG) 7
          1e-5 1 0.01 entry1).out.cofimp
          = 1 - (cs_wall_functions_1scale_log_run realLibm stdTurb (stdConf .CS_WALL_F_1SCALE_LOG) 7
          1e-5 1 0.01 entry1).out.ypup
                / stdTurb.cs_turb_xkappa * 1.5
                / (cs_wall_functions_1scale_log_run realLibm stdTurb (stdConf .CS_WALL_F_1SCALE_LOG) 7
          1e-5 1 0.01 entry1).out.yplus
      ∧ (cs_wall_functions_1scale_log_run realLibm stdTurb (stdConf .CS_WALL_F_1SCALE_LOG) 7
          1e-5 1 0.01 entry1).out.nlogla = entry1.nlogla + 1
      ∧ (cs_wall_functions_1scale_log_run realLibm stdTurb (stdConf .CS_WALL_F_1SCALE_LOG) 7
          1e-5 1 0.01 entry1).out.nsubla = entry1.nsubla
      ∧ (cs_wall_functions_1scale_log_run realLibm stdTurb (stdConf .CS_WALL_F_1SCALE_LOG) 7
          1e-5 1 0.01 entry1).out.iuntur = entry1.iuntur) := by
  have h : (1 : ℝ) * 0.01 / 1e-5 > (stdConf .CS_WALL_F_1SCALE_LOG).ypluli ^ 2 := by
    simp only [stdConf]
    norm_num
  exact ⟨h, log_warning_iff_cap_reached realLibm stdTurb (stdConf .CS_WALL_F_1SCALE_LOG) 7
    1e-5 1 0.01 entry1 h⟩

/-- C10, witness: fluid at rest without turbulence (`vel = 0`, `kinetic_en = 0`,
`l_visc = 1e-5`, `t_visc = 1e-5`, `y = 0.001`) has `uk = 0`, so `yplus = 0`. -/
theorem two_scales_log_viscous_branch_witness :
    ((cs_wall_functions_2scales_log realLibm stdTurb (stdConf .CS_WALL_F_2SCALES_LOG)
          1e-5 1e-5 0 0.001 0 entry1).uk * 0.001 / 1e-5
        ≤ (stdConf .CS_WALL_F_2SCALES_LOG).ypluli)
    ∧ ((cs_wall_functions_2scales_log realLibm stdTurb (stdConf .CS_WALL_F_2SCALES_LOG)
          1e-5 1e-5 0 0.001 0 entry1).yplus
          = (cs_wall_functions_2scales_log realLibm stdTurb (stdConf .CS_WALL_F_2SCALES_LOG)
          1e-5 1e-5 0 0.001 0 entry1).uk * 0.001 / 1e-5
      ∧ ((cs_wall_functions_2scales_log realLibm stdTurb (stdConf .CS_WALL_F_2SCALES_LOG)
          1e-5 1e-5 0 0.001 0 entry1).yplus > 1e-12 →
          (cs_wall_functions_2scales_log realLibm stdTurb (stdConf .CS_WALL_F_2SCALES_LOG)
          1e-5 1e-5 0 0.001 0 entry1).ustar
            = |0 / (cs_wall_functions_2scales_log realLibm stdTurb (stdConf .CS_WALL_F_2SCALES_LOG)
          1e-5 1e-5 0 0.001 0 entry1).yplus|)
      ∧ ((cs_wall_functions_2scales_log realLibm stdTurb (stdConf .CS_WALL_F_2SCALES_LOG)
          1e-5 1e-5 0 0.001 0 entry1).yplus ≤ 1e-12 →
          (cs_wall_functions_2scales_log realLibm stdTurb (stdConf .CS_WALL_F_2SCALES_LOG)
          1e-5 1e-5 0 0.001 0 entry1).ustar = 0)
      ∧ (cs_wall_functions_2scales_log realLibm stdTurb (stdConf .CS_WALL_F_2SCALES_LOG)
          1e-5 1e-5 0 0.001 0 entry1).ypup = 1
      ∧ (cs_wall_functions_2scales_log realLibm stdTurb (stdConf .CS_WALL_F_2SCALES_LOG)
          1e-5 1e-5 0 0.001 0 entry1).cofimp = 0
      ∧ (cs_wall_functions_2scales_log realLibm stdTurb (stdConf .CS_WALL_F_2SCALES_LOG)
          1e-5 1e-5 0 0.001 0 entry1).iuntur = 0
      ∧ (cs_wall_functions_2scales_log realLibm stdTurb (stdConf .CS_WALL_F_2SCALES_LOG)
          1e-5 1e-5 0 0.001 0 entry1).nsubla = entry1.nsubla + 1
      ∧ (cs_wall_functions_2scales_log realLibm stdTurb (stdConf .CS_WALL_F_2SCALES_LOG)
          1e-5 1e-5 0 0.001 0 entry1).nlogla = entry1.nlogla) := by
  have huk : (cs_wall_functions_2scales_log realLibm stdTurb (stdConf .CS_WALL_F_2SCALES_LOG)
          1e-5 1e-5 0 0.001 0 entry1).uk = 0 := by
    have e : (cs_wall_functions_2scales_log realLibm stdTurb (stdConf .CS_WALL_F_2SCALES_LOG)
          1e-5 1e-5 0 0.001 0 entry1).uk
        = realLibm.sqrt ((1 - realLibm.exp (-(realLibm.sqrt 0 * 0.001 / 1e-5) / 11))
              * stdTurb.cs_turb_cmu025 * stdTurb.cs_turb_cmu025 * 0
            + realLibm.exp (-(realLibm.sqrt 0 * 0.001 / 1e-5) / 11) * 1e-5 * 0 / 0.001) := by
      unfold cs_wall_functions_2scales_log
      dsimp only
      split_ifs <;> rfl
    rw [e]
    simp [realLibm]
  have h : (cs_wall_functions_2scales_log realLibm stdTurb (stdConf .CS_WALL_F_2SCALES_LOG)
          1e-5 1e-5 0 0.001 0 entry1).uk * 0.001 / 1e-5
        ≤ (stdConf .CS_WALL_F_2SCALES_LOG).ypluli := by
    rw [huk]
    simp only [stdConf]
    norm_num
  exact ⟨h, two_scales_log_viscous_branch realLibm stdTurb (stdConf .CS_WALL_F_2SCALES_LOG)
    1e-5 1e-5 0 0.001 0 entry1 h⟩

/-! ## Scalable wall function: the shift -/

section Scalable

variable {α : Type} [LinearOrderedField α]

/-- C11. 2-scale scalable log law, with `yplus_raw` the dimensionless distance
computed before the shift (`uk*y/l_visc` for the returned `uk`): the returned
`dplus` is `>= 0`; when `yplus_raw <= ypluli` the returned `yplus` is `ypluli`
and `dplus = ypluli - yplus_raw`; when `yplus_raw > ypluli` the returned
`yplus` is `yplus_raw` and `dplus = 0`; in both cases `yplus >= ypluli` and
`yplus - dplus = yplus_raw`.  This holds for every input. -/
theorem scalable_shift (m : Libm α) (t : cs_turb_t α) (g : cs_wall_functions_t α)
    (l_visc t_visc vel y kinetic_en : α) (s : Outputs α) :
    (cs_wall_functions_2scales_scalable m t g l_visc t_visc vel y kinetic_en s).uk * y / l_visc
        = scalable_yplus_raw m t l_visc y kinetic_en
    ∧ 0 ≤ (cs_wall_functions_2scales_scalable m t g l_visc t_visc vel y kinetic_en s).dplus
    ∧ (scalable_yplus_raw m t l_visc y kinetic_en ≤ g.ypluli →
        (cs_wall_functions_2scales_scalable m t g l_visc t_visc vel y kinetic_en s).yplus
            = g.ypluli
        ∧ (cs_wall_functions_2scales_scalable m t g l_visc t_visc vel y kinetic_en s).dplus
            = g.ypluli - scalable_yplus_raw m t l_visc y kinetic_en)
    ∧ (scalable_yplus_raw m t l_visc y kinetic_en > g.ypluli →
        (cs_wall_functions_2scales_scalable m t g l_visc t_visc vel y kinetic_en s).yplus
            = scalable_yplus_raw m t l_visc y kinetic_en
        ∧ (cs_wall_functions_2scales_scalable m t g l_visc t_visc vel y kinetic_en s).dplus = 0)
    ∧ (cs_wall_functions_2scales_scalable m t g l_visc t_visc vel y kinetic_en s).yplus
        ≥ g.ypluli
    ∧ (cs_wall_functions_2scales_scalable m t g l_visc t_visc vel y kinetic_en s).yplus
        - (cs_wall_functions_2scales_scalable m t g l_visc t_visc vel y kinetic_en s).dplus
        = scalable_yplus_raw m t l_visc y kinetic_en := by
  unfold cs_wall_functions_2scales_scalable scalable_yplus_raw
  by_cases hc : t.cs_turb_cmu025 * m.sqrt kinetic_en * y / l_visc > g.ypluli
  · simp only [if_pos hc]
    refine ⟨trivial, le_refl _, ?_, ?_, le_of_lt hc, sub_zero _⟩
    · intro hle
      exact absurd hc (not_lt.mpr hle)
    · intro _
      exact ⟨trivial, trivial⟩
  · simp only [if_neg hc]
    have hle := not_lt.mp hc
    refine ⟨trivial, sub_nonneg.mpr hle, ?_, ?_, le_refl _, sub_sub_cancel _ _⟩
    · intro _
      exact ⟨trivial, trivial⟩
    · intro hgt
      exact absurd hgt hc

end Scalable

/-- C11, witness: `kinetic_en = 0` gives `yplus_raw = 0 <= 10.88`: the wall is
shifted by `dplus = 10.88`. -/
theorem scalable_shift_witness :
    scalable_yplus_raw realLibm stdTurb 1e-5 0.001 0
        ≤ (stdConf .CS_WALL_F_SCALABLE_2SCALES_LOG).ypluli
    ∧ (cs_wall_functions_2scales_scalable realLibm stdTurb
          (stdConf .CS_WALL_F_SCALABLE_2SCALES_LOG) 1e-5 1e-5 1 0.001 0 entry1).yplus
        = (stdConf .CS_WALL_F_SCALABLE_2SCALES_LOG).ypluli
    ∧ (cs_wall_functions_2scales_scalable realLibm stdTurb
          (stdConf .CS_WALL_F_SCALABLE_2SCALES_LOG) 1e-5 1e-5 1 0.001 0 entry1).dplus
        = (stdConf .CS_WALL_F_SCALABLE_2SCALES_LOG).ypluli
          - scalable_yplus_raw realLibm stdTurb 1e-5 0.001 0 := by
  have h : scalable_yplus_raw realLibm stdTurb 1e-5 0.001 0
        ≤ (stdConf .CS_WALL_F_SCALABLE_2SCALES_LOG).ypluli := by
    simp only [scalable_yplus_raw, realLibm, stdConf, Real.sqrt_zero]
    norm_num
  exact ⟨h, (scalable_shift realLibm stdTurb (stdConf .CS_WALL_F_SCALABLE_2SCALES_LOG)
    1e-5 1e-5 1 0.001 0 entry1).2.2.1 h⟩

/-! ## Single-scale models -/

/-- C19. Single-scale models return `uk` equal to `ustar`: for the disabled,
1-scale power and 1-scale log variants, on every input and in every branch,
the returned `uk` equals the returned `ustar`. -/
theorem single_scale_uk_eq_ustar {α : Type} [LinearOrderedField α] (m : Libm α)
    (t : cs_turb_t α) (g : cs_wall_functions_t α) (ifac : Int) (l_visc t_visc vel y : α)
    (s : Outputs α) :
    (cs_wall_functions_disabled m g l_visc t_visc vel y s).uk
        = (cs_wall_functions_disabled m g l_visc t_visc vel y s).ustar
    ∧ (cs_wall_functions_1scale_power m t g l_visc vel y s).uk
        = (cs_wall_functions_1scale_power m t g l_visc vel y s).ustar
    ∧ (cs_wall_functions_1scale_log m t g ifac l_visc vel y s).uk
        = (cs_wall_functions_1scale_log m t g ifac l_visc vel y s).ustar := by
  refine ⟨?_, ?_, ?_⟩
  · unfold cs_wall_functions_disabled
    dsimp only
    split_ifs <;> rfl
  · unfold cs_wall_functions_1scale_power
    dsimp only
    split_ifs <;> rfl
  · unfold cs_wall_functions_1scale_log cs_wall_functions_1scale_log_run
    by_cases hc : vel * (y / l_visc) ≤ g.ypluli * g.ypluli
    · simp only [if_pos hc]
    · simp only [if_neg hc]

/-! ## Van Driest: the flag `wf` -/

/-- The macro `CS_MAX` is the maximum. -/
lemma CS_MAX_eq_max {α : Type} [LinearOrderedField α] (a b : α) : CS_MAX a b = max a b := by
  unfold CS_MAX
  split_ifs with h
  · exact (max_eq_left (le_of_lt h)).symm
  · exact (max_eq_right (not_lt.mp h)).symm

/-- The macro `CS_MIN` is the minimum. -/
lemma CS_MIN_eq_min {α : Type} [LinearOrderedField α] (a b : α) : CS_MIN a b = min a b := by
  unfold CS_MIN
  split_ifs with h
  · exact (min_eq_left (le_of_lt h)).symm
  · exact (min_eq_right (not_lt.mp h)).symm

/-- C14. Van Driest with `wf = false` writes only `yplus` and `ustar`: `uk` keeps
the caller's value, which forms `yplus = max(uk*y/l_visc, 1e-4)`, and `iuntur`,
`nsubla`, `nlogla`, `ypup`, `cofimp`, `lmk` (and `dplus`) are unchanged in all
three regimes.  With `wf = true`, `uk` is `sqrt(sqrt((1-crij2)/crij1 * rnnb *
kinetic_en))` whatever the incoming `uk`; over the reals this is
`((1-crij2)/crij1 * rnnb * kinetic_en)^(1/4)` when that product is not
negative. -/
theorem vdriest_wf_frame :
    (∀ (α : Type) [LinearOrderedField α] (m : Libm α) (t : cs_turb_t α)
        (rnnb l_visc vel y kinetic_en kr : α) (s : Outputs α),
        (cs_wall_functions_2scales_vdriest m t rnnb l_visc vel y kinetic_en kr false s).uk = s.uk
        ∧ (cs_wall_functions_2scales_vdriest m t rnnb l_visc vel y kinetic_en kr false s).yplus
            = max (s.uk * y / l_visc) 1e-4
        ∧ (cs_wall_functions_2scales_vdriest m t rnnb l_visc vel y kinetic_en kr false s).iuntur
            = s.iuntur
        ∧ (cs_wall_functions_2scales_vdriest m t rnnb l_visc vel y kinetic_en kr false s).nsubla
            = s.nsubla
        ∧ (cs_wall_functions_2scales_vdriest m t rnnb l_visc vel y kinetic_en kr false s).nlogla
            = s.nlogla
        ∧ (cs_wall_functions_2scales_vdriest m t rnnb l_visc vel y kinetic_en kr false s).ypup
            = s.ypup
        ∧ (cs_wall_functions_2scales_vdriest m t rnnb l_visc vel y kinetic_en kr false s).cofimp
            = s.cofimp
        ∧ (cs_wall_functions_2scales_vdriest m t rnnb l_visc vel y kinetic_en kr false s).lmk
            = s.lmk
        ∧ (cs_wall_functions_2scales_vdriest m t rnnb l_visc vel y kinetic_en kr false s).dplus
            = s.dplus)
    ∧ (∀ (α : Type) [LinearOrderedField α] (m : Libm α) (t : cs_turb_t α)
        (rnnb l_visc vel y kinetic_en kr : α) (s : Outputs α),
        (cs_wall_functions_2scales_vdriest m t rnnb l_visc vel y kinetic_en kr true s).uk
          = m.sqrt (m.sqrt ((1 - t.cs_turb_crij2) / t.cs_turb_crij1 * rnnb * kinetic_en)))
    ∧ (∀ (t : cs_turb_t ℝ) (rnnb l_visc vel y kinetic_en kr : ℝ) (s : Outputs ℝ),
        0 ≤ (1 - t.cs_turb_crij2) / t.cs_turb_crij1 * rnnb * kinetic_en →
        (cs_wall_functions_2scales_vdriest realLibm t rnnb l_visc vel y kinetic_en kr true s).uk
          = ((1 - t.cs_turb_crij2) / t.cs_turb_crij1 * rnnb * kinetic_en) ^ (1 / 4 : ℝ)) := by
  have htrue : ∀ (α : Type) [LinearOrderedField α] (m : Libm α) (t : cs_turb_t α)
        (rnnb l_visc vel y kinetic_en kr : α) (s : Outputs α),
        (cs_wall_functions_2scales_vdriest m t rnnb l_visc vel y kinetic_en kr true s).uk
          = m.sqrt (m.sqrt ((1 - t.cs_turb_crij2) / t.cs_turb_crij1 * rnnb * kinetic_en)) := by
    intro α _ m t rnnb l_visc vel y kinetic_en kr s
    unfold cs_wall_functions_2scales_vdriest
    simp only [if_true]
    split_ifs <;> rfl
  refine ⟨?_, htrue, ?_⟩
  · intro α _ m t rnnb l_visc vel y kinetic_en kr s
    unfold cs_wall_functions_2scales_vdriest
    simp only [Bool.false_eq_true, if_false, CS_MAX_eq_max]
    split_ifs <;> simp
  · intro t rnnb l_visc vel y kinetic_en kr s h
    rw [htrue]
    simp only [realLibm]
    rw [Real.sqrt_eq_rpow, Real.sqrt_eq_rpow, ← Real.rpow_mul h]
    norm_num

/-- C14, witness: with the standard constants, `rnnb = 1` and `kinetic_en = 1`
the product `(1-crij2)/crij1 * rnnb * kinetic_en` is `2/9 >= 0`. -/
theorem vdriest_wf_frame_witness :
    (0 : ℝ) ≤ (1 - stdTurb.cs_turb_crij2) / stdTurb.cs_turb_crij1 * 1 * 1
    ∧ (cs_wall_functions_2scales_vdriest realLibm stdTurb 1 1e-5 1 0.001 1 0 true entry1).uk
        = ((1 - stdTurb.cs_turb_crij2) / stdTurb.cs_turb_crij1 * 1 * 1) ^ (1 / 4 : ℝ) := by
  have h : (0 : ℝ) ≤ (1 - stdTurb.cs_turb_crij2) / stdTurb.cs_turb_crij1 * 1 * 1 := by
    simp only [stdTurb]
    norm_num
  exact ⟨h, vdriest_wf_frame.2.2 stdTurb 1 1e-5 1 0.001 1 0 entry1 h⟩

/-! ## Dependence of the outputs on the values found on entry -/

section Transparency

variable {α : Type} [LinearOrderedField α]

/-- C18 (as amended). Two calls of one variant with the same configuration and
physical inputs, entered with different values behind the output pointers
(and different `ifac`), return the same `ustar`, `uk`, `yplus`, `ypup`,
`cofimp` and apply the same counter increments (Van Driest: with `wf = true`,
where `lmk` agrees as well); the scalable variant also returns the same
`dplus`, while the other variants return the `dplus` found on entry.  Van
Driest with `wf = false` and the same incoming `uk` returns the same `ustar`,
`uk`, `yplus`, applies the same (zero) increments and returns the `ypup`,
`cofimp` found on entry. -/
theorem outputs_independent_of_entry (m : Libm α) (t : cs_turb_t α)
    (g : cs_wall_functions_t α) (ifac1 ifac2 : Int)
    (rnnb l_visc t_visc vel y kinetic_en kr : α) (s1 s2 : Outputs α) :
    (same_physical (cs_wall_functions_disabled m g l_visc t_visc vel y s1)
        (cs_wall_functions_disabled m g l_visc t_visc vel y s2)
      ∧ same_increments s1 (cs_wall_functions_disabled m g l_visc t_visc vel y s1)
          s2 (cs_wall_functions_disabled m g l_visc t_visc vel y s2)
      ∧ (cs_wall_functions_disabled m g l_visc t_visc vel y s1).dplus = s1.dplus)
    ∧ (same_physical (cs_wall_functions_1scale_power m t g l_visc vel y s1)
        (cs_wall_functions_1scale_power m t g l_visc vel y s2)
      ∧ same_increments s1 (cs_wall_functions_1scale_power m t g l_visc vel y s1)
          s2 (cs_wall_functions_1scale_power m t g l_visc vel y s2)
      ∧ (cs_wall_functions_1scale_power m t g l_visc vel y s1).dplus = s1.dplus)
    ∧ (same_physical (cs_wall_functions_1scale_log m t g ifac1 l_visc vel y s1)
        (cs_wall_functions_1scale_log m t g ifac2 l_visc vel y s2)
      ∧ same_increments s1 (cs_wall_functions_1scale_log m t g ifac1 l_visc vel y s1)
          s2 (cs_wall_functions_1scale_log m t g ifac2 l_visc vel y s2)
      ∧ (cs_wall_functions_1scale_log m t g ifac1 l_visc vel y s1).dplus = s1.dplus)
    ∧ (same_physical (cs_wall_functions_2scales_log m t g l_visc t_visc vel y kinetic_en s1)
        (cs_wall_functions_2scales_log m t g l_visc t_visc vel y kinetic_en s2)
      ∧ same_increments s1
          (cs_wall_functions_2scales_log m t g l_visc t_visc vel y kinetic_en s1)
          s2 (cs_wall_functions_2scales_log m t g l_visc t_visc vel y kinetic_en s2)
      ∧ (cs_wall_functions_2scales_log m t g l_visc t_visc vel y kinetic_en s1).dplus
          = s1.dplus)
    ∧ (same_physical (cs_wall_functions_2scales_scalable m t g l_visc t_visc vel y kinetic_en s1)
        (cs_wall_functions_2scales_scalable m t g l_visc t_visc vel y kinetic_en s2)
      ∧ same_increments s1
          (cs_wall_functions_2scales_scalable m t g l_visc t_visc vel y kinetic_en s1)
          s2 (cs_wall_functions_2scales_scalable m t g l_visc t_visc vel y kinetic_en s2)
      ∧ (cs_wall_functions_2scales_scalable m t g l_visc t_visc vel y kinetic_en s1).dplus
          = (cs_wall_functions_2scales_scalable m t g l_visc t_visc vel y kinetic_en s2).dplus)
    ∧ (same_physical
        (cs_wall_functions_2scales_vdriest m t rnnb l_visc vel y kinetic_en kr true s1)
        (cs_wall_functions_2scales_vdriest m t rnnb l_visc vel y kinetic_en kr true s2)
      ∧ same_increments s1
          (cs_wall_functions_2scales_vdriest m t rnnb l_visc vel y kinetic_en kr true s1)
          s2 (cs_wall_functions_2scales_vdriest m t rnnb l_visc vel y kinetic_en kr true s2)
      ∧ (cs_wall_functions_2scales_vdriest m t rnnb l_visc vel y kinetic_en kr true s1).lmk
          = (cs_wall_functions_2scales_vdriest m t rnnb l_visc vel y kinetic_en kr true s2).lmk
      ∧ (cs_wall_functions_2scales_vdriest m t rnnb l_visc vel y kinetic_en kr true s1).dplus
          = s1.dplus)
    ∧ (s1.uk = s2.uk →
        (cs_wall_functions_2scales_vdriest m t rnnb l_visc vel y kinetic_en kr false s1).ustar
          = (cs_wall_functions_2scales_vdriest m t rnnb l_visc vel y kinetic_en kr false s2).ustar
        ∧ (cs_wall_functions_2scales_vdriest m t rnnb l_visc vel y kinetic_en kr false s1).uk
          = (cs_wall_functions_2scales_vdriest m t rnnb l_visc vel y kinetic_en kr false s2).uk
        ∧ (cs_wall_functions_2scales_vdriest m t rnnb l_visc vel y kinetic_en kr false s1).yplus
          = (cs_wall_functions_2scales_vdriest m t rnnb l_visc vel y kinetic_en kr false s2).yplus
        ∧ same_increments s1
            (cs_wall_functions_2scales_vdriest m t rnnb l_visc vel y kinetic_en kr false s1)
            s2 (cs_wall_functions_2scales_vdriest m t rnnb l_visc vel y kinetic_en kr false s2)
        ∧ (cs_wall_functions_2scales_vdriest m t rnnb l_visc vel y kinetic_en kr false s1).ypup
          = s1.ypup
        ∧ (cs_wall_functions_2scales_vdriest m t rnnb l_visc vel y kinetic_en kr false s1).cofimp
          = s1.cofimp) := by
  refine ⟨?_, ?_, ?_, ?_, ?_, ?_, ?_⟩
  · unfold cs_wall_functions_disabled same_physical same_increments
    dsimp only
    split_ifs <;> simp
  · unfold cs_wall_functions_1scale_power same_physical same_increments
    dsimp only
    split_ifs <;> simp
  · unfold cs_wall_functions_1scale_log cs_wall_functions_1scale_log_run
      same_physical same_increments
    by_cases hc : vel * (y / l_visc) ≤ g.ypluli * g.ypluli
    · simp [if_pos hc]
    · simp [if_neg hc]
  · unfold cs_wall_functions_2scales_log same_physical same_increments
    dsimp only
    split_ifs <;> simp
  · unfold cs_wall_functions_2scales_scalable same_physical same_increments
    dsimp only
    split_ifs <;> simp
  · unfold cs_wall_functions_2scales_vdriest same_physical same_increments
    simp only [if_true]
    split_ifs <;> simp
  · intro huk
    unfold cs_wall_functions_2scales_vdriest same_increments
    simp only [Bool.false_eq_true, if_false, huk]
    split_ifs <;> simp

end Transparency

/-- C18, witness of the amended statement: two calls entered with `entry1` and
with `entry1` changed in every field but `uk`. -/
theorem outputs_independent_of_entry_witness :
    entry1.uk = ({ entry1 with iuntur := 0, nsubla := 5, nlogla := 9, ustar := 2, yplus := 3,
                                dplus := 4, ypup := 6, cofimp := 7, lmk := 8 } : Outputs ℝ).uk
    ∧ (cs_wall_functions_2scales_vdriest realLibm stdTurb 1 1e-5 1 0.001 1 0 false entry1).ustar
        = (cs_wall_functions_2scales_vdriest realLibm stdTurb 1 1e-5 1 0.001 1 0 false
            { entry1 with iuntur := 0, nsubla := 5, nlogla := 9, ustar := 2, yplus := 3,
                          dplus := 4, ypup := 6, cofimp := 7, lmk := 8 }).ustar
    ∧ (cs_wall_functions_2scales_vdriest realLibm stdTurb 1 1e-5 1 0.001 1 0 false entry1).yplus
        = (cs_wall_functions_2scales_vdriest realLibm stdTurb 1 1e-5 1 0.001 1 0 false
            { entry1 with iuntur := 0, nsubla := 5, nlogla := 9, ustar := 2, yplus := 3,
                          dplus := 4, ypup := 6, cofimp := 7, lmk := 8 }).yplus :=
  ⟨rfl,
   ((outputs_independent_of_entry realLibm stdTurb (stdConf .CS_WALL_F_2SCALES_VDRIEST) 1 2
      1 1e-5 1e-5 1 0.001 1 0 entry1
      { entry1 with iuntur := 0, nsubla := 5, nlogla := 9, ustar := 2, yplus := 3,
                    dplus := 4, ypup := 6, cofimp := 7, lmk := 8 }).2.2.2.2.2.2 rfl).1,
   ((outputs_independent_of_entry realLibm stdTurb (stdConf .CS_WALL_F_2SCALES_VDRIEST) 1 2
      1 1e-5 1e-5 1 0.001 1 0 entry1
      { entry1 with iuntur := 0, nsubla := 5, nlogla := 9, ustar := 2, yplus := 3,
                    dplus := 4, ypup := 6, cofimp := 7, lmk := 8 }).2.2.2.2.2.2 rfl).2.2.1⟩

/-- C18, counterexample: two calls of the disabled variant with the same
configuration and physical inputs, entered with `dplus = 0` and with
`dplus = 4`, return different `dplus` (the variant has the parameter `dplus`
and never assigns it). -/
theorem disabled_returns_entry_dplus :
    (cs_wall_functions_disabled realLibm (stdConf .CS_WALL_F_DISABLED) 1e-5 0 1 0.001
        entry1).dplus = 0
    ∧ (cs_wall_functions_disabled realLibm (stdConf .CS_WALL_F_DISABLED) 1e-5 0 1 0.001
        { entry1 with dplus := 4 }).dplus = 4
    ∧ (cs_wall_functions_disabled realLibm (stdConf .CS_WALL_F_DISABLED) 1e-5 0 1 0.001
        entry1).dplus
      ≠ (cs_wall_functions_disabled realLibm (stdConf .CS_WALL_F_DISABLED) 1e-5 0 1 0.001
        { entry1 with dplus := 4 }).dplus := by
  have h1 : (cs_wall_functions_disabled realLibm (stdConf .CS_WALL_F_DISABLED) 1e-5 0 1 0.001
        entry1).dplus = 0 := by
    unfold cs_wall_functions_disabled
    dsimp only
    split_ifs <;> rfl
  have h2 : (cs_wall_functions_disabled realLibm (stdConf .CS_WALL_F_DISABLED) 1e-5 0 1 0.001
        { entry1 with dplus := 4 }).dplus = 4 := by
    unfold cs_wall_functions_disabled
    dsimp only
    split_ifs <;> rfl
  refine ⟨h1, h2, ?_⟩
  rw [h1, h2]
  norm_num

/-! ## Scalable variant against the 2-scale log variant -/

/-- C12, the two variants at `l_visc = 1e-5`, `t_visc = 1e-5`, `vel = 1`,
`y = 0.001`, `kinetic_en = 0`: the 2-scale log variant returns the blended
`uk = 0.1` and `yplus = 10`, while the scalable variant, whose blended values
are overwritten by `cs_turb_cmu025 * sqrt(kinetic_en)`, returns `uk = 0` and
`yplus - dplus = 0`. -/
theorem scalable_uk_differs_from_two_scales_log :
    (cs_wall_functions_2scales_log realLibm stdTurb (stdConf .CS_WALL_F_2SCALES_LOG)
        1e-5 1e-5 1 0.001 0 entry1).uk = 0.1
    ∧ (cs_wall_functions_2scales_log realLibm stdTurb (stdConf .CS_WALL_F_2SCALES_LOG)
        1e-5 1e-5 1 0.001 0 entry1).yplus = 10
    ∧ (cs_wall_functions_2scales_scalable realLibm stdTurb
        (stdConf .CS_WALL_F_SCALABLE_2SCALES_LOG) 1e-5 1e-5 1 0.001 0 entry1).uk = 0
    ∧ (cs_wall_functions_2scales_scalable realLibm stdTurb
        (stdConf .CS_WALL_F_SCALABLE_2SCALES_LOG) 1e-5 1e-5 1 0.001 0 entry1).yplus
      - (cs_wall_functions_2scales_scalable realLibm stdTurb
        (stdConf .CS_WALL_F_SCALABLE_2SCALES_LOG) 1e-5 1e-5 1 0.001 0 entry1).dplus = 0 := by
  have hsq : Real.sqrt ((1 - Real.exp (-(Real.sqrt 0 * 0.001 / 1e-5) / 11))
        * stdTurb.cs_turb_cmu025 * stdTurb.cs_turb_cmu025 * 0
        + Real.exp (-(Real.sqrt 0 * 0.001 / 1e-5) / 11) * 1e-5 * 1 / 0.001) = 0.1 := by
    have e : ((1 - Real.exp (-(Real.sqrt 0 * 0.001 / 1e-5) / 11))
        * stdTurb.cs_turb_cmu025 * stdTurb.cs_turb_cmu025 * 0
        + Real.exp (-(Real.sqrt 0 * 0.001 / 1e-5) / 11) * 1e-5 * 1 / 0.001 : ℝ) = 0.1 ^ 2 := by
      simp only [Real.sqrt_zero, zero_mul, zero_div, neg_zero, Real.exp_zero]
      norm_num
    rw [e, Real.sqrt_sq (by norm_num)]
  have hlog : (cs_wall_functions_2scales_log realLibm stdTurb (stdConf .CS_WALL_F_2SCALES_LOG)
        1e-5 1e-5 1 0.001 0 entry1).uk = 0.1
      ∧ (cs_wall_functions_2scales_log realLibm stdTurb (stdConf .CS_WALL_F_2SCALES_LOG)
        1e-5 1e-5 1 0.001 0 entry1).yplus = 10 := by
    unfold cs_wall_functions_2scales_log
    simp only [realLibm, hsq]
    have hb : ¬ ((0.1 : ℝ) * 0.001 / 1e-5 > (stdConf .CS_WALL_F_2SCALES_LOG).ypluli) := by
      simp only [stdConf]
      norm_num
    simp only [if_neg hb, true_and]
    norm_num
  have hb : ¬ (stdTurb.cs_turb_cmu025 * realLibm.sqrt 0 * 0.001 / 1e-5
      > (stdConf .CS_WALL_F_SCALABLE_2SCALES_LOG).ypluli) := by
    simp only [realLibm, stdConf, Real.sqrt_zero]
    norm_num
  refine ⟨hlog.1, hlog.2, ?_, ?_⟩
  · unfold cs_wall_functions_2scales_scalable
    simp only [if_neg hb]
    simp [realLibm]
  · unfold cs_wall_functions_2scales_scalable
    simp only [if_neg hb]
    simp [realLibm]

/-! ## Van Driest: the two branches at `yr+ = 200` -/

/-- Bounds of `log 200`, from `200 = 2^8 * (1 - 7/32)`. -/
lemma log_200_bounds :
    (5.298317 : ℝ) ≤ Real.log 200 ∧ Real.log 200 ≤ 5.298318 := by
  have h := Real.abs_log_sub_add_sum_range_le (x := (7 / 32 : ℝ))
    (by rw [abs_of_pos (by norm_num)]; norm_num) 10
  rw [abs_of_pos (by norm_num : (0 : ℝ) < 7 / 32), abs_le] at h
  norm_num [Finset.sum_range_succ] at h
  have e : Real.log 200 = 8 * Real.log 2 + Real.log (25 / 32) := by
    have : (200 : ℝ) = 2 ^ 8 * (25 / 32) := by norm_num
    rw [this, Real.log_mul (by norm_num) (by norm_num), Real.log_pow]
    norm_num
  have l1 := Real.log_two_gt_d9
  have l2 := Real.log_two_lt_d9
  rw [e]
  constructor <;> linarith [h.1, h.2]

/-- Bounds of `log 16.078739022054590` (from above) and of
`log 16.098739022054590` (from below). -/
lemma log_uplus_window :
    Real.log 16.078739022054590 ≤ 2.778 ∧ (2.7783 : ℝ) ≤ Real.log 16.098739022054590 := by
  have l1 := Real.log_two_gt_d9
  have l2 := Real.log_two_lt_d9
  constructor
  · have e : Real.log 16.078739022054590
        = 4 * Real.log 2 + Real.log (16.078739022054590 / 16) := by
      have : (16.078739022054590 : ℝ) = 2 ^ 4 * (16.078739022054590 / 16) := by norm_num
      rw [this, Real.log_mul (by norm_num) (by norm_num), Real.log_pow]
      norm_num
    have h := Real.log_le_sub_one_of_pos (x := (16.078739022054590 / 16 : ℝ)) (by norm_num)
    rw [e]
    norm_num at h ⊢
    linarith
  · have e : Real.log 16.098739022054590
        = 4 * Real.log 2 - Real.log (16 / 16.098739022054590) := by
      have : (16.098739022054590 : ℝ) = 2 ^ 4 / (16 / 16.098739022054590) := by norm_num
      rw [this, Real.log_div (by norm_num) (by norm_num), Real.log_pow]
      norm_num
    have h := Real.log_le_sub_one_of_pos (x := (16 / 16.098739022054590 : ℝ)) (by norm_num)
    rw [e]
    norm_num at h ⊢
    linarith

/-- The polynome of the fit at `y1 = 0.25 * log 200` lies in `[2.778, 2.7783]`. -/
lemma vdriest_fit_exponent_bounds (y : ℝ) (h1 : 1.32457925 ≤ y) (h2 : y ≤ 1.3245795) :
    2.778 ≤ -0.0091921 + 3.9577 * y + 0.031578 * y ^ 2 + -0.51013 * y ^ 3 + -2.3254 * y ^ 4
              + -0.72665 * y ^ 5 + 2.969 * y ^ 6 + 0.48506 * y ^ 7 + -1.5944 * y ^ 8
              + 0.087309 * y ^ 9 + 0.1987 * y ^ 10
    ∧ -0.0091921 + 3.9577 * y + 0.031578 * y ^ 2 + -0.51013 * y ^ 3 + -2.3254 * y ^ 4
              + -0.72665 * y ^ 5 + 2.969 * y ^ 6 + 0.48506 * y ^ 7 + -1.5944 * y ^ 8
              + 0.087309 * y ^ 9 + 0.1987 * y ^ 10 ≤ 2.7783 := by
  have h0 : (0 : ℝ) ≤ 1.32457925 := by norm_num
  have hy0 : (0 : ℝ) ≤ y := h0.trans h1
  have a2 := pow_le_pow_left₀ h0 h1 2
  have a3 := pow_le_pow_left₀ h0 h1 3
  have a4 := pow_le_pow_left₀ h0 h1 4
  have a5 := pow_le_pow_left₀ h0 h1 5
  have a6 := pow_le_pow_left₀ h0 h1 6
  have a7 := pow_le_pow_left₀ h0 h1 7
  have a8 := pow_le_pow_left₀ h0 h1 8
  have a9 := pow_le_pow_left₀ h0 h1 9
  have a10 := pow_le_pow_left₀ h0 h1 10
  have b2 := pow_le_pow_left₀ hy0 h2 2
  have b3 := pow_le_pow_left₀ hy0 h2 3
  have b4 := pow_le_pow_left₀ hy0 h2 4
  have b5 := pow_le_pow_left₀ hy0 h2 5
  have b6 := pow_le_pow_left₀ hy0 h2 6
  have b7 := pow_le_pow_left₀ hy0 h2 7
  have b8 := pow_le_pow_left₀ hy0 h2 8
  have b9 := pow_le_pow_left₀ hy0 h2 9
  have b10 := pow_le_pow_left₀ hy0 h2 10
  norm_num at a2 a3 a4 a5 a6 a7 a8 a9 a10 b2 b3 b4 b5 b6 b7 b8 b9 b10
  constructor <;> linarith

section VanDriestBranches

variable {α : Type} [LinearOrderedField α]

/-- The velocity scale used by `cs_wall_functions_2scales_vdriest`. -/
lemma vdriest_uk (m : Libm α) (t : cs_turb_t α) (rnnb l_visc vel y kinetic_en kr : α)
    (wf : Bool) (s : Outputs α) :
    (cs_wall_functions_2scales_vdriest m t rnnb l_visc vel y kinetic_en kr wf s).uk
      = if wf then
          m.sqrt (m.sqrt ((1 - t.cs_turb_crij2) / t.cs_turb_crij1 * rnnb * kinetic_en))
        else s.uk := by
  unfold cs_wall_functions_2scales_vdriest
  cases wf <;> simp only [if_true, if_false, Bool.false_eq_true] <;> split_ifs <;> rfl

/-- The dimensionless distance returned by `cs_wall_functions_2scales_vdriest`. -/
lemma vdriest_yplus (m : Libm α) (t : cs_turb_t α) (rnnb l_visc vel y kinetic_en kr : α)
    (wf : Bool) (s : Outputs α) :
    (cs_wall_functions_2scales_vdriest m t rnnb l_visc vel y kinetic_en kr wf s).yplus
      = CS_MAX ((cs_wall_functions_2scales_vdriest m t rnnb l_visc vel y kinetic_en kr wf s).uk
                  * y / l_visc) 1e-4 := by
  rw [vdriest_uk]
  unfold cs_wall_functions_2scales_vdriest
  cases wf <;> simp only [if_true, if_false, Bool.false_eq_true] <;> split_ifs <;> rfl

/-- The friction velocity returned by `cs_wall_functions_2scales_vdriest` is
`vel / uplus`, with `uplus` the value of the regime selected by
`yrplus = yplus + dyrp`. -/
lemma vdriest_ustar (m : Libm α) (t : cs_turb_t α) (rnnb l_visc vel y kinetic_en kr : α)
    (wf : Bool) (s : Outputs α) :
    (cs_wall_functions_2scales_vdriest m t rnnb l_visc vel y kinetic_en kr wf s).ustar
      = if (cs_wall_functions_2scales_vdriest m t rnnb l_visc vel y kinetic_en kr wf s).yplus
            + vdriest_dyrp m l_visc kr
                (cs_wall_functions_2scales_vdriest m t rnnb l_visc vel y kinetic_en kr wf s).uk
            ≤ 1e-1 then
          vel / (cs_wall_functions_2scales_vdriest m t rnnb l_visc vel y kinetic_en kr wf s).yplus
        else if
            (cs_wall_functions_2scales_vdriest m t rnnb l_visc vel y kinetic_en kr wf s).yplus
            + vdriest_dyrp m l_visc kr
                (cs_wall_functions_2scales_vdriest m t rnnb l_visc vel y kinetic_en kr wf s).uk
            ≤ 200 then
          vel / vdriest_uplus_fit m
            ((cs_wall_functions_2scales_vdriest m t rnnb l_visc vel y kinetic_en kr wf s).yplus
              + vdriest_dyrp m l_visc kr
                (cs_wall_functions_2scales_vdriest m t rnnb l_visc vel y kinetic_en kr wf s).uk)
        else
          vel / vdriest_uplus_asym m t
            ((cs_wall_functions_2scales_vdriest m t rnnb l_visc vel y kinetic_en kr wf s).yplus
              + vdriest_dyrp m l_visc kr
                (cs_wall_functions_2scales_vdriest m t rnnb l_visc vel y kinetic_en kr wf s).uk)
            (vdriest_dyrp m l_visc kr
              (cs_wall_functions_2scales_vdriest m t rnnb l_visc vel y kinetic_en kr wf s).uk) := by
  rw [vdriest_yplus, vdriest_uk]
  unfold cs_wall_functions_2scales_vdriest vdriest_dyrp vdriest_uplus_fit vdriest_uplus_asym
  cases wf <;> simp only [if_true, if_false, Bool.false_eq_true] <;> split_ifs <;> rfl

end VanDriestBranches

/-- C13. Van Driest at `yr+ = 200` for a smooth wall (`kr = 0`, so `dyrp = 0`):
the value of the polynomial-fit branch, `exp(sum aa[i]*(0.25*ln 200)^i)`, and
the value of the asymptotic branch, `16.088739022054590 + ln(200/200)/kappa`,
differ by at most `1e-2`. -/
theorem vdriest_continuity_at_200 :
    (∀ l_visc uk : ℝ, vdriest_dyrp realLibm l_visc 0 uk = 0)
    ∧ vdriest_uplus_asym realLibm stdTurb 200 0 = 16.088739022054590
    ∧ |vdriest_uplus_fit realLibm 200 - vdriest_uplus_asym realLibm stdTurb 200 0| ≤ 1e-2 := by
  have hasym : vdriest_uplus_asym realLibm stdTurb 200 0 = 16.088739022054590 := by
    simp [vdriest_uplus_asym, realLibm]
  refine ⟨?_, hasym, ?_⟩
  · intro l_visc uk
    simp [vdriest_dyrp, realLibm]
  · obtain ⟨L1, L2⟩ := log_200_bounds
    obtain ⟨W1, W2⟩ := log_uplus_window
    obtain ⟨P1, P2⟩ := vdriest_fit_exponent_bounds (0.25 * Real.log 200)
      (by linarith) (by linarith)
    have e : vdriest_uplus_fit realLibm 200
        = Real.exp (-0.0091921 + 3.9577 * (0.25 * Real.log 200)
            + 0.031578 * (0.25 * Real.log 200) ^ 2 + -0.51013 * (0.25 * Real.log 200) ^ 3
            + -2.3254 * (0.25 * Real.log 200) ^ 4 + -0.72665 * (0.25 * Real.log 200) ^ 5
            + 2.969 * (0.25 * Real.log 200) ^ 6 + 0.48506 * (0.25 * Real.log 200) ^ 7
            + -1.5944 * (0.25 * Real.log 200) ^ 8 + 0.087309 * (0.25 * Real.log 200) ^ 9
            + 0.1987 * (0.25 * Real.log 200) ^ 10) := by
      simp only [vdriest_uplus_fit, realLibm, aa_at, aa, List.getD_cons_zero,
        List.getD_cons_succ]
      congr 1
      ring
    rw [hasym, e, abs_le]
    constructor
    · have h := (Real.log_le_iff_le_exp (by norm_num)).mp (W1.trans P1)
      linarith
    · have h := (Real.le_log_iff_exp_le (by norm_num)).mp (P2.trans W2)
      linarith

/-! ## Signs of the returned scales -/

/-- A property of `*ustar` that every update step preserves holds for the
`*ustar` with which the loop stops. -/
lemma ustar_loop_invariant {α : Type} [LinearOrderedField α] (m : Libm α) (t : cs_turb_t α)
    (vel ydvisc eps : α) (niter_max : Nat) (P : α → Prop)
    (hstep : ∀ u, P u → P (ustar_update m t vel ydvisc u))
    (iter : Nat) (ustaro ustar : α) (h : P ustar) :
    P (ustar_loop m t vel ydvisc eps niter_max iter ustaro ustar).2.2 := by
  induction iter, ustaro, ustar using ustar_loop.induct m t vel ydvisc eps niter_max with
  | case1 iter ustaro ustar hc ih =>
    rw [ustar_loop, if_pos hc]
    exact ih (hstep _ h)
  | case2 iter ustaro ustar hc =>
    rw [ustar_loop, if_neg hc]
    exact h

/-- 1-scale log law with the standard constants, log branch: from an iterate
with `ydvisc * ustaro >= exp(-cstlog*kappa)` the update divides by a number
`>= 1` and gives `ydvisc * ustar >= 1`. -/
lemma update_ge_one (vel ydvisc u : ℝ) (hre : 118 ≤ vel * ydvisc)
    (hu : Real.exp (-5.2 * 0.42) ≤ ydvisc * u) :
    1 ≤ Real.log (ydvisc * u) + 0.42 * 5.2 + 1
    ∧ 1 ≤ ydvisc * ustar_update realLibm stdTurb vel ydvisc u := by
  have hx : 0 < ydvisc * u := lt_of_lt_of_le (Real.exp_pos _) hu
  have hlog : -5.2 * 0.42 ≤ Real.log (ydvisc * u) := (Real.le_log_iff_exp_le hx).mpr hu
  have hlog2 := Real.log_le_sub_one_of_pos hx
  have hD : 1 ≤ Real.log (ydvisc * u) + 0.42 * 5.2 + 1 := by linarith
  refine ⟨hD, ?_⟩
  unfold ustar_update
  simp only [realLibm, stdTurb]
  rw [← mul_div_assoc, le_div_iff₀ (by linarith)]
  nlinarith

/-- The macro `CS_MAX` is at least its second argument. -/
lemma le_CS_MAX_right {α : Type} [LinearOrderedField α] (a b : α) : b ≤ CS_MAX a b := by
  rw [CS_MAX_eq_max]
  exact le_max_right a b

/-- 1-scale log law with the standard constants on a valid input of the log
branch: the returned `ustar` has `(y/l_visc) * ustar >= 1`. -/
lemma log_branch_ustar_ge (iwallf : cs_wall_function_type_t) (ifac : Int)
    (l_visc vel y : ℝ) (s : Outputs ℝ) (hl : 0 < l_visc) (hy : 0 < y)
    (hre : ¬ (vel * (y / l_visc) ≤ (stdConf iwallf).ypluli * (stdConf iwallf).ypluli)) :
    1 ≤ y / l_visc
        * (cs_wall_functions_1scale_log_run realLibm stdTurb (stdConf iwallf) ifac
            l_visc vel y s).out.ustar := by
  have hyd : 0 < y / l_visc := div_pos hy hl
  have hre2 : 118 ≤ vel * (y / l_visc) := by
    simp only [stdConf, not_le] at hre
    norm_num at hre
    linarith
  have hone : Real.exp (-5.2 * 0.42) ≤ 1 := Real.exp_le_one_iff.mpr (by norm_num)
  unfold cs_wall_functions_1scale_log_run
  simp only [if_neg hre]
  apply ustar_loop_invariant realLibm stdTurb vel (y / l_visc) 0.001 100
    (fun u => 1 ≤ y / l_visc * u)
  · intro u hu
    exact (update_ge_one vel (y / l_visc) u hre2 (hone.trans hu)).2
  · apply (update_ge_one vel (y / l_visc) _ hre2 _).2
    have h1 := le_CS_MAX_right
      (realLibm.pow (|vel| / stdTurb.cs_turb_apow / realLibm.pow (y / l_visc) stdTurb.cs_turb_bpow)
        stdTurb.cs_turb_dpow)
      (realLibm.exp (-stdTurb.cs_turb_cstlog * stdTurb.cs_turb_xkappa) / (y / l_visc))
    have h2 := mul_le_mul_of_nonneg_left h1 hyd.le
    have e : y / l_visc
        * (realLibm.exp (-stdTurb.cs_turb_cstlog * stdTurb.cs_turb_xkappa) / (y / l_visc))
        = Real.exp (-5.2 * 0.42) := by
      simp only [realLibm, stdTurb]
      field_simp
      ring
    rw [e] at h2
    exact h2

/-- 1-scale log law, log branch: `yplus` and `uk` are formed from the returned
`ustar`. -/
lemma log_branch_outputs {α : Type} [LinearOrderedField α] (m : Libm α) (t : cs_turb_t α)
    (g : cs_wall_functions_t α) (ifac : Int) (l_visc vel y : α) (s : Outputs α)
    (hre : ¬ (vel * (y / l_visc) ≤ g.ypluli * g.ypluli)) :
    (cs_wall_functions_1scale_log_run m t g ifac l_visc vel y s).out.yplus
        = (cs_wall_functions_1scale_log_run m t g ifac l_visc vel y s).out.ustar * (y / l_visc)
    ∧ (cs_wall_functions_1scale_log_run m t g ifac l_visc vel y s).out.uk
        = (cs_wall_functions_1scale_log_run m t g ifac l_visc vel y s).out.ustar
    ∧ (cs_wall_functions_1scale_log_run m t g ifac l_visc vel y s).out.nlogla = s.nlogla + 1
    ∧ (cs_wall_functions_1scale_log_run m t g ifac l_visc vel y s).out.nsubla = s.nsubla := by
  unfold cs_wall_functions_1scale_log_run
  simp only [if_neg hre, and_self]

/-- Non-negativity for the disabled variant. -/
lemma disabled_nonneg (g : cs_wall_functions_t ℝ) (l_visc t_visc vel y : ℝ) (s : Outputs ℝ)
    (hl : 0 < l_visc) (hy : 0 < y) :
    0 ≤ (cs_wall_functions_disabled realLibm g l_visc t_visc vel y s).yplus
    ∧ 0 ≤ (cs_wall_functions_disabled realLibm g l_visc t_visc vel y s).ustar
    ∧ 0 ≤ (cs_wall_functions_disabled realLibm g l_visc t_visc vel y s).uk := by
  have h0 : 0 ≤ Real.sqrt (vel * l_visc / y) := Real.sqrt_nonneg _
  have h1 : 0 ≤ Real.sqrt (vel * l_visc / y) * y / l_visc :=
    div_nonneg (mul_nonneg h0 hy.le) hl.le
  unfold cs_wall_functions_disabled
  simp only [realLibm]
  split_ifs <;> exact ⟨h1, h0, h0⟩

/-- Non-negativity for the 1-scale power law. -/
lemma power_nonneg (iwallf : cs_wall_function_type_t) (l_visc vel y : ℝ) (s : Outputs ℝ)
    (hl : 0 < l_visc) (hy : 0 < y) (hv : 0 ≤ vel) :
    0 ≤ (cs_wall_functions_1scale_power realLibm stdTurb (stdConf iwallf) l_visc vel y s).yplus
    ∧ 0 ≤ (cs_wall_functions_1scale_power realLibm stdTurb (stdConf iwallf) l_visc vel y s).ustar
    ∧ 0 ≤ (cs_wall_functions_1scale_power realLibm stdTurb (stdConf iwallf) l_visc vel y s).uk := by
  have hyd : 0 < y / l_visc := div_pos hy hl
  have hb : 0 ≤ vel / (stdTurb.cs_turb_apow * (y / l_visc) ^ stdTurb.cs_turb_bpow) := by
    apply div_nonneg hv
    apply mul_nonneg
    · simp only [stdTurb]
      norm_num
    · exact Real.rpow_nonneg hyd.le _
  have hu : 0 ≤ (vel / (stdTurb.cs_turb_apow * (y / l_visc) ^ stdTurb.cs_turb_bpow))
      ^ stdTurb.cs_turb_dpow := Real.rpow_nonneg hb _
  have hs : 0 ≤ Real.sqrt (vel / (y / l_visc)) := Real.sqrt_nonneg _
  unfold cs_wall_functions_1scale_power
  simp only [realLibm]
  split_ifs
  · exact ⟨mul_nonneg hs hyd.le, hs, hs⟩
  · exact ⟨mul_nonneg hu hyd.le, hu, hu⟩

/-- Non-negativity for the 1-scale log law. -/
lemma log_nonneg (iwallf : cs_wall_function_type_t) (ifac : Int) (l_visc vel y : ℝ)
    (s : Outputs ℝ) (hl : 0 < l_visc) (hy : 0 < y) :
    0 ≤ (cs_wall_functions_1scale_log realLibm stdTurb (stdConf iwallf) ifac l_visc vel y s).yplus
    ∧ 0 ≤ (cs_wall_functions_1scale_log realLibm stdTurb (stdConf iwallf) ifac
            l_visc vel y s).ustar
    ∧ 0 ≤ (cs_wall_functions_1scale_log realLibm stdTurb (stdConf iwallf) ifac
            l_visc vel y s).uk := by
  have hyd : 0 < y / l_visc := div_pos hy hl
  by_cases hre : vel * (y / l_visc) ≤ (stdConf iwallf).ypluli * (stdConf iwallf).ypluli
  · have hs : 0 ≤ Real.sqrt (vel / (y / l_visc)) := Real.sqrt_nonneg _
    unfold cs_wall_functions_1scale_log cs_wall_functions_1scale_log_run
    simp only [if_pos hre, realLibm]
    exact ⟨mul_nonneg hs hyd.le, hs, hs⟩
  · have h1 := log_branch_ustar_ge iwallf ifac l_visc vel y s hl hy hre
    have hu : 0 ≤ (cs_wall_functions_1scale_log_run realLibm stdTurb (stdConf iwallf) ifac
            l_visc vel y s).out.ustar := by
      by_contra hneg
      push_neg at hneg
      have := mul_neg_of_pos_of_neg hyd hneg
      linarith
    have e := log_branch_outputs realLibm stdTurb (stdConf iwallf) ifac l_visc vel y s hre
    unfold cs_wall_functions_1scale_log
    rw [e.1, e.2.1]
    exact ⟨mul_nonneg hu hyd.le, hu, hu⟩

/-- With the standard constants, `log(yplus)/kappa + cstlog` is positive for
`yplus >= 10.88`. -/
lemma log_law_pos (yplus : ℝ) (h : 10.88 ≤ yplus) :
    0 < Real.log yplus / stdTurb.cs_turb_xkappa + stdTurb.cs_turb_cstlog := by
  have h1 : 0 < Real.log yplus := Real.log_pos (by linarith)
  simp only [stdTurb]
  have : 0 < Real.log yplus / 0.42 := div_pos h1 (by norm_num)
  linarith

/-- Non-negativity for the 2-scale log law. -/
lemma two_scales_log_nonneg (iwallf : cs_wall_function_type_t)
    (l_visc t_visc vel y kinetic_en : ℝ) (s : Outputs ℝ)
    (hl : 0 < l_visc) (hy : 0 < y) (hv : 0 ≤ vel) :
    0 ≤ (cs_wall_functions_2scales_log realLibm stdTurb (stdConf iwallf)
          l_visc t_visc vel y kinetic_en s).yplus
    ∧ 0 ≤ (cs_wall_functions_2scales_log realLibm stdTurb (stdConf iwallf)
          l_visc t_visc vel y kinetic_en s).ustar
    ∧ 0 ≤ (cs_wall_functions_2scales_log realLibm stdTurb (stdConf iwallf)
          l_visc t_visc vel y kinetic_en s).uk := by
  have hyl : 0 < y / l_visc := div_pos hy hl
  obtain ⟨uk, huk, huke⟩ : ∃ uk : ℝ, 0 ≤ uk
      ∧ Real.sqrt ((1 - Real.exp (-(Real.sqrt kinetic_en * y / l_visc) / 11))
          * stdTurb.cs_turb_cmu025 * stdTurb.cs_turb_cmu025 * kinetic_en
          + Real.exp (-(Real.sqrt kinetic_en * y / l_visc) / 11) * l_visc * vel / y) = uk :=
    ⟨_, Real.sqrt_nonneg _, rfl⟩
  have hyp : 0 ≤ uk * y / l_visc := div_nonneg (mul_nonneg huk hy.le) hl.le
  unfold cs_wall_functions_2scales_log
  simp only [realLibm, huke]
  by_cases hb : uk * y / l_visc > (stdConf iwallf).ypluli
  · simp only [if_pos hb]
    have h1 : 10.88 ≤ uk * y / l_visc := by
      simp only [stdConf] at hb
      exact le_of_lt hb
    exact ⟨hyp, div_nonneg hv (log_law_pos _ h1).le, huk⟩
  · simp only [if_neg hb]
    refine ⟨hyp, ?_, huk⟩
    split_ifs
    · exact abs_nonneg _
    · exact le_refl _

/-- Non-negativity for the 2-scale scalable log law. -/
lemma scalable_nonneg (iwallf : cs_wall_function_type_t)
    (l_visc t_visc vel y kinetic_en : ℝ) (s : Outputs ℝ) (hv : 0 ≤ vel) :
    0 ≤ (cs_wall_functions_2scales_scalable realLibm stdTurb (stdConf iwallf)
          l_visc t_visc vel y kinetic_en s).yplus
    ∧ 0 ≤ (cs_wall_functions_2scales_scalable realLibm stdTurb (stdConf iwallf)
          l_visc t_visc vel y kinetic_en s).ustar
    ∧ 0 ≤ (cs_wall_functions_2scales_scalable realLibm stdTurb (stdConf iwallf)
          l_visc t_visc vel y kinetic_en s).uk := by
  have huk : 0 ≤ stdTurb.cs_turb_cmu025 * Real.sqrt kinetic_en := by
    apply mul_nonneg _ (Real.sqrt_nonneg _)
    simp only [stdTurb]
    exact Real.sqrt_nonneg _
  have hp : (stdConf iwallf).ypluli = 10.88 := rfl
  unfold cs_wall_functions_2scales_scalable
  simp only [realLibm]
  by_cases hb : stdTurb.cs_turb_cmu025 * Real.sqrt kinetic_en * y / l_visc
      > (stdConf iwallf).ypluli
  · simp only [if_pos hb]
    have h1 : 10.88 ≤ stdTurb.cs_turb_cmu025 * Real.sqrt kinetic_en * y / l_visc := by
      rw [hp] at hb
      exact le_of_lt hb
    exact ⟨by linarith, div_nonneg hv (log_law_pos _ h1).le, huk⟩
  · simp only [if_neg hb]
    rw [hp]
    exact ⟨by norm_num, div_nonneg hv (log_law_pos _ (le_refl _)).le, huk⟩

/-- The roughness shift is at least `-5.4`: `krp * exp(-krp/6) <= 6`. -/
lemma vdriest_dyrp_ge (l_visc kr uk : ℝ) :
    -5.4 ≤ vdriest_dyrp realLibm l_visc kr uk := by
  have h1 : uk * kr / l_visc * Real.exp (-(uk * kr / l_visc) / 6) ≤ 6 := by
    have he := Real.add_one_le_exp (uk * kr / l_visc / 6)
    have hpos := Real.exp_pos (-(uk * kr / l_visc) / 6)
    have hmul : Real.exp (uk * kr / l_visc / 6) * Real.exp (-(uk * kr / l_visc) / 6) = 1 := by
      rw [← Real.exp_add]
      have : uk * kr / l_visc / 6 + -(uk * kr / l_visc) / 6 = 0 := by ring
      rw [this, Real.exp_zero]
    nlinarith
  have h2 : 0 ≤ Real.sqrt (uk * kr / l_visc) := Real.sqrt_nonneg _
  unfold vdriest_dyrp
  simp only [realLibm]
  linarith

/-- The asymptotic `uplus` of the Van Driest variant is positive in its branch
`yrplus > 200`, for `yplus > 0`. -/
lemma vdriest_uplus_asym_pos (l_visc kr uk yplus : ℝ) (hyp : 0 < yplus)
    (h200 : 200 < yplus + vdriest_dyrp realLibm l_visc kr uk) :
    0 < 200 + vdriest_dyrp realLibm l_visc kr uk
    ∧ 0 < (yplus + vdriest_dyrp realLibm l_visc kr uk)
            / (200 + vdriest_dyrp realLibm l_visc kr uk)
    ∧ 13 ≤ vdriest_uplus_asym realLibm stdTurb (yplus + vdriest_dyrp realLibm l_visc kr uk)
        (vdriest_dyrp realLibm l_visc kr uk) := by
  have hd := vdriest_dyrp_ge l_visc kr uk
  generalize vdriest_dyrp realLibm l_visc kr uk = d at *
  have hden : 0 < 200 + d := by linarith
  have hnum : 0 < yplus + d := by linarith
  have hratio : 0 < (yplus + d) / (200 + d) := div_pos hnum hden
  have hlog := Real.one_sub_inv_le_log_of_pos hratio
  have hinv : ((yplus + d) / (200 + d))⁻¹ ≤ 2 := by
    rw [inv_div, div_le_iff₀ hnum]
    linarith
  refine ⟨hden, hratio, ?_⟩
  unfold vdriest_uplus_asym
  simp only [realLibm, stdTurb]
  have : -1 / 0.42 ≤ Real.log ((yplus + d) / (200 + d)) / 0.42 :=
    div_le_div_of_nonneg_right (by linarith) (by norm_num)
  norm_num at this ⊢
  linarith

/-- Non-negativity for the Van Driest variant (with `wf = false`, for a
non-negative incoming `uk`). -/
lemma vdriest_nonneg (rnnb l_visc vel y kinetic_en kr : ℝ) (wf : Bool) (s : Outputs ℝ)
    (hv : 0 ≤ vel) (hs : wf = false → 0 ≤ s.uk) :
    0 < (cs_wall_functions_2scales_vdriest realLibm stdTurb rnnb l_visc vel y kinetic_en kr
          wf s).yplus
    ∧ 0 ≤ (cs_wall_functions_2scales_vdriest realLibm stdTurb rnnb l_visc vel y kinetic_en kr
          wf s).ustar
    ∧ 0 ≤ (cs_wall_functions_2scales_vdriest realLibm stdTurb rnnb l_visc vel y kinetic_en kr
          wf s).uk := by
  have huk : 0 ≤ (cs_wall_functions_2scales_vdriest realLibm stdTurb rnnb l_visc vel y
      kinetic_en kr wf s).uk := by
    rw [vdriest_uk]
    cases wf
    · simpa using hs rfl
    · simp only [if_true, realLibm]
      exact Real.sqrt_nonneg _
  have hyp : 0 < (cs_wall_functions_2scales_vdriest realLibm stdTurb rnnb l_visc vel y
      kinetic_en kr wf s).yplus := by
    rw [vdriest_yplus]
    exact lt_of_lt_of_le (by norm_num) (le_CS_MAX_right _ _)
  refine ⟨hyp, ?_, huk⟩
  rw [vdriest_ustar]
  split_ifs with h1 h2
  · exact div_nonneg hv hyp.le
  · unfold vdriest_uplus_fit
    simp only [realLibm]
    exact div_nonneg hv (Real.exp_pos _).le
  · have h := (vdriest_uplus_asym_pos l_visc kr _ _ hyp (not_le.mp h2)).2.2
    exact div_nonneg hv (by linarith)

/-- C16. Non-negativity: with `ypluli = 10.88` and the standard constants, for
every variant (Van Driest with `wf = true`) and every input with `l_visc > 0`,
`y > 0`, `vel >= 0`, `kinetic_en >= 0`, `rnnb >= 0`, `kr >= 0` the returned
`yplus`, `ustar` and `uk` are `>= 0`; so are they for Van Driest with
`wf = false` when the incoming `uk` is `>= 0`. -/
theorem outputs_nonneg (iwallf : cs_wall_function_type_t) (ifac : Int)
    (rnnb l_visc t_visc vel y kinetic_en kr : ℝ) (s : Outputs ℝ)
    (hl : 0 < l_visc) (hy : 0 < y) (hv : 0 ≤ vel) (_hk : 0 ≤ kinetic_en) (_hr : 0 ≤ rnnb)
    (_hkr : 0 ≤ kr) :
    (0 ≤ (cs_wall_functions_disabled realLibm (stdConf iwallf) l_visc t_visc vel y s).yplus
      ∧ 0 ≤ (cs_wall_functions_disabled realLibm (stdConf iwallf) l_visc t_visc vel y s).ustar
      ∧ 0 ≤ (cs_wall_functions_disabled realLibm (stdConf iwallf) l_visc t_visc vel y s).uk)
    ∧ (0 ≤ (cs_wall_functions_1scale_power realLibm stdTurb (stdConf iwallf) l_visc vel y s).yplus
      ∧ 0 ≤ (cs_wall_functions_1scale_power realLibm stdTurb (stdConf iwallf) l_visc vel y s).ustar
      ∧ 0 ≤ (cs_wall_functions_1scale_power realLibm stdTurb (stdConf iwallf) l_visc vel y s).uk)
    ∧ (0 ≤ (cs_wall_functions_1scale_log realLibm stdTurb (stdConf iwallf) ifac l_visc vel y s).yplus
      ∧ 0 ≤ (cs_wall_functions_1scale_log realLibm stdTurb (stdConf iwallf) ifac l_visc vel y s).ustar
      ∧ 0 ≤ (cs_wall_functions_1scale_log realLibm stdTurb (stdConf iwallf) ifac l_visc vel y s).uk)
    ∧ (0 ≤ (cs_wall_functions_2scales_log realLibm stdTurb (stdConf iwallf)
          l_visc t_visc vel y kinetic_en s).yplus
      ∧ 0 ≤ (cs_wall_functions_2scales_log realLibm stdTurb (stdConf iwallf)
          l_visc t_visc vel y kinetic_en s).ustar
      ∧ 0 ≤ (cs_wall_functions_2scales_log realLibm stdTurb (stdConf iwallf)
          l_visc t_visc vel y kinetic_en s).uk)
    ∧ (0 ≤ (cs_wall_functions_2scales_scalable realLibm stdTurb (stdConf iwallf)
          l_visc t_visc vel y kinetic_en s).yplus
      ∧ 0 ≤ (cs_wall_functions_2scales_scalable realLibm stdTurb (stdConf iwallf)
          l_visc t_visc vel y kinetic_en s).ustar
      ∧ 0 ≤ (cs_wall_functions_2scales_scalable realLibm stdTurb (stdConf iwallf)
          l_visc t_visc vel y kinetic_en s).uk)
    ∧ (0 ≤ (cs_wall_functions_2scales_vdriest realLibm stdTurb rnnb l_visc vel y kinetic_en kr
          true s).yplus
      ∧ 0 ≤ (cs_wall_functions_2scales_vdriest realLibm stdTurb rnnb l_visc vel y kinetic_en kr
          true s).ustar
      ∧ 0 ≤ (cs_wall_functions_2scales_vdriest realLibm stdTurb rnnb l_visc vel y kinetic_en kr
          true s).uk)
    ∧ (0 ≤ s.uk →
      (0 ≤ (cs_wall_functions_2scales_vdriest realLibm stdTurb rnnb l_visc vel y kinetic_en kr
          false s).yplus
      ∧ 0 ≤ (cs_wall_functions_2scales_vdriest realLibm stdTurb rnnb l_visc vel y kinetic_en kr
          false s).ustar
      ∧ 0 ≤ (cs_wall_functions_2scales_vdriest realLibm stdTurb rnnb l_visc vel y kinetic_en kr
          false s).uk)) := by
  refine ⟨disabled_nonneg _ l_visc t_visc vel y s hl hy,
    power_nonneg iwallf l_visc vel y s hl hy hv,
    log_nonneg iwallf ifac l_visc vel y s hl hy,
    two_scales_log_nonneg iwallf l_visc t_visc vel y kinetic_en s hl hy hv,
    scalable_nonneg iwallf l_visc t_visc vel y kinetic_en s hv, ?_, ?_⟩
  · obtain ⟨h1, h2, h3⟩ := vdriest_nonneg rnnb l_visc vel y kinetic_en kr true s hv
      (fun h => absurd h (by decide))
    exact ⟨h1.le, h2, h3⟩
  · intro hs
    obtain ⟨h1, h2, h3⟩ := vdriest_nonneg rnnb l_visc vel y kinetic_en kr false s hv
      (fun _ => hs)
    exact ⟨h1.le, h2, h3⟩

/-- C16, witness: `l_visc = 1e-5`, `t_visc = 1e-5`, `vel = 1`, `y = 0.001`,
`kinetic_en = 0`, `rnnb = 0`, `kr = 0`. -/
theorem outputs_nonneg_witness :
    ((0 : ℝ) < 1e-5 ∧ (0 : ℝ) < 0.001 ∧ (0 : ℝ) ≤ 1 ∧ (0 : ℝ) ≤ 0)
    ∧ ((0 ≤ (cs_wall_functions_disabled realLibm (stdConf .CS_WALL_F_DISABLED) 1e-5 1e-5 1 0.001 entry1).yplus
      ∧ 0 ≤ (cs_wall_functions_disabled realLibm (stdConf .CS_WALL_F_DISABLED) 1e-5 1e-5 1 0.001 entry1).ustar
      ∧ 0 ≤ (cs_wall_functions_disabled realLibm (stdConf .CS_WALL_F_DISABLED) 1e-5 1e-5 1 0.001 entry1).uk)
    ∧ (0 ≤ (cs_wall_functions_1scale_power realLibm stdTurb (stdConf .CS_WALL_F_DISABLED) 1e-5 1 0.001 entry1).yplus
      ∧ 0 ≤ (cs_wall_functions_1scale_power realLibm stdTurb (stdConf .CS_WALL_F_DISABLED) 1e-5 1 0.001 entry1).ustar
      ∧ 0 ≤ (cs_wall_functions_1scale_power realLibm stdTurb (stdConf .CS_WALL_F_DISABLED) 1e-5 1 0.001 entry1).uk)
    ∧ (0 ≤ (cs_wall_functions_1scale_log realLibm stdTurb (stdConf .CS_WALL_F_DISABLED) 7 1e-5 1 0.001 entry1).yplus
      ∧ 0 ≤ (cs_wall_functions_1scale_log realLibm stdTurb (stdConf .CS_WALL_F_DISABLED) 7 1e-5 1 0.001 entry1).ustar
      ∧ 0 ≤ (cs_wall_functions_1scale_log realLibm stdTurb (stdConf .CS_WALL_F_DISABLED) 7 1e-5 1 0.001 entry1).uk)
    ∧ (0 ≤ (cs_wall_functions_2scales_log realLibm stdTurb (stdConf .CS_WALL_F_DISABLED)
          1e-5 1e-5 1 0.001 0 entry1).yplus
      ∧ 0 ≤ (cs_wall_functions_2scales_log realLibm stdTurb (stdConf .CS_WALL_F_DISABLED)
          1e-5 1e-5 1 0.001 0 entry1).ustar
      ∧ 0 ≤ (cs_wall_functions_2scales_log realLibm stdTurb (stdConf .CS_WALL_F_DISABLED)
          1e-5 1e-5 1 0.001 0 entry1).uk)
    ∧ (0 ≤ (cs_wall_functions_2scales_scalable realLibm stdTurb (stdConf .CS_WALL_F_DISABLED)
          1e-5 1e-5 1 0.001 0 entry1).yplus
      ∧ 0 ≤ (cs_wall_functions_2scales_scalable realLibm stdTurb (stdConf .CS_WALL_F_DISABLED)
          1e-5 1e-5 1 0.001 0 entry1).ustar
      ∧ 0 ≤ (cs_wall_functions_2scales_scalable realLibm stdTurb (stdConf .CS_WALL_F_DISABLED)
          1e-5 1e-5 1 0.001 0 entry1).uk)
    ∧ (0 ≤ (cs_wall_functions_2scales_vdriest realLibm stdTurb 0 1e-5 1 0.001 0 0
          true entry1).yplus
      ∧ 0 ≤ (cs_wall_functions_2scales_vdriest realLibm stdTurb 0 1e-5 1 0.001 0 0
          true entry1).ustar
      ∧ 0 ≤ (cs_wall_functions_2scales_vdriest realLibm stdTurb 0 1e-5 1 0.001 0 0
          true entry1).uk)
    ∧ (0 ≤ entry1.uk →
      (0 ≤ (cs_wall_functions_2scales_vdriest realLibm stdTurb 0 1e-5 1 0.001 0 0
          false entry1).yplus
      ∧ 0 ≤ (cs_wall_functions_2scales_vdriest realLibm stdTurb 0 1e-5 1 0.001 0 0
          false entry1).ustar
      ∧ 0 ≤ (cs_wall_functions_2scales_vdriest realLibm stdTurb 0 1e-5 1 0.001 0 0
          false entry1).uk))) :=
  ⟨⟨by norm_num, by norm_num, by norm_num, le_refl _⟩,
   outputs_nonneg .CS_WALL_F_DISABLED 7 0 1e-5 1e-5 1 0.001 0 0 entry1
     (by norm_num) (by norm_num) (by norm_num) (le_refl _) (le_refl _) (le_refl _)⟩

/-! ## The threshold `ypluli` and the returned `yplus` -/

section Threshold

variable {α : Type} [LinearOrderedField α]

/-- How each of the four variants classifies a call. -/
lemma classification (m : Libm α) (t : cs_turb_t α) (g : cs_wall_functions_t α)
    (ifac : Int) (l_visc t_visc vel y kinetic_en : α) (s : Outputs α) :
    ((counted_sublayer s (cs_wall_functions_1scale_power m t g l_visc vel y s)
          ↔ power_law_yplus m t l_visc vel y ≤ g.ypluli)
      ∧ (counted_log_layer s (cs_wall_functions_1scale_power m t g l_visc vel y s)
          ↔ power_law_yplus m t l_visc vel y > g.ypluli)
      ∧ (power_law_yplus m t l_visc vel y > g.ypluli →
          (cs_wall_functions_1scale_power m t g l_visc vel y s).yplus
            = power_law_yplus m t l_visc vel y))
    ∧ ((counted_sublayer s (cs_wall_functions_1scale_log m t g ifac l_visc vel y s)
          ↔ vel * (y / l_visc) ≤ g.ypluli * g.ypluli)
      ∧ (counted_log_layer s (cs_wall_functions_1scale_log m t g ifac l_visc vel y s)
          ↔ vel * (y / l_visc) > g.ypluli * g.ypluli))
    ∧ ((counted_sublayer s
            (cs_wall_functions_2scales_log m t g l_visc t_visc vel y kinetic_en s)
          ↔ (cs_wall_functions_2scales_log m t g l_visc t_visc vel y kinetic_en s).yplus
              ≤ g.ypluli)
      ∧ (counted_log_layer s
            (cs_wall_functions_2scales_log m t g l_visc t_visc vel y kinetic_en s)
          ↔ (cs_wall_functions_2scales_log m t g l_visc t_visc vel y kinetic_en s).yplus
              > g.ypluli))
    ∧ ((counted_sublayer s
            (cs_wall_functions_2scales_scalable m t g l_visc t_visc vel y kinetic_en s)
          ↔ (cs_wall_functions_2scales_scalable m t g l_visc t_visc vel y kinetic_en s).yplus
              ≤ g.ypluli)
      ∧ (counted_log_layer s
            (cs_wall_functions_2scales_scalable m t g l_visc t_visc vel y kinetic_en s)
          ↔ (cs_wall_functions_2scales_scalable m t g l_visc t_visc vel y kinetic_en s).yplus
              > g.ypluli)) := by
  refine ⟨?_, ?_, ?_, ?_⟩
  · unfold cs_wall_functions_1scale_power power_law_yplus counted_sublayer counted_log_layer
    by_cases hc : m.pow (vel / (t.cs_turb_apow * m.pow (y / l_visc) t.cs_turb_bpow))
        t.cs_turb_dpow * (y / l_visc) ≤ g.ypluli
    · simp [if_pos hc, hc, not_lt.mpr hc]
    · simp [if_neg hc, hc, not_le.mp hc]
  · unfold cs_wall_functions_1scale_log cs_wall_functions_1scale_log_run
      counted_sublayer counted_log_layer
    by_cases hc : vel * (y / l_visc) ≤ g.ypluli * g.ypluli
    · simp [if_pos hc, hc, not_lt.mpr hc]
    · simp [if_neg hc, hc, not_le.mp hc]
  · unfold cs_wall_functions_2scales_log counted_sublayer counted_log_layer
    by_cases hc : m.sqrt ((1 - m.exp (-(m.sqrt kinetic_en * y / l_visc) / 11))
          * t.cs_turb_cmu025 * t.cs_turb_cmu025 * kinetic_en
        + m.exp (-(m.sqrt kinetic_en * y / l_visc) / 11) * l_visc * vel / y) * y / l_visc
        > g.ypluli
    · simp [if_pos hc, hc, not_le.mpr hc]
    · simp [if_neg hc, hc, not_lt.mp hc]
  · unfold cs_wall_functions_2scales_scalable counted_sublayer counted_log_layer
    by_cases hc : t.cs_turb_cmu025 * m.sqrt kinetic_en * y / l_visc > g.ypluli
    · simp [if_pos hc, hc, not_le.mpr hc]
    · simp [if_neg hc]

end Threshold

/-- 1-scale log law over the reals, sublayer branch on a valid input: the
returned `yplus` is `sqrt(reynolds)`, which is at most `ypluli`. -/
lemma log_sublayer_yplus_le (t : cs_turb_t ℝ) (g : cs_wall_functions_t ℝ) (ifac : Int)
    (l_visc vel y : ℝ) (s : Outputs ℝ) (hg : 0 ≤ g.ypluli) (hl : 0 < l_visc) (hy : 0 < y)
    (hv : 0 ≤ vel) (h : vel * (y / l_visc) ≤ g.ypluli * g.ypluli) :
    (cs_wall_functions_1scale_log realLibm t g ifac l_visc vel y s).yplus
        = Real.sqrt (vel * (y / l_visc))
    ∧ (cs_wall_functions_1scale_log realLibm t g ifac l_visc vel y s).yplus ≤ g.ypluli := by
  have hyd : 0 < y / l_visc := div_pos hy hl
  have e : Real.sqrt (vel / (y / l_visc)) * (y / l_visc) = Real.sqrt (vel * (y / l_visc)) := by
    have h1 : Real.sqrt (y / l_visc * (y / l_visc)) = y / l_visc := Real.sqrt_mul_self hyd.le
    have h2 : vel / (y / l_visc) * (y / l_visc * (y / l_visc)) = vel * (y / l_visc) := by
      field_simp
      ring
    calc Real.sqrt (vel / (y / l_visc)) * (y / l_visc)
        = Real.sqrt (vel / (y / l_visc)) * Real.sqrt (y / l_visc * (y / l_visc)) := by rw [h1]
      _ = Real.sqrt (vel / (y / l_visc) * (y / l_visc * (y / l_visc))) :=
          (Real.sqrt_mul (div_nonneg hv hyd.le) _).symm
      _ = Real.sqrt (vel * (y / l_visc)) := by rw [h2]
  have hy1 : (cs_wall_functions_1scale_log realLibm t g ifac l_visc vel y s).yplus
        = Real.sqrt (vel * (y / l_visc)) := by
    unfold cs_wall_functions_1scale_log cs_wall_functions_1scale_log_run
    simp only [if_pos h, realLibm]
    exact e
  refine ⟨hy1, ?_⟩
  rw [hy1, Real.sqrt_le_iff]
  exact ⟨hg, by rw [sq]; exact h⟩

/-! ### Roots and powers of the Werner-Wengle law -/

/-- Bounds of a seventh root from seventh powers. -/
lemma root7_between (x lo hi : ℝ) (hlo : 0 ≤ lo) (h1 : lo ^ (7 : ℕ) ≤ x)
    (h2 : x ≤ hi ^ (7 : ℕ)) (hhi : 0 ≤ hi) :
    lo ≤ x ^ (1 / 7 : ℝ) ∧ x ^ (1 / 7 : ℝ) ≤ hi := by
  have e1 : (lo ^ (7 : ℕ)) ^ (1 / 7 : ℝ) = lo := by
    have := Real.pow_rpow_inv_natCast (x := lo) (n := 7) hlo (by norm_num)
    simpa using this
  have e2 : (hi ^ (7 : ℕ)) ^ (1 / 7 : ℝ) = hi := by
    have := Real.pow_rpow_inv_natCast (x := hi) (n := 7) hhi (by norm_num)
    simpa using this
  have hx : 0 ≤ x := (pow_nonneg hlo 7).trans h1
  constructor
  · calc lo = (lo ^ (7 : ℕ)) ^ (1 / 7 : ℝ) := e1.symm
      _ ≤ x ^ (1 / 7 : ℝ) := Real.rpow_le_rpow (pow_nonneg hlo 7) h1 (by norm_num)
  · calc x ^ (1 / 7 : ℝ) ≤ (hi ^ (7 : ℕ)) ^ (1 / 7 : ℝ) :=
        Real.rpow_le_rpow hx h2 (by norm_num)
      _ = hi := e2

/-- Bounds of a power `7/8` from seventh and eighth powers. -/
lemma rpow_seven_eighths_between (b lo hi : ℝ) (hb : 0 ≤ b) (hlo : 0 ≤ lo) (hhi : 0 ≤ hi)
    (h1 : lo ^ (8 : ℕ) ≤ b ^ (7 : ℕ)) (h2 : b ^ (7 : ℕ) ≤ hi ^ (8 : ℕ)) :
    lo ≤ b ^ (1 / (1 + 1 / 7) : ℝ) ∧ b ^ (1 / (1 + 1 / 7) : ℝ) ≤ hi := by
  have e : b ^ (1 / (1 + 1 / 7) : ℝ) = (b ^ (7 : ℕ)) ^ (1 / 8 : ℝ) := by
    rw [← Real.rpow_natCast_mul hb]
    norm_num
  have e1 : (lo ^ (8 : ℕ)) ^ (1 / 8 : ℝ) = lo := by
    have := Real.pow_rpow_inv_natCast (x := lo) (n := 8) hlo (by norm_num)
    simpa using this
  have e2 : (hi ^ (8 : ℕ)) ^ (1 / 8 : ℝ) = hi := by
    have := Real.pow_rpow_inv_natCast (x := hi) (n := 8) hhi (by norm_num)
    simpa using this
  rw [e]
  constructor
  · calc lo = (lo ^ (8 : ℕ)) ^ (1 / 8 : ℝ) := e1.symm
      _ ≤ (b ^ (7 : ℕ)) ^ (1 / 8 : ℝ) :=
        Real.rpow_le_rpow (pow_nonneg hlo 8) h1 (by norm_num)
  · calc (b ^ (7 : ℕ)) ^ (1 / 8 : ℝ) ≤ (hi ^ (8 : ℕ)) ^ (1 / 8 : ℝ) :=
        Real.rpow_le_rpow (pow_nonneg hb 7) h2 (by norm_num)
      _ = hi := e2

/-- The seventh root of `y/l_visc = 100` lies in `[1.93, 1.931]`. -/
lemma root7_hundred : (1.93 : ℝ) ≤ (100 : ℝ) ^ (1 / 7 : ℝ) ∧ (100 : ℝ) ^ (1 / 7 : ℝ) ≤ 1.931 :=
  root7_between 100 1.93 1.931 (by norm_num) (by norm_num) (by norm_num) (by norm_num)

/-- The power-law `ustar` of `vel = 1.21`, `y/l_visc = 100` is at most `0.1088`. -/
lemma power_ustar_le :
    ((1.21 : ℝ) / (8.3 * (100 : ℝ) ^ (1 / 7 : ℝ))) ^ (1 / (1 + 1 / 7) : ℝ) ≤ 0.1088 := by
  obtain ⟨r1, r2⟩ := root7_hundred
  have hp : (0 : ℝ) < 8.3 * (100 : ℝ) ^ (1 / 7 : ℝ) := by linarith
  have hb0 : (0 : ℝ) ≤ (1.21 : ℝ) / (8.3 * (100 : ℝ) ^ (1 / 7 : ℝ)) :=
    div_nonneg (by norm_num) hp.le
  have hb1 : (1.21 : ℝ) / (8.3 * (100 : ℝ) ^ (1 / 7 : ℝ)) ≤ 0.07554 := by
    rw [div_le_iff₀ hp]
    linarith
  have h7 : ((1.21 : ℝ) / (8.3 * (100 : ℝ) ^ (1 / 7 : ℝ))) ^ (7 : ℕ) ≤ (0.1088 : ℝ) ^ (8 : ℕ) :=
    (pow_le_pow_left₀ hb0 hb1 7).trans (by norm_num)
  have h0 : (0 : ℝ) ^ (8 : ℕ)
      ≤ ((1.21 : ℝ) / (8.3 * (100 : ℝ) ^ (1 / 7 : ℝ))) ^ (7 : ℕ) := by
    rw [zero_pow (by norm_num)]
    exact pow_nonneg hb0 7
  exact (rpow_seven_eighths_between _ 0 0.1088 hb0 (le_refl _) (by norm_num) h0 h7).2

/-- The Werner-Wengle seed of `vel = 1.18375`, `y/l_visc = 100` lies in
`[0.102, 0.1026]`. -/
lemma seed_window :
    0.102 ≤ (|(1.18375 : ℝ)| / 8.3 / (100 : ℝ) ^ (1 / 7 : ℝ)) ^ (1 / (1 + 1 / 7) : ℝ)
    ∧ (|(1.18375 : ℝ)| / 8.3 / (100 : ℝ) ^ (1 / 7 : ℝ)) ^ (1 / (1 + 1 / 7) : ℝ) ≤ 0.1026 := by
  obtain ⟨r1, r2⟩ := root7_hundred
  have hp : (0 : ℝ) < (100 : ℝ) ^ (1 / 7 : ℝ) := by linarith
  rw [abs_of_pos (by norm_num : (0 : ℝ) < 1.18375)]
  have hb0 : (0 : ℝ) ≤ (1.18375 : ℝ) / 8.3 / (100 : ℝ) ^ (1 / 7 : ℝ) :=
    div_nonneg (by norm_num) hp.le
  have hb1 : (0.073858 : ℝ) ≤ (1.18375 : ℝ) / 8.3 / (100 : ℝ) ^ (1 / 7 : ℝ) := by
    rw [le_div_iff₀ hp]
    norm_num
    linarith
  have hb2 : (1.18375 : ℝ) / 8.3 / (100 : ℝ) ^ (1 / 7 : ℝ) ≤ 0.073898 := by
    rw [div_le_iff₀ hp]
    norm_num
    linarith
  have h7a : (0.102 : ℝ) ^ (8 : ℕ)
      ≤ ((1.18375 : ℝ) / 8.3 / (100 : ℝ) ^ (1 / 7 : ℝ)) ^ (7 : ℕ) :=
    le_trans (by norm_num) (pow_le_pow_left₀ (by norm_num) hb1 7)
  have h7b : ((1.18375 : ℝ) / 8.3 / (100 : ℝ) ^ (1 / 7 : ℝ)) ^ (7 : ℕ)
      ≤ (0.1026 : ℝ) ^ (8 : ℕ) :=
    (pow_le_pow_left₀ hb0 hb2 7).trans (by norm_num)
  exact rpow_seven_eighths_between _ 0.102 0.1026 hb0 (by norm_num) (by norm_num) h7a h7b


/-! ### 1-scale log law just above `reynolds = ypluli^2` -/

/-- Bounds of `log 10.88`, from `10.88 = 2^4 * (1 - 0.32)`. -/
lemma log_ypluli_bounds : (2.3869 : ℝ) ≤ Real.log 10.88 ∧ Real.log 10.88 ≤ 2.387 := by
  have h := Real.abs_log_sub_add_sum_range_le (x := (8 / 25 : ℝ))
    (by rw [abs_of_pos (by norm_num)]; norm_num) 12
  rw [abs_of_pos (by norm_num : (0 : ℝ) < 8 / 25), abs_le] at h
  norm_num [Finset.sum_range_succ] at h
  have e : Real.log 10.88 = 4 * Real.log 2 + Real.log (17 / 25) := by
    have : (10.88 : ℝ) = 2 ^ 4 * (17 / 25) := by norm_num
    rw [this, Real.log_mul (by norm_num) (by norm_num), Real.log_pow]
    norm_num
  have l1 := Real.log_two_gt_d9
  have l2 := Real.log_two_lt_d9
  rw [e]
  constructor <;> linarith [h.1, h.2]

/-- Tangent bounds of the logarithm around `10.88`, written for the argument
`100 * u` of the update map. -/
lemma log_hundred_bounds (u : ℝ) (hu : 0 < u) :
    3.3869 - 0.1088 / u ≤ Real.log (100 * u)
    ∧ Real.log (100 * u) ≤ 1.387 + u / 0.1088 := by
  obtain ⟨b1, b2⟩ := log_ypluli_bounds
  have hx : (0 : ℝ) < 100 * u := by linarith
  have e : Real.log (100 * u) = Real.log 10.88 + Real.log (100 * u / 10.88) := by
    rw [Real.log_div hx.ne' (by norm_num)]
    ring
  have e2 : Real.log (100 * u) = Real.log 10.88 - Real.log (10.88 / (100 * u)) := by
    rw [Real.log_div (by norm_num) hx.ne']
    ring
  constructor
  · have h := Real.log_le_sub_one_of_pos (x := 10.88 / (100 * u)) (by positivity)
    have e3 : (10.88 : ℝ) / (100 * u) = 0.1088 / u := by
      field_simp
      ring
    rw [e2]
    rw [e3] at h ⊢
    linarith
  · have h := Real.log_le_sub_one_of_pos (x := 100 * u / 10.88) (by positivity)
    have e3 : (100 : ℝ) * u / 10.88 = u / 0.1088 := by
      field_simp
      ring
    rw [e]
    rw [e3] at h ⊢
    linarith

/-- The update map of `vel = 1.18375`, `y = 0.001`, `l_visc = 1e-5`, written
out. -/
lemma ustar_update_near_limit (u : ℝ) :
    ustar_update realLibm stdTurb 1.18375 (0.001 / 1e-5) u
      = (0.497175 + u) / (Real.log (100 * u) + 3.184) := by
  have e1 : (0.001 / 1e-5 : ℝ) = 100 := by norm_num
  have e2 : (0.42 * 1.18375 : ℝ) = 0.497175 := by norm_num
  have e3 : ∀ z : ℝ, z + 0.42 * 5.2 + 1 = z + 3.184 := fun z => by norm_num [add_assoc]
  unfold ustar_update
  simp only [realLibm, stdTurb]
  rw [e1, e2, e3]

/-- The update map sends `[0.102, 0.112]` into `[0.106, 0.112]`. -/
lemma update_near_limit_maps (u : ℝ) (h1 : 0.102 ≤ u) (h2 : u ≤ 0.112) :
    0.106 ≤ ustar_update realLibm stdTurb 1.18375 (0.001 / 1e-5) u
    ∧ ustar_update realLibm stdTurb 1.18375 (0.001 / 1e-5) u ≤ 0.112 := by
  have hu : 0 < u := by linarith
  obtain ⟨a1, a2⟩ := log_hundred_bounds u hu
  have hw : 0.1088 / u ≤ 1.07 := by
    rw [div_le_iff₀ hu]
    linarith
  have hw2 : u / 0.1088 ≤ 1.03 := by
    rw [div_le_iff₀ (by norm_num)]
    linarith
  have hD : 0 < Real.log (100 * u) + 3.184 := by linarith
  rw [ustar_update_near_limit]
  constructor
  · rw [le_div_iff₀ hD]
    have : u / 0.1088 = u * (1 / 0.1088) := by ring
    have h3 : (1 / 0.1088 : ℝ) ≤ 9.2 := by norm_num
    nlinarith
  · rw [div_le_iff₀ hD]
    linarith

/-- On `[0.106, 0.112]` the update map stays below `0.1088`, that is below
`ypluli * l_visc / y`. -/
lemma update_near_limit_lt (u : ℝ) (h1 : 0.106 ≤ u) (h2 : u ≤ 0.112) :
    ustar_update realLibm stdTurb 1.18375 (0.001 / 1e-5) u < 0.1088 := by
  have hu : 0 < u := by linarith
  obtain ⟨a1, -⟩ := log_hundred_bounds u hu
  have hw : 0.1088 / u ≤ 1.07 := by
    rw [div_le_iff₀ hu]
    linarith
  have hD : 0 < Real.log (100 * u) + 3.184 := by linarith
  have hq : (0.497175 + u) * u < 0.1088 * (6.5709 * u - 0.1088) := by
    nlinarith [mul_nonneg (sub_nonneg.mpr h1) (sub_nonneg.mpr h2)]
  have hq2 : 0.497175 + u < 0.1088 * (6.5709 - 0.1088 / u) := by
    have e : (6.5709 : ℝ) - 0.1088 / u = (6.5709 * u - 0.1088) / u := by
      field_simp
    rw [e, ← mul_div_assoc, lt_div_iff₀ hu]
    exact hq
  rw [ustar_update_near_limit, div_lt_iff₀ hD]
  nlinarith


/-- The seed `CS_MAX(ustarwer, ustarmin)` of `vel = 1.18375`, `y = 0.001`,
`l_visc = 1e-5` lies in `[0.102, 0.1026]`. -/
lemma near_limit_seed :
    0.102 ≤ CS_MAX (realLibm.pow (|(1.18375 : ℝ)| / stdTurb.cs_turb_apow
              / realLibm.pow (0.001 / 1e-5) stdTurb.cs_turb_bpow) stdTurb.cs_turb_dpow)
            (realLibm.exp (-stdTurb.cs_turb_cstlog * stdTurb.cs_turb_xkappa) / (0.001 / 1e-5))
    ∧ CS_MAX (realLibm.pow (|(1.18375 : ℝ)| / stdTurb.cs_turb_apow
              / realLibm.pow (0.001 / 1e-5) stdTurb.cs_turb_bpow) stdTurb.cs_turb_dpow)
            (realLibm.exp (-stdTurb.cs_turb_cstlog * stdTurb.cs_turb_xkappa) / (0.001 / 1e-5))
        ≤ 0.1026 := by
  obtain ⟨w1, w2⟩ := seed_window
  have e1 : (0.001 / 1e-5 : ℝ) = 100 := by norm_num
  have hmin : Real.exp (-(5.2 : ℝ) * 0.42) / 100 ≤ 0.01 := by
    have h1 : Real.exp (-(5.2 : ℝ) * 0.42) ≤ 1 := Real.exp_le_one_iff.mpr (by norm_num)
    rw [div_le_iff₀ (by norm_num)]
    calc Real.exp (-(5.2 : ℝ) * 0.42) ≤ 1 := h1
      _ ≤ 0.01 * 100 := by norm_num
  simp only [realLibm, stdTurb, CS_MAX, e1]
  rw [if_pos (by linarith)]
  exact ⟨w1, w2⟩

/-- 1-scale log law at `vel = 1.18375`, `y = 0.001`, `l_visc = 1e-5`
(`reynolds = 118.375`, just above `10.88^2 = 118.3744`): the log branch runs
and the returned `ustar` is below `0.1088`. -/
lemma near_limit_ustar_lt (ifac : Int) (s : Outputs ℝ) :
    ¬ ((1.18375 : ℝ) * (0.001 / 1e-5) ≤ (stdConf .CS_WALL_F_1SCALE_LOG).ypluli
        * (stdConf .CS_WALL_F_1SCALE_LOG).ypluli)
    ∧ (cs_wall_functions_1scale_log_run realLibm stdTurb (stdConf .CS_WALL_F_1SCALE_LOG) ifac
        1e-5 1.18375 0.001 s).out.ustar < 0.1088 := by
  have hre : ¬ ((1.18375 : ℝ) * (0.001 / 1e-5) ≤ (stdConf .CS_WALL_F_1SCALE_LOG).ypluli
        * (stdConf .CS_WALL_F_1SCALE_LOG).ypluli) := by
    simp only [stdConf]
    norm_num
  refine ⟨hre, ?_⟩
  obtain ⟨s1, s2⟩ := near_limit_seed
  unfold cs_wall_functions_1scale_log_run
  simp only [if_neg hre]
  generalize CS_MAX (realLibm.pow (|(1.18375 : ℝ)| / stdTurb.cs_turb_apow
              / realLibm.pow (0.001 / 1e-5) stdTurb.cs_turb_bpow) stdTurb.cs_turb_dpow)
            (realLibm.exp (-stdTurb.cs_turb_cstlog * stdTurb.cs_turb_xkappa) / (0.001 / 1e-5))
      = u0 at s1 s2 ⊢
  obtain ⟨m1, m2⟩ := update_near_limit_maps u0 (by linarith) (by linarith)
  have htest : (0 < 100 ∧ |ustar_update realLibm stdTurb 1.18375 (0.001 / 1e-5) u0 - u0|
      ≥ 0.001 * u0) := by
    refine ⟨by norm_num, ?_⟩
    rw [abs_of_nonneg (by linarith)]
    linarith
  rw [ustar_loop, if_pos htest]
  have hinv := ustar_loop_invariant realLibm stdTurb 1.18375 (0.001 / 1e-5) 0.001 100
    (fun u => 0.106 ≤ u ∧ u < 0.1088)
    (fun u hu => ⟨(update_near_limit_maps u (by linarith [hu.1]) (by linarith [hu.2])).1,
      update_near_limit_lt u hu.1 (by linarith [hu.2])⟩)
    (0 + 1) (ustar_update realLibm stdTurb 1.18375 (0.001 / 1e-5) u0)
    (ustar_update realLibm stdTurb 1.18375 (0.001 / 1e-5)
      (ustar_update realLibm stdTurb 1.18375 (0.001 / 1e-5) u0))
    ⟨(update_near_limit_maps _ (by linarith) m2).1, update_near_limit_lt _ m1 m2⟩
  exact hinv.2

/-- C17, counterexample. 1-scale power law at `vel = 1.21`, `y = 0.001`,
`l_visc = 1e-5`: the power-law `yplus` is below `10.88`, the call is counted as
sublayer and returns the linear `yplus = 11 > ypluli`.  1-scale log law at
`vel = 1.18375`, `y = 0.001`, `l_visc = 1e-5`: `reynolds = 118.375 > 10.88^2`,
the call is counted as log layer and returns `yplus < ypluli`. -/
theorem one_scale_yplus_across_ypluli :
    ((0 : ℝ) < 1e-5 ∧ (0 : ℝ) < 0.001 ∧ (0 : ℝ) ≤ 1.21 ∧ (0 : ℝ) ≤ 1.18375)
    ∧ (counted_sublayer entry1 (cs_wall_functions_1scale_power realLibm stdTurb (stdConf .CS_WALL_F_1SCALE_POWER)
          1e-5 1.21 0.001 entry1)
      ∧ (cs_wall_functions_1scale_power realLibm stdTurb (stdConf .CS_WALL_F_1SCALE_POWER)
          1e-5 1.21 0.001 entry1).yplus = 11
      ∧ ¬ (counted_sublayer entry1 (cs_wall_functions_1scale_power realLibm stdTurb (stdConf .CS_WALL_F_1SCALE_POWER)
          1e-5 1.21 0.001 entry1)
          ↔ (cs_wall_functions_1scale_power realLibm stdTurb (stdConf .CS_WALL_F_1SCALE_POWER)
          1e-5 1.21 0.001 entry1).yplus
              ≤ (stdConf .CS_WALL_F_1SCALE_POWER).ypluli))
    ∧ (counted_log_layer entry1 (cs_wall_functions_1scale_log realLibm stdTurb (stdConf .CS_WALL_F_1SCALE_LOG) 7
          1e-5 1.18375 0.001 entry1)
      ∧ (cs_wall_functions_1scale_log realLibm stdTurb (stdConf .CS_WALL_F_1SCALE_LOG) 7
          1e-5 1.18375 0.001 entry1).yplus < 10.88
      ∧ ¬ (counted_log_layer entry1 (cs_wall_functions_1scale_log realLibm stdTurb (stdConf .CS_WALL_F_1SCALE_LOG) 7
          1e-5 1.18375 0.001 entry1)
          ↔ (cs_wall_functions_1scale_log realLibm stdTurb (stdConf .CS_WALL_F_1SCALE_LOG) 7
          1e-5 1.18375 0.001 entry1).yplus
              > (stdConf .CS_WALL_F_1SCALE_LOG).ypluli)) := by
  refine ⟨⟨by norm_num, by norm_num, by norm_num, by norm_num⟩, ?_, ?_⟩
  · have e1 : (0.001 / 1e-5 : ℝ) = 100 := by norm_num
    have hc : realLibm.pow ((1.21 : ℝ) / (stdTurb.cs_turb_apow
          * realLibm.pow (0.001 / 1e-5) stdTurb.cs_turb_bpow)) stdTurb.cs_turb_dpow
          * (0.001 / 1e-5) ≤ (stdConf .CS_WALL_F_1SCALE_POWER).ypluli := by
      have h := power_ustar_le
      simp only [realLibm, stdTurb, stdConf, e1]
      linarith
    have hsq : Real.sqrt ((1.21 : ℝ) / (0.001 / 1e-5)) = 0.11 := by
      have e : ((1.21 : ℝ) / (0.001 / 1e-5)) = 0.11 ^ 2 := by norm_num
      rw [e, Real.sqrt_sq (by norm_num)]
    have hsub : counted_sublayer entry1 (cs_wall_functions_1scale_power realLibm stdTurb (stdConf .CS_WALL_F_1SCALE_POWER)
          1e-5 1.21 0.001 entry1) := by
      unfold cs_wall_functions_1scale_power counted_sublayer
      simp only [if_pos hc]
    have hyp : (cs_wall_functions_1scale_power realLibm stdTurb (stdConf .CS_WALL_F_1SCALE_POWER)
          1e-5 1.21 0.001 entry1).yplus = 11 := by
      unfold cs_wall_functions_1scale_power
      simp only [if_pos hc]
      simp only [realLibm, hsq]
      norm_num
    refine ⟨hsub, hyp, ?_⟩
    intro hiff
    have := hiff.mp hsub
    rw [hyp] at this
    simp only [stdConf] at this
    norm_num at this
  · obtain ⟨hre, hlt⟩ := near_limit_ustar_lt 7 entry1
    obtain ⟨o1, -, o3, -⟩ := log_branch_outputs realLibm stdTurb
      (stdConf .CS_WALL_F_1SCALE_LOG) 7 1e-5 1.18375 0.001 entry1 hre
    have hlog : counted_log_layer entry1 (cs_wall_functions_1scale_log realLibm stdTurb (stdConf .CS_WALL_F_1SCALE_LOG) 7
          1e-5 1.18375 0.001 entry1) := by
      unfold cs_wall_functions_1scale_log counted_log_layer
      exact o3
    have hyp : (cs_wall_functions_1scale_log realLibm stdTurb (stdConf .CS_WALL_F_1SCALE_LOG) 7
          1e-5 1.18375 0.001 entry1).yplus < 10.88 := by
      unfold cs_wall_functions_1scale_log
      rw [o1]
      have e1 : (0.001 / 1e-5 : ℝ) = 100 := by norm_num
      rw [e1]
      linarith
    refine ⟨hlog, hyp, ?_⟩
    intro hiff
    have h2 : (stdConf .CS_WALL_F_1SCALE_LOG).ypluli = 10.88 := rfl
    have := hiff.mp hlog
    rw [h2] at this
    exact absurd hyp (not_lt.mpr (le_of_lt this))

/-- C17 (as amended). The 2-scale log and 2-scale scalable variants count a call
as sublayer iff the returned `yplus <= ypluli` and as log layer iff the
returned `yplus > ypluli`.  The 1-scale power law counts a call as sublayer iff
its power-law `yplus` is `<= ypluli` and as log layer otherwise, in which case
that value is the returned `yplus`.  The 1-scale log law counts a call as
sublayer iff `reynolds <= ypluli^2` and as log layer otherwise; over the reals,
for `ypluli >= 0` and a valid input, a call counted as sublayer returns
`yplus = sqrt(reynolds) <= ypluli`. -/
theorem threshold_classification :
    (∀ (α : Type) [LinearOrderedField α] (m : Libm α) (t : cs_turb_t α)
        (g : cs_wall_functions_t α) (ifac : Int) (l_visc t_visc vel y kinetic_en : α)
        (s : Outputs α),
        ((counted_sublayer s (cs_wall_functions_1scale_power m t g l_visc vel y s)
              ↔ power_law_yplus m t l_visc vel y ≤ g.ypluli)
          ∧ (counted_log_layer s (cs_wall_functions_1scale_power m t g l_visc vel y s)
              ↔ power_law_yplus m t l_visc vel y > g.ypluli)
          ∧ (power_law_yplus m t l_visc vel y > g.ypluli →
              (cs_wall_functions_1scale_power m t g l_visc vel y s).yplus
                = power_law_yplus m t l_visc vel y))
        ∧ ((counted_sublayer s (cs_wall_functions_1scale_log m t g ifac l_visc vel y s)
              ↔ vel * (y / l_visc) ≤ g.ypluli * g.ypluli)
          ∧ (counted_log_layer s (cs_wall_functions_1scale_log m t g ifac l_visc vel y s)
              ↔ vel * (y / l_visc) > g.ypluli * g.ypluli))
        ∧ ((counted_sublayer s
                (cs_wall_functions_2scales_log m t g l_visc t_visc vel y kinetic_en s)
              ↔ (cs_wall_functions_2scales_log m t g l_visc t_visc vel y kinetic_en s).yplus
                  ≤ g.ypluli)
          ∧ (counted_log_layer s
                (cs_wall_functions_2scales_log m t g l_visc t_visc vel y kinetic_en s)
              ↔ (cs_wall_functions_2scales_log m t g l_visc t_visc vel y kinetic_en s).yplus
                  > g.ypluli))
        ∧ ((counted_sublayer s
                (cs_wall_functions_2scales_scalable m t g l_visc t_visc vel y kinetic_en s)
              ↔ (cs_wall_functions_2scales_scalable m t g l_visc t_visc vel y
                    kinetic_en s).yplus ≤ g.ypluli)
          ∧ (counted_log_layer s
                (cs_wall_functions_2scales_scalable m t g l_visc t_visc vel y kinetic_en s)
              ↔ (cs_wall_functions_2scales_scalable m t g l_visc t_visc vel y
                    kinetic_en s).yplus > g.ypluli)))
    ∧ (∀ (t : cs_turb_t ℝ) (g : cs_wall_functions_t ℝ) (ifac : Int) (l_visc vel y : ℝ)
        (s : Outputs ℝ), 0 ≤ g.ypluli → 0 < l_visc → 0 < y → 0 ≤ vel →
        counted_sublayer s (cs_wall_functions_1scale_log realLibm t g ifac l_visc vel y s) →
        (cs_wall_functions_1scale_log realLibm t g ifac l_visc vel y s).yplus
            = Real.sqrt (vel * (y / l_visc))
        ∧ (cs_wall_functions_1scale_log realLibm t g ifac l_visc vel y s).yplus ≤ g.ypluli) := by
  refine ⟨fun α _ m t g ifac l_visc t_visc vel y kinetic_en s =>
    classification m t g ifac l_visc t_visc vel y kinetic_en s, ?_⟩
  intro t g ifac l_visc vel y s hg hl hy hv hsub
  have h := ((classification realLibm t g ifac l_visc 0 vel y 0 s).2.1.1).mp hsub
  exact log_sublayer_yplus_le t g ifac l_visc vel y s hg hl hy hv h

/-- C17, witness of the amended statement: `vel = 0`, `y = 0.001`,
`l_visc = 1e-5` is counted as sublayer by the 1-scale log law. -/
theorem threshold_classification_witness :
    ((0 : ℝ) ≤ (stdConf .CS_WALL_F_1SCALE_LOG).ypluli ∧ (0 : ℝ) < 1e-5 ∧ (0 : ℝ) < 0.001
      ∧ (0 : ℝ) ≤ 0
      ∧ counted_sublayer entry1 (cs_wall_functions_1scale_log realLibm stdTurb
          (stdConf .CS_WALL_F_1SCALE_LOG) 7 1e-5 0 0.001 entry1))
    ∧ ((cs_wall_functions_1scale_log realLibm stdTurb (stdConf .CS_WALL_F_1SCALE_LOG) 7
          1e-5 0 0.001 entry1).yplus = Real.sqrt (0 * (0.001 / 1e-5))
      ∧ (cs_wall_functions_1scale_log realLibm stdTurb (stdConf .CS_WALL_F_1SCALE_LOG) 7
          1e-5 0 0.001 entry1).yplus ≤ (stdConf .CS_WALL_F_1SCALE_LOG).ypluli) := by
  have hg : (0 : ℝ) ≤ (stdConf .CS_WALL_F_1SCALE_LOG).ypluli := by
    simp only [stdConf]
    norm_num
  have hre : (0 : ℝ) * (0.001 / 1e-5) ≤ (stdConf .CS_WALL_F_1SCALE_LOG).ypluli
      * (stdConf .CS_WALL_F_1SCALE_LOG).ypluli := by
    rw [zero_mul]
    exact mul_nonneg hg hg
  have hsub : counted_sublayer entry1 (cs_wall_functions_1scale_log realLibm stdTurb
          (stdConf .CS_WALL_F_1SCALE_LOG) 7 1e-5 0 0.001 entry1) := by
    unfold cs_wall_functions_1scale_log cs_wall_functions_1scale_log_run counted_sublayer
    simp only [if_pos hre]
  exact ⟨⟨hg, by norm_num, by norm_num, le_refl _, hsub⟩,
    threshold_classification.2 stdTurb (stdConf .CS_WALL_F_1SCALE_LOG) 7 1e-5 0 0.001 entry1
      hg (by norm_num) (by norm_num) (le_refl _) hsub⟩

/-! ## Executed operations stay in their domain -/

section PowDomain

variable {α : Type} [LinearOrderedField α]

/-- A positive base is in the domain of `pow`. -/
lemma pow_defined_of_pos (x y : α) (h : 0 < x) : pow_defined x y := Or.inl h

/-- A non-negative base with a non-negative exponent is in the domain of `pow`. -/
lemma pow_defined_of_nonneg (x y : α) (hx : 0 ≤ x) (hy : 0 ≤ y) : pow_defined x y := by
  rcases lt_or_eq_of_le hx with h | h
  · exact Or.inl h
  · exact Or.inr ⟨h.symm, hy⟩

/-- The updates executed by the loop are defined when a property of `*ustar`
that makes one update defined is preserved by the update. -/
lemma ustar_loop_defined_of_invariant (m : Libm α) (t : cs_turb_t α)
    (vel ydvisc eps : α) (niter_max : Nat) (P : α → Prop)
    (hdef : ∀ u, P u → ustar_update_defined m t ydvisc u)
    (hstep : ∀ u, P u → P (ustar_update m t vel ydvisc u))
    (iter : Nat) (ustaro ustar : α) (h : P ustar) :
    ustar_loop_defined m t vel ydvisc eps niter_max iter ustaro ustar := by
  induction iter, ustaro, ustar using ustar_loop.induct m t vel ydvisc eps niter_max with
  | case1 iter ustaro ustar hc ih =>
    rw [ustar_loop_defined, if_pos hc]
    exact ⟨hdef _ h, ih (hstep _ h)⟩
  | case2 iter ustaro ustar hc =>
    rw [ustar_loop_defined, if_neg hc]
    trivial

end PowDomain

/-- The disabled variant executes no undefined operation for `l_visc > 0`,
`y > 0`, `vel >= 0`, `t_visc >= 0`. -/
lemma disabled_defined (l_visc t_visc vel y : ℝ)
    (hl : 0 < l_visc) (hy : 0 < y) (hv : 0 ≤ vel) (ht : 0 ≤ t_visc) :
    cs_wall_functions_disabled_defined l_visc t_visc vel y :=
  ⟨hy.ne', div_nonneg (mul_nonneg hv hl.le) hy.le, hl.ne', by linarith⟩

/-- The 1-scale power law executes no undefined operation on a valid input. -/
lemma power_defined (iwallf : cs_wall_function_type_t) (l_visc vel y : ℝ)
    (hl : 0 < l_visc) (hy : 0 < y) (hv : 0 ≤ vel) :
    cs_wall_functions_1scale_power_defined realLibm stdTurb (stdConf iwallf) l_visc vel y := by
  have hyd : 0 < y / l_visc := div_pos hy hl
  have hp : 0 < (y / l_visc) ^ stdTurb.cs_turb_bpow := Real.rpow_pos_of_pos hyd _
  have ha : (0 : ℝ) < stdTurb.cs_turb_apow := by
    simp only [stdTurb]
    norm_num
  have hd : (0 : ℝ) < stdTurb.cs_turb_dpow := by
    simp only [stdTurb]
    norm_num
  have hap : 0 < stdTurb.cs_turb_apow * (y / l_visc) ^ stdTurb.cs_turb_bpow := mul_pos ha hp
  have hb : 0 ≤ vel / (stdTurb.cs_turb_apow * (y / l_visc) ^ stdTurb.cs_turb_bpow) :=
    div_nonneg hv hap.le
  have hu : 0 ≤ (vel / (stdTurb.cs_turb_apow * (y / l_visc) ^ stdTurb.cs_turb_bpow))
      ^ stdTurb.cs_turb_dpow := Real.rpow_nonneg hb _
  have he1 : (0 : ℝ) ≤ 2 * stdTurb.cs_turb_dpow - 1 := by
    simp only [stdTurb]
    norm_num
  have he2 : (0 : ℝ) ≤ stdTurb.cs_turb_bpow + 1 - 1 / stdTurb.cs_turb_dpow := by
    simp only [stdTurb]
    norm_num
  unfold cs_wall_functions_1scale_power_defined
  simp only [realLibm]
  refine ⟨hl.ne', pow_defined_of_pos _ _ hyd, hap.ne', pow_defined_of_nonneg _ _ hb hd.le, ?_⟩
  split_ifs
  · exact ⟨hyd.ne', div_nonneg hv hyd.le⟩
  · exact ⟨pow_defined_of_nonneg _ _ hv he1, pow_defined_of_pos _ _ ha,
      (Real.rpow_pos_of_pos ha _).ne', hd.ne', pow_defined_of_nonneg _ _ hu he2,
      pow_defined_of_pos _ _ (by norm_num)⟩

/-- 1-scale log law with the standard constants, log branch: the last iterate
of the loop has `ydvisc * ustar >= 1`. -/
lemma loop_result_ge (vel ydvisc u0 : ℝ) (hre : 118 ≤ vel * ydvisc)
    (hu0 : Real.exp (-5.2 * 0.42) ≤ ydvisc * u0) :
    1 ≤ ydvisc * (ustar_loop realLibm stdTurb vel ydvisc 0.001 100 0 u0
        (ustar_update realLibm stdTurb vel ydvisc u0)).2.2 := by
  have hone : Real.exp (-5.2 * 0.42) ≤ 1 := Real.exp_le_one_iff.mpr (by norm_num)
  exact ustar_loop_invariant realLibm stdTurb vel ydvisc 0.001 100
    (fun u => 1 ≤ ydvisc * u)
    (fun u hu => (update_ge_one vel ydvisc u hre (hone.trans hu)).2) 0 u0 _
    (update_ge_one vel ydvisc u0 hre hu0).2

/-- The 1-scale log law executes no undefined operation on a valid input. -/
lemma log_defined (iwallf : cs_wall_function_type_t) (l_visc vel y : ℝ)
    (hl : 0 < l_visc) (hy : 0 < y) (hv : 0 ≤ vel) :
    cs_wall_functions_1scale_log_defined realLibm stdTurb (stdConf iwallf) l_visc vel y := by
  have hyd : 0 < y / l_visc := div_pos hy hl
  unfold cs_wall_functions_1scale_log_defined
  refine ⟨hl.ne', ?_⟩
  by_cases hre : vel * (y / l_visc) ≤ (stdConf iwallf).ypluli * (stdConf iwallf).ypluli
  · simp only [if_pos hre]
    exact ⟨hyd.ne', div_nonneg hv hyd.le⟩
  · simp only [if_neg hre]
    have hre2 : 118 ≤ vel * (y / l_visc) := by
      simp only [stdConf, not_le] at hre
      norm_num at hre
      linarith
    have hone : Real.exp (-5.2 * 0.42) ≤ 1 := Real.exp_le_one_iff.mpr (by norm_num)
    have ha : (0 : ℝ) < stdTurb.cs_turb_apow := by
      simp only [stdTurb]
      norm_num
    have hd : (0 : ℝ) < stdTurb.cs_turb_dpow := by
      simp only [stdTurb]
      norm_num
    have hk : (0 : ℝ) < stdTurb.cs_turb_xkappa := by
      simp only [stdTurb]
      norm_num
    have hp : 0 < realLibm.pow (y / l_visc) stdTurb.cs_turb_bpow :=
      Real.rpow_pos_of_pos hyd _
    have hb : 0 ≤ |vel| / stdTurb.cs_turb_apow / realLibm.pow (y / l_visc) stdTurb.cs_turb_bpow :=
      div_nonneg (div_nonneg (abs_nonneg _) ha.le) hp.le
    -- the seed
    have hseed : Real.exp (-5.2 * 0.42) ≤ y / l_visc
        * CS_MAX (realLibm.pow (|vel| / stdTurb.cs_turb_apow
              / realLibm.pow (y / l_visc) stdTurb.cs_turb_bpow) stdTurb.cs_turb_dpow)
            (realLibm.exp (-stdTurb.cs_turb_cstlog * stdTurb.cs_turb_xkappa) / (y / l_visc)) := by
      have h1 := le_CS_MAX_right
        (realLibm.pow (|vel| / stdTurb.cs_turb_apow
            / realLibm.pow (y / l_visc) stdTurb.cs_turb_bpow) stdTurb.cs_turb_dpow)
        (realLibm.exp (-stdTurb.cs_turb_cstlog * stdTurb.cs_turb_xkappa) / (y / l_visc))
      have h2 := mul_le_mul_of_nonneg_left h1 hyd.le
      have e : y / l_visc
          * (realLibm.exp (-stdTurb.cs_turb_cstlog * stdTurb.cs_turb_xkappa) / (y / l_visc))
          = Real.exp (-5.2 * 0.42) := by
        simp only [realLibm, stdTurb]
        field_simp
        ring
      rw [e] at h2
      exact h2
    have hupd : ∀ u : ℝ, Real.exp (-5.2 * 0.42) ≤ y / l_visc * u →
        ustar_update_defined realLibm stdTurb (y / l_visc) u := by
      intro u hu
      have h1 := (update_ge_one vel (y / l_visc) u hre2 hu).1
      exact ⟨lt_of_lt_of_le (Real.exp_pos _) hu, (lt_of_lt_of_le one_pos h1).ne'⟩
    have hlast := loop_result_ge vel (y / l_visc) _ hre2 hseed
    rw [mul_comm] at hlast
    have hlog : 0 ≤ Real.log ((ustar_loop realLibm stdTurb vel (y / l_visc) 0.001 100 0
        (CS_MAX (realLibm.pow (|vel| / stdTurb.cs_turb_apow
              / realLibm.pow (y / l_visc) stdTurb.cs_turb_bpow) stdTurb.cs_turb_dpow)
            (realLibm.exp (-stdTurb.cs_turb_cstlog * stdTurb.cs_turb_xkappa) / (y / l_visc)))
        (ustar_update realLibm stdTurb vel (y / l_visc)
          (CS_MAX (realLibm.pow (|vel| / stdTurb.cs_turb_apow
              / realLibm.pow (y / l_visc) stdTurb.cs_turb_bpow) stdTurb.cs_turb_dpow)
            (realLibm.exp (-stdTurb.cs_turb_cstlog * stdTurb.cs_turb_xkappa)
              / (y / l_visc))))).2.2 * (y / l_visc)) := Real.log_nonneg hlast
    refine ⟨ha.ne', pow_defined_of_pos _ _ hyd, hp.ne', pow_defined_of_nonneg _ _ hb hd.le,
      hyd.ne', hupd _ hseed, ?_, by linarith, hk.ne', ?_, by linarith⟩
    · exact ustar_loop_defined_of_invariant realLibm stdTurb vel (y / l_visc) 0.001 100
        (fun u => 1 ≤ y / l_visc * u)
        (fun u hu => hupd u (hone.trans hu))
        (fun u hu => (update_ge_one vel (y / l_visc) u hre2 (hone.trans hu)).2) 0 _ _
        (update_ge_one vel (y / l_visc) _ hre2 hseed).2
    · have h5 : (0 : ℝ) < stdTurb.cs_turb_cstlog := by
        simp only [stdTurb]
        norm_num
      have h6 := div_nonneg hlog hk.le
      have h7 : 0 < Real.log ((ustar_loop realLibm stdTurb vel (y / l_visc) 0.001 100 0
        (CS_MAX (realLibm.pow (|vel| / stdTurb.cs_turb_apow
              / realLibm.pow (y / l_visc) stdTurb.cs_turb_bpow) stdTurb.cs_turb_dpow)
            (realLibm.exp (-stdTurb.cs_turb_cstlog * stdTurb.cs_turb_xkappa) / (y / l_visc)))
        (ustar_update realLibm stdTurb vel (y / l_visc)
          (CS_MAX (realLibm.pow (|vel| / stdTurb.cs_turb_apow
              / realLibm.pow (y / l_visc) stdTurb.cs_turb_bpow) stdTurb.cs_turb_dpow)
            (realLibm.exp (-stdTurb.cs_turb_cstlog * stdTurb.cs_turb_xkappa)
              / (y / l_visc))))).2.2 * (y / l_visc)) / stdTurb.cs_turb_xkappa
          + stdTurb.cs_turb_cstlog := by linarith
      exact h7.ne'


/-- The argument of the square root of the blended scale is not negative for
`l_visc > 0`, `y > 0`, `vel >= 0`, `kinetic_en >= 0`. -/
lemma blend_nonneg (l_visc vel y kinetic_en c : ℝ) (hl : 0 < l_visc) (hy : 0 < y)
    (hv : 0 ≤ vel) (hk : 0 ≤ kinetic_en) :
    0 ≤ (1 - Real.exp (-(Real.sqrt kinetic_en * y / l_visc) / 11)) * c * c * kinetic_en
        + Real.exp (-(Real.sqrt kinetic_en * y / l_visc) / 11) * l_visc * vel / y := by
  have hre : 0 ≤ Real.sqrt kinetic_en * y / l_visc :=
    div_nonneg (mul_nonneg (Real.sqrt_nonneg _) hy.le) hl.le
  have hg1 : Real.exp (-(Real.sqrt kinetic_en * y / l_visc) / 11) ≤ 1 :=
    Real.exp_le_one_iff.mpr (by linarith)
  have hg0 := Real.exp_pos (-(Real.sqrt kinetic_en * y / l_visc) / 11)
  have h1 : 0 ≤ (1 - Real.exp (-(Real.sqrt kinetic_en * y / l_visc) / 11)) * c * c
      * kinetic_en := by
    have e : (1 - Real.exp (-(Real.sqrt kinetic_en * y / l_visc) / 11)) * c * c * kinetic_en
        = (1 - Real.exp (-(Real.sqrt kinetic_en * y / l_visc) / 11)) * (c * c) * kinetic_en := by
      ring
    rw [e]
    exact mul_nonneg (mul_nonneg (by linarith) (mul_self_nonneg c)) hk
  have h2 : 0 ≤ Real.exp (-(Real.sqrt kinetic_en * y / l_visc) / 11) * l_visc * vel / y :=
    div_nonneg (mul_nonneg (mul_nonneg hg0.le hl.le) hv) hy.le
  linarith

/-- The 2-scale log law executes no undefined operation on a valid input with
`t_visc > 0`, and for any `t_visc` when the call takes the viscous branch. -/
lemma two_scales_log_defined (iwallf : cs_wall_function_type_t)
    (l_visc t_visc vel y kinetic_en : ℝ) (s : Outputs ℝ)
    (hl : 0 < l_visc) (hy : 0 < y) (hv : 0 ≤ vel) (hk : 0 ≤ kinetic_en)
    (ht : 0 < t_visc ∨ (cs_wall_functions_2scales_log realLibm stdTurb (stdConf iwallf)
        l_visc t_visc vel y kinetic_en s).yplus ≤ (stdConf iwallf).ypluli) :
    cs_wall_functions_2scales_log_defined realLibm stdTurb (stdConf iwallf)
      l_visc t_visc vel y kinetic_en := by
  have hb := blend_nonneg l_visc vel y kinetic_en stdTurb.cs_turb_cmu025 hl hy hv hk
  have hkap : (0 : ℝ) < stdTurb.cs_turb_xkappa := by
    simp only [stdTurb]
    norm_num
  have hyp : (cs_wall_functions_2scales_log realLibm stdTurb (stdConf iwallf)
        l_visc t_visc vel y kinetic_en s).yplus
      = Real.sqrt ((1 - Real.exp (-(Real.sqrt kinetic_en * y / l_visc) / 11))
            * stdTurb.cs_turb_cmu025 * stdTurb.cs_turb_cmu025 * kinetic_en
          + Real.exp (-(Real.sqrt kinetic_en * y / l_visc) / 11) * l_visc * vel / y)
        * y / l_visc := by
    unfold cs_wall_functions_2scales_log
    simp only [realLibm]
    split_ifs <;> rfl
  rw [hyp] at ht
  unfold cs_wall_functions_2scales_log_defined
  simp only [realLibm]
  refine ⟨hk, hl.ne', hy.ne', hb, ?_⟩
  generalize Real.sqrt ((1 - Real.exp (-(Real.sqrt kinetic_en * y / l_visc) / 11))
            * stdTurb.cs_turb_cmu025 * stdTurb.cs_turb_cmu025 * kinetic_en
          + Real.exp (-(Real.sqrt kinetic_en * y / l_visc) / 11) * l_visc * vel / y)
        * y / l_visc = yplus at ht ⊢
  by_cases hc : yplus > (stdConf iwallf).ypluli
  · simp only [if_pos hc]
    have h1 : 10.88 < yplus := hc
    have h0 : 0 < yplus := by linarith
    have htv : 0 < t_visc := by
      rcases ht with h | h
      · exact h
      · exact absurd hc (not_lt.mpr h)
    refine ⟨h0, hkap.ne', (log_law_pos yplus h1.le).ne', htv.ne', ?_, h0.ne', by linarith⟩
    exact div_nonneg (mul_nonneg (mul_nonneg hkap.le hl.le) h0.le) htv.le
  · simp only [if_neg hc]
    intro h
    exact (lt_trans (by norm_num) h).ne'

/-- The scalable variant executes no undefined operation on a valid input with
`t_visc > 0`. -/
lemma scalable_defined (iwallf : cs_wall_function_type_t)
    (l_visc t_visc vel y kinetic_en : ℝ)
    (hl : 0 < l_visc) (hy : 0 < y) (hv : 0 ≤ vel) (hk : 0 ≤ kinetic_en) (ht : 0 < t_visc) :
    cs_wall_functions_2scales_scalable_defined realLibm stdTurb (stdConf iwallf)
      l_visc t_visc vel y kinetic_en := by
  have hb := blend_nonneg l_visc vel y kinetic_en stdTurb.cs_turb_cmu025 hl hy hv hk
  have hkap : (0 : ℝ) < stdTurb.cs_turb_xkappa := by
    simp only [stdTurb]
    norm_num
  have hraw : 0 ≤ stdTurb.cs_turb_cmu025 * Real.sqrt kinetic_en * y / l_visc := by
    apply div_nonneg (mul_nonneg (mul_nonneg _ (Real.sqrt_nonneg _)) hy.le) hl.le
    simp only [stdTurb]
    exact Real.sqrt_nonneg _
  have hp : (stdConf iwallf).ypluli = 10.88 := rfl
  unfold cs_wall_functions_2scales_scalable_defined
  simp only [realLibm]
  refine ⟨hk, hl.ne', hy.ne', hb, ht.ne', ?_⟩
  generalize stdTurb.cs_turb_cmu025 * Real.sqrt kinetic_en * y / l_visc = raw at hraw ⊢
  rw [hp]
  by_cases hc : raw > 10.88
  · simp only [if_pos hc]
    have h0 : 0 < raw := lt_trans (by norm_num) hc
    exact ⟨div_nonneg (mul_nonneg (mul_nonneg hkap.le hl.le) h0.le) ht.le, h0.ne', h0,
      hkap.ne', (log_law_pos raw (le_of_lt hc)).ne', by linarith⟩
  · simp only [if_neg hc]
    refine ⟨div_nonneg (mul_nonneg (mul_nonneg hkap.le hl.le) (by norm_num)) ht.le,
      by norm_num, by norm_num, hkap.ne', (log_law_pos 10.88 (le_refl _)).ne', ?_⟩
    have : (0 : ℝ) < 2 * 10.88 - (10.88 - raw) := by linarith
    exact this.ne'


/-- The Van Driest mixing length `kappa * yplus * (1 - exp(-c * yplus / A))` is
positive for `yplus > 0` and a positive coefficient product. -/
lemma mixing_length_pos (k yplus e : ℝ) (hk : 0 < k) (hyp : 0 < yplus) (he : e < 0) :
    0 < k * yplus * (1 - Real.exp e) := by
  have h1 : Real.exp e < 1 := by
    have h := Real.exp_lt_exp.mpr he
    rwa [Real.exp_zero] at h
  exact mul_pos (mul_pos hk hyp) (by linarith)

/-- The Van Driest variant executes no undefined operation on a valid input
(with `wf = false`, for a non-negative incoming `uk`). -/
lemma vdriest_defined (rnnb l_visc y kinetic_en kr : ℝ) (wf : Bool) (uk0 : ℝ)
    (hl : 0 < l_visc) (hk : 0 ≤ kinetic_en) (hr : 0 ≤ rnnb) (hkr : 0 ≤ kr)
    (hs : wf = false → 0 ≤ uk0) :
    cs_wall_functions_2scales_vdriest_defined realLibm stdTurb rnnb l_visc y kinetic_en kr
      wf uk0 := by
  have hq : (0 : ℝ) ≤ (1 - stdTurb.cs_turb_crij2) / stdTurb.cs_turb_crij1 * rnnb * kinetic_en := by
    apply mul_nonneg (mul_nonneg _ hr) hk
    simp only [stdTurb]
    norm_num
  have hc1 : stdTurb.cs_turb_crij1 ≠ 0 := by
    simp only [stdTurb]
    norm_num
  have hkap : (0 : ℝ) < stdTurb.cs_turb_xkappa := by
    simp only [stdTurb]
    norm_num
  have hvd : (0 : ℝ) < stdTurb.cs_turb_vdriest := by
    simp only [stdTurb]
    norm_num
  obtain ⟨uk, huk, huke⟩ : ∃ uk : ℝ, 0 ≤ uk
      ∧ (if wf = true then
          realLibm.sqrt (realLibm.sqrt
            ((1 - stdTurb.cs_turb_crij2) / stdTurb.cs_turb_crij1 * rnnb * kinetic_en))
        else uk0) = uk := by
    refine ⟨_, ?_, rfl⟩
    cases wf
    · simpa using hs rfl
    · simp only [if_true, realLibm]
      exact Real.sqrt_nonneg _
  unfold cs_wall_functions_2scales_vdriest_defined
  simp only [huke]
  refine ⟨fun _ => ⟨hc1, hq, Real.sqrt_nonneg _⟩, hl.ne',
    div_nonneg (mul_nonneg huk hkr) hl.le, ?_⟩
  have hyp : 0 < CS_MAX (uk * y / l_visc) 1e-4 :=
    lt_of_lt_of_le (by norm_num) (le_CS_MAX_right _ _)
  generalize CS_MAX (uk * y / l_visc) 1e-4 = yplus at hyp ⊢
  have e : (0.9 : ℝ) * (realLibm.sqrt (uk * kr / l_visc)
      - uk * kr / l_visc * realLibm.exp (-(uk * kr / l_visc) / 6))
      = vdriest_dyrp realLibm l_visc kr uk := rfl
  rw [e]
  have hlmk : 0 < stdTurb.cs_turb_xkappa * yplus
      * (1 - realLibm.exp (-yplus / stdTurb.cs_turb_vdriest)) :=
    mixing_length_pos _ _ _ hkap hyp (div_neg_of_neg_of_pos (by linarith) hvd)
  have hlmk15 : 0 < stdTurb.cs_turb_xkappa * 1.5 * yplus
      * (1 - realLibm.exp (-1.5 * yplus / stdTurb.cs_turb_vdriest)) :=
    mixing_length_pos _ _ _ (by linarith) hyp (div_neg_of_neg_of_pos (by linarith) hvd)
  split_ifs with h1 h2
  · exact hyp.ne'
  · refine ⟨lt_trans (by norm_num) (not_le.mp h1), ?_, fun _ => ⟨hvd.ne', ?_, ?_⟩⟩
    · unfold vdriest_uplus_fit
      exact (Real.exp_pos _).ne'
    · exact (by linarith : (0 : ℝ) < 1 + stdTurb.cs_turb_xkappa * yplus
        * (1 - realLibm.exp (-yplus / stdTurb.cs_turb_vdriest))).ne'
    · exact (by linarith : (0 : ℝ) < 1 + stdTurb.cs_turb_xkappa * 1.5 * yplus
        * (1 - realLibm.exp (-1.5 * yplus / stdTurb.cs_turb_vdriest))).ne'
  · obtain ⟨a1, a2, a3⟩ := vdriest_uplus_asym_pos l_visc kr uk yplus hyp (not_le.mp h2)
    exact ⟨a1.ne', a2, hkap.ne', (by linarith : (0 : ℝ) < vdriest_uplus_asym realLibm stdTurb
        (yplus + vdriest_dyrp realLibm l_visc kr uk) (vdriest_dyrp realLibm l_visc kr uk)).ne',
      fun _ => ⟨hvd.ne', hlmk.ne', hlmk15.ne'⟩⟩


/-- C15 (as amended). With `ypluli = 10.88` and the standard constants, for every
input with `l_visc > 0`, `y > 0`, `vel >= 0`, `kinetic_en >= 0`, `rnnb >= 0`,
`kr >= 0`, `t_visc >= 0`, no executed operation of the disabled, 1-scale power,
1-scale log and Van Driest variants is outside its domain (no division by
zero, no logarithm of a non-positive number, no square root of a negative
number, no power outside the domain of `pow`); the same holds for the 2-scale
log variant when `t_visc > 0` or the call takes the viscous branch, and for
the scalable variant when `t_visc > 0`. -/
theorem variants_defined_on_valid_domain (iwallf : cs_wall_function_type_t)
    (rnnb l_visc t_visc vel y kinetic_en kr : ℝ) (s : Outputs ℝ)
    (hl : 0 < l_visc) (hy : 0 < y) (hv : 0 ≤ vel) (hk : 0 ≤ kinetic_en) (hr : 0 ≤ rnnb)
    (hkr : 0 ≤ kr) (ht : 0 ≤ t_visc) :
    cs_wall_functions_disabled_defined l_visc t_visc vel y
    ∧ cs_wall_functions_1scale_power_defined realLibm stdTurb (stdConf iwallf) l_visc vel y
    ∧ cs_wall_functions_1scale_log_defined realLibm stdTurb (stdConf iwallf) l_visc vel y
    ∧ ((0 < t_visc ∨ (cs_wall_functions_2scales_log realLibm stdTurb (stdConf iwallf)
            l_visc t_visc vel y kinetic_en s).yplus ≤ (stdConf iwallf).ypluli) →
        cs_wall_functions_2scales_log_defined realLibm stdTurb (stdConf iwallf)
          l_visc t_visc vel y kinetic_en)
    ∧ (0 < t_visc →
        cs_wall_functions_2scales_scalable_defined realLibm stdTurb (stdConf iwallf)
          l_visc t_visc vel y kinetic_en)
    ∧ cs_wall_functions_2scales_vdriest_defined realLibm stdTurb rnnb l_visc y kinetic_en kr
        true s.uk
    ∧ (0 ≤ s.uk →
        cs_wall_functions_2scales_vdriest_defined realLibm stdTurb rnnb l_visc y kinetic_en kr
          false s.uk) :=
  ⟨disabled_defined l_visc t_visc vel y hl hy hv ht,
   power_defined iwallf l_visc vel y hl hy hv,
   log_defined iwallf l_visc vel y hl hy hv,
   fun h => two_scales_log_defined iwallf l_visc t_visc vel y kinetic_en s hl hy hv hk h,
   fun h => scalable_defined iwallf l_visc t_visc vel y kinetic_en hl hy hv hk h,
   vdriest_defined rnnb l_visc y kinetic_en kr true s.uk hl hk hr hkr
     (fun h => absurd h (by decide)),
   fun h => vdriest_defined rnnb l_visc y kinetic_en kr false s.uk hl hk hr hkr (fun _ => h)⟩

/-- C15, witness of the amended statement: `l_visc = 1e-5`, `t_visc = 1e-5`,
`vel = 1`, `y = 0.001`, `kinetic_en = 1`, `rnnb = 1`, `kr = 0`. -/
theorem variants_defined_on_valid_domain_witness :
    ((0 : ℝ) < 1e-5 ∧ (0 : ℝ) < 0.001 ∧ (0 : ℝ) ≤ 1 ∧ (0 : ℝ) ≤ 0)
    ∧ cs_wall_functions_disabled_defined (1e-5 : ℝ) 1e-5 1 0.001
    ∧ cs_wall_functions_1scale_log_defined realLibm stdTurb (stdConf .CS_WALL_F_1SCALE_LOG)
        1e-5 1 0.001
    ∧ cs_wall_functions_2scales_scalable_defined realLibm stdTurb
        (stdConf .CS_WALL_F_1SCALE_LOG) 1e-5 1e-5 1 0.001 1
    ∧ cs_wall_functions_2scales_vdriest_defined realLibm stdTurb 1 1e-5 0.001 1 0
        true entry1.uk := by
  have h := variants_defined_on_valid_domain .CS_WALL_F_1SCALE_LOG 1 1e-5 1e-5 1 0.001 1 0
    entry1 (by norm_num) (by norm_num) (by norm_num) (by norm_num) (by norm_num) (le_refl _)
    (by norm_num)
  exact ⟨⟨by norm_num, by norm_num, by norm_num, le_refl _⟩, h.1, h.2.2.1,
    h.2.2.2.2.1 (by norm_num), h.2.2.2.2.2.1⟩

/-- The velocity scale of the 2-scale log law at `kinetic_en = 1`, `vel = 1`,
`y = 0.001`, `l_visc = 1e-5` is at least `0.5`. -/
lemma blend_scale_ge :
    0.5 ≤ Real.sqrt ((1 - Real.exp (-(Real.sqrt 1 * 0.001 / 1e-5) / 11))
        * stdTurb.cs_turb_cmu025 * stdTurb.cs_turb_cmu025 * 1
        + Real.exp (-(Real.sqrt 1 * 0.001 / 1e-5) / 11) * 1e-5 * 1 / 0.001) := by
  have hc : stdTurb.cs_turb_cmu025 * stdTurb.cs_turb_cmu025 = 0.3 := by
    simp only [stdTurb]
    rw [Real.mul_self_sqrt (Real.sqrt_nonneg _)]
    have e : (0.09 : ℝ) = 0.3 ^ 2 := by norm_num
    rw [e, Real.sqrt_sq (by norm_num)]
  have he : Real.exp (-(Real.sqrt 1 * 0.001 / 1e-5) / 11) ≤ 0.1 := by
    have e1 : -(Real.sqrt 1 * 0.001 / 1e-5) / 11 = -(100 / 11 : ℝ) := by
      rw [Real.sqrt_one]
      norm_num
    rw [e1, Real.exp_neg]
    have h1 := Real.add_one_le_exp (100 / 11 : ℝ)
    have h2 : (10 : ℝ) ≤ Real.exp (100 / 11) := by
      norm_num at h1
      linarith
    rw [inv_le_comm₀ (Real.exp_pos _) (by norm_num)]
    norm_num
    exact h2
  have hg0 := Real.exp_pos (-(Real.sqrt 1 * 0.001 / 1e-5) / 11)
  rw [Real.le_sqrt' (by norm_num)]
  have e2 : (1 - Real.exp (-(Real.sqrt 1 * 0.001 / 1e-5) / 11))
        * stdTurb.cs_turb_cmu025 * stdTurb.cs_turb_cmu025 * 1
      = (1 - Real.exp (-(Real.sqrt 1 * 0.001 / 1e-5) / 11))
        * (stdTurb.cs_turb_cmu025 * stdTurb.cs_turb_cmu025) := by ring
  rw [e2, hc]
  generalize Real.exp (-(Real.sqrt 1 * 0.001 / 1e-5) / 11) = g at he hg0
  norm_num
  nlinarith

/-- C15, counterexample: with `t_visc = 0` (and `l_visc = 1e-5`, `vel = 1`,
`y = 0.001`) the scalable variant at `kinetic_en = 0` and the 2-scale log
variant at `kinetic_en = 1`, which takes its log branch, execute the division
`ml_visc / t_visc` by zero. -/
theorem zero_t_visc_divides_by_zero :
    ((0 : ℝ) < 1e-5 ∧ (0 : ℝ) < 0.001 ∧ (0 : ℝ) ≤ 1 ∧ (0 : ℝ) ≤ 0)
    ∧ ¬ cs_wall_functions_2scales_scalable_defined realLibm stdTurb
        (stdConf .CS_WALL_F_SCALABLE_2SCALES_LOG) 1e-5 0 1 0.001 0
    ∧ (cs_wall_functions_2scales_log realLibm stdTurb (stdConf .CS_WALL_F_2SCALES_LOG)
        1e-5 0 1 0.001 1 entry1).yplus > (stdConf .CS_WALL_F_2SCALES_LOG).ypluli
    ∧ ¬ cs_wall_functions_2scales_log_defined realLibm stdTurb
        (stdConf .CS_WALL_F_2SCALES_LOG) 1e-5 0 1 0.001 1 := by
  have hu := blend_scale_ge
  have hy : Real.sqrt ((1 - Real.exp (-(Real.sqrt 1 * 0.001 / 1e-5) / 11))
        * stdTurb.cs_turb_cmu025 * stdTurb.cs_turb_cmu025 * 1
        + Real.exp (-(Real.sqrt 1 * 0.001 / 1e-5) / 11) * 1e-5 * 1 / 0.001) * 0.001 / 1e-5
      > (stdConf .CS_WALL_F_2SCALES_LOG).ypluli := by
    simp only [stdConf]
    rw [gt_iff_lt, lt_div_iff₀ (by norm_num)]
    nlinarith
  refine ⟨⟨by norm_num, by norm_num, by norm_num, le_refl _⟩, ?_, ?_, ?_⟩
  · intro h
    unfold cs_wall_functions_2scales_scalable_defined at h
    exact h.2.2.2.2.1 rfl
  · unfold cs_wall_functions_2scales_log
    simp only [realLibm]
    simp only [if_pos hy]
    exact hy
  · intro h
    unfold cs_wall_functions_2scales_log_defined at h
    simp only [realLibm] at h
    simp only [if_pos hy] at h
    exact h.2.2.2.2.2.2.2.1 rfl

/-! ## Scalable wall function: the formulas of `ustar`, `ypup`, `cofimp` -/

/-- C21 (as amended). For every input, with `L = log(yplus)/kappa + cstlog`
evaluated at the returned (floored) `yplus`, the scalable variant returns
`ustar = vel/L`, `ypup = (yplus - dplus)/L` and
`cofimp = 1 - ypup/kappa * (2*rcprod - 1/(2*yplus - dplus))`, where `rcprod` is
formed with the returned `yplus`: the inner divisor is `2*yplus - dplus`, not
`2*(yplus - dplus)`. -/
theorem scalable_formulas {α : Type} [LinearOrderedField α] (m : Libm α) (t : cs_turb_t α)
    (g : cs_wall_functions_t α) (l_visc t_visc vel y kinetic_en : α) (s : Outputs α) :
    (cs_wall_functions_2scales_scalable m t g l_visc t_visc vel y kinetic_en s).ustar
      = vel / (m.log (cs_wall_functions_2scales_scalable m t g l_visc t_visc vel y
                        kinetic_en s).yplus / t.cs_turb_xkappa + t.cs_turb_cstlog)
    ∧ (cs_wall_functions_2scales_scalable m t g l_visc t_visc vel y kinetic_en s).ypup
      = ((cs_wall_functions_2scales_scalable m t g l_visc t_visc vel y kinetic_en s).yplus
          - (cs_wall_functions_2scales_scalable m t g l_visc t_visc vel y kinetic_en s).dplus)
        / (m.log (cs_wall_functions_2scales_scalable m t g l_visc t_visc vel y
                    kinetic_en s).yplus / t.cs_turb_xkappa + t.cs_turb_cstlog)
    ∧ (cs_wall_functions_2scales_scalable m t g l_visc t_visc vel y kinetic_en s).cofimp
      = 1 - (cs_wall_functions_2scales_scalable m t g l_visc t_visc vel y kinetic_en s).ypup
            / t.cs_turb_xkappa
            * (2 * rcprod m t l_visc t_visc
                    (cs_wall_functions_2scales_scalable m t g l_visc t_visc vel y
                      kinetic_en s).yplus
               - 1 / (2 * (cs_wall_functions_2scales_scalable m t g l_visc t_visc vel y
                            kinetic_en s).yplus
                      - (cs_wall_functions_2scales_scalable m t g l_visc t_visc vel y
                            kinetic_en s).dplus)) := by
  exact ⟨rfl, rfl, rfl⟩

/-- With the standard constants, `cmu025 * sqrt(0.3) = 0.3`. -/
lemma cmu025_mul_sqrt : stdTurb.cs_turb_cmu025 * Real.sqrt 0.3 = 0.3 := by
  simp only [stdTurb]
  have e : (0.09 : ℝ) = 0.3 ^ 2 := by norm_num
  rw [e, Real.sqrt_sq (by norm_num)]
  exact Real.mul_self_sqrt (by norm_num)

/-- C21, counterexample: at `l_visc = 1e-5`, `t_visc = 1e-5`, `vel = 1`,
`y = 1e-4`, `kinetic_en = 0.3` (unshifted `yplus = 3`) the scalable variant
returns `yplus = 10.88`, `dplus = 7.88`, and its `cofimp` is not
`1 - ypup/kappa * (2*rcprod - 1/(2*(yplus - dplus)))`. -/
theorem scalable_cofimp_divisor :
    (cs_wall_functions_2scales_scalable realLibm stdTurb
        (stdConf .CS_WALL_F_SCALABLE_2SCALES_LOG) 1e-5 1e-5 1 1e-4 0.3 entry1).yplus = 10.88
    ∧ (cs_wall_functions_2scales_scalable realLibm stdTurb
        (stdConf .CS_WALL_F_SCALABLE_2SCALES_LOG) 1e-5 1e-5 1 1e-4 0.3 entry1).dplus = 7.88
    ∧ (cs_wall_functions_2scales_scalable realLibm stdTurb
        (stdConf .CS_WALL_F_SCALABLE_2SCALES_LOG) 1e-5 1e-5 1 1e-4 0.3 entry1).cofimp
      ≠ 1 - (cs_wall_functions_2scales_scalable realLibm stdTurb
              (stdConf .CS_WALL_F_SCALABLE_2SCALES_LOG) 1e-5 1e-5 1 1e-4 0.3 entry1).ypup
            / stdTurb.cs_turb_xkappa
            * (2 * rcprod realLibm stdTurb 1e-5 1e-5
                    (cs_wall_functions_2scales_scalable realLibm stdTurb
                      (stdConf .CS_WALL_F_SCALABLE_2SCALES_LOG) 1e-5 1e-5 1 1e-4 0.3
                      entry1).yplus
               - 1 / (2 * ((cs_wall_functions_2scales_scalable realLibm stdTurb
                              (stdConf .CS_WALL_F_SCALABLE_2SCALES_LOG) 1e-5 1e-5 1 1e-4 0.3
                              entry1).yplus
                           - (cs_wall_functions_2scales_scalable realLibm stdTurb
                              (stdConf .CS_WALL_F_SCALABLE_2SCALES_LOG) 1e-5 1e-5 1 1e-4 0.3
                              entry1).dplus))) := by
  have hraw : stdTurb.cs_turb_cmu025 * Real.sqrt 0.3 * 1e-4 / 1e-5 = 3 := by
    rw [cmu025_mul_sqrt]
    norm_num
  have hc : ¬ (stdTurb.cs_turb_cmu025 * Real.sqrt 0.3 * 1e-4 / 1e-5 > 10.88) := by
    rw [hraw]
    norm_num
  have hL := log_law_pos 10.88 (le_refl _)
  have hy : (cs_wall_functions_2scales_scalable realLibm stdTurb
        (stdConf .CS_WALL_F_SCALABLE_2SCALES_LOG) 1e-5 1e-5 1 1e-4 0.3 entry1).yplus = 10.88 := by
    unfold cs_wall_functions_2scales_scalable
    simp only [realLibm, stdConf]
    simp only [if_neg hc]
  have hd : (cs_wall_functions_2scales_scalable realLibm stdTurb
        (stdConf .CS_WALL_F_SCALABLE_2SCALES_LOG) 1e-5 1e-5 1 1e-4 0.3 entry1).dplus = 7.88 := by
    unfold cs_wall_functions_2scales_scalable
    simp only [realLibm, stdConf]
    simp only [if_neg hc]
    rw [hraw]
    norm_num
  have hp : (cs_wall_functions_2scales_scalable realLibm stdTurb
        (stdConf .CS_WALL_F_SCALABLE_2SCALES_LOG) 1e-5 1e-5 1 1e-4 0.3 entry1).ypup
      = ((cs_wall_functions_2scales_scalable realLibm stdTurb
          (stdConf .CS_WALL_F_SCALABLE_2SCALES_LOG) 1e-5 1e-5 1 1e-4 0.3 entry1).yplus
        - (cs_wall_functions_2scales_scalable realLibm stdTurb
          (stdConf .CS_WALL_F_SCALABLE_2SCALES_LOG) 1e-5 1e-5 1 1e-4 0.3 entry1).dplus)
        / (Real.log (cs_wall_functions_2scales_scalable realLibm stdTurb
          (stdConf .CS_WALL_F_SCALABLE_2SCALES_LOG) 1e-5 1e-5 1 1e-4 0.3 entry1).yplus
            / stdTurb.cs_turb_xkappa + stdTurb.cs_turb_cstlog) := rfl
  have hcof : (cs_wall_functions_2scales_scalable realLibm stdTurb
        (stdConf .CS_WALL_F_SCALABLE_2SCALES_LOG) 1e-5 1e-5 1 1e-4 0.3 entry1).cofimp
      = 1 - (cs_wall_functions_2scales_scalable realLibm stdTurb
              (stdConf .CS_WALL_F_SCALABLE_2SCALES_LOG) 1e-5 1e-5 1 1e-4 0.3 entry1).ypup
            / stdTurb.cs_turb_xkappa
            * (2 * rcprod realLibm stdTurb 1e-5 1e-5
                    (cs_wall_functions_2scales_scalable realLibm stdTurb
                      (stdConf .CS_WALL_F_SCALABLE_2SCALES_LOG) 1e-5 1e-5 1 1e-4 0.3
                      entry1).yplus
               - 1 / (2 * (cs_wall_functions_2scales_scalable realLibm stdTurb
                              (stdConf .CS_WALL_F_SCALABLE_2SCALES_LOG) 1e-5 1e-5 1 1e-4 0.3
                              entry1).yplus
                           - (cs_wall_functions_2scales_scalable realLibm stdTurb
                              (stdConf .CS_WALL_F_SCALABLE_2SCALES_LOG) 1e-5 1e-5 1 1e-4 0.3
                              entry1).dplus)) := rfl
  refine ⟨hy, hd, ?_⟩
  rw [hcof]
  generalize (cs_wall_functions_2scales_scalable realLibm stdTurb
        (stdConf .CS_WALL_F_SCALABLE_2SCALES_LOG) 1e-5 1e-5 1 1e-4 0.3 entry1) = r
    at hy hd hp ⊢
  rw [hy, hd] at hp
  have hpos : 0 < r.ypup := by
    rw [hp]
    exact div_pos (by norm_num) hL
  have hk : (0 : ℝ) < stdTurb.cs_turb_xkappa := by
    simp only [stdTurb]
    norm_num
  have hq : 0 < r.ypup / stdTurb.cs_turb_xkappa := div_pos hpos hk
  rw [hy, hd]
  generalize rcprod realLibm stdTurb 1e-5 1e-5 10.88 = R
  generalize r.ypup / stdTurb.cs_turb_xkappa = q at hq
  intro h
  have e1 : (1 : ℝ) / (2 * 10.88 - 7.88) = 25 / 347 := by norm_num
  have e2 : (1 : ℝ) / (2 * (10.88 - 7.88)) = 1 / 6 := by norm_num
  rw [e1, e2] at h
  nlinarith

/-! ## 1-scale log law: the divisors of the fixed-point loop -/

/-- Every `ustaro` used by the loop satisfies a property that holds for the
entering `*ustar` and that every update preserves. -/
lemma ustar_loop_ustaro_forall {α : Type} [LinearOrderedField α] (m : Libm α) (t : cs_turb_t α)
    (vel ydvisc eps : α) (niter_max : Nat) (P : α → Prop)
    (hstep : ∀ u, P u → P (ustar_update m t vel ydvisc u))
    (iter : Nat) (ustaro ustar : α) (h : P ustar) :
    ∀ u ∈ ustar_loop_ustaro m t vel ydvisc eps niter_max iter ustaro ustar, P u := by
  induction iter, ustaro, ustar using ustar_loop.induct m t vel ydvisc eps niter_max with
  | case1 iter ustaro ustar hc ih =>
    rw [ustar_loop_ustaro, if_pos hc]
    intro u hu
    rcases List.mem_cons.mp hu with h1 | h1
    · rw [h1]
      exact h
    · exact ih (hstep _ h) u h1
  | case2 iter ustaro ustar hc =>
    rw [ustar_loop_ustaro, if_neg hc]
    intro u hu
    exact absurd hu (List.not_mem_nil u)

/-- The `ustaro` with which the loop stops is the entering one or one of those
used by the loop, and the final `*ustar` is its update. -/
lemma ustar_loop_final {α : Type} [LinearOrderedField α] (m : Libm α) (t : cs_turb_t α)
    (vel ydvisc eps : α) (niter_max : Nat) (iter : Nat) (ustaro ustar : α)
    (h : ustar = ustar_update m t vel ydvisc ustaro) :
    (ustar_loop m t vel ydvisc eps niter_max iter ustaro ustar).2.1
        ∈ ustaro :: ustar_loop_ustaro m t vel ydvisc eps niter_max iter ustaro ustar
    ∧ (ustar_loop m t vel ydvisc eps niter_max iter ustaro ustar).2.2
        = ustar_update m t vel ydvisc
            (ustar_loop m t vel ydvisc eps niter_max iter ustaro ustar).2.1 := by
  induction iter, ustaro, ustar using ustar_loop.induct m t vel ydvisc eps niter_max with
  | case1 iter ustaro ustar hc ih =>
    rw [ustar_loop, ustar_loop_ustaro, if_pos hc, if_pos hc]
    exact ⟨List.mem_cons_of_mem _ (ih rfl).1, (ih rfl).2⟩
  | case2 iter ustaro ustar hc =>
    rw [ustar_loop, ustar_loop_ustaro, if_neg hc, if_neg hc]
    exact ⟨List.mem_cons_self _ _, h⟩

/-- One update from an iterate `u >= ustarmin = exp(-cstlog*kappa)/ydvisc`, for
`kappa > 0`, `vel >= 0`, `ydvisc > 0`: the divisor is `>= 1`, the new iterate
is positive and again `>= ustarmin`. -/
lemma update_keeps_ustarmin (t : cs_turb_t ℝ) (vel ydvisc u : ℝ)
    (hk : 0 < t.cs_turb_xkappa) (hv : 0 ≤ vel) (hd : 0 < ydvisc)
    (hu : Real.exp (-t.cs_turb_cstlog * t.cs_turb_xkappa) / ydvisc ≤ u) :
    1 ≤ Real.log (ydvisc * u) + t.cs_turb_xkappa * t.cs_turb_cstlog + 1
    ∧ 0 < ustar_update realLibm t vel ydvisc u
    ∧ Real.exp (-t.cs_turb_cstlog * t.cs_turb_xkappa) / ydvisc
        ≤ ustar_update realLibm t vel ydvisc u := by
  have hmin : 0 < Real.exp (-t.cs_turb_cstlog * t.cs_turb_xkappa) / ydvisc :=
    div_pos (Real.exp_pos _) hd
  have hu0 : 0 < u := lt_of_lt_of_le hmin hu
  have hx : 0 < ydvisc * u := mul_pos hd hu0
  have hxm : Real.exp (-t.cs_turb_cstlog * t.cs_turb_xkappa) ≤ ydvisc * u := by
    rw [div_le_iff₀ hd] at hu
    linarith
  have hlog : -t.cs_turb_cstlog * t.cs_turb_xkappa ≤ Real.log (ydvisc * u) :=
    (Real.le_log_iff_exp_le hx).mpr hxm
  have hD : 1 ≤ Real.log (ydvisc * u) + t.cs_turb_xkappa * t.cs_turb_cstlog + 1 := by
    linarith
  have hD0 : 0 < Real.log (ydvisc * u) + t.cs_turb_xkappa * t.cs_turb_cstlog + 1 := by
    linarith
  -- ydvisc * u = exp(-c) * exp(log(ydvisc*u) + c) >= exp(-c) * (log(ydvisc*u) + c + 1)
  have hexp : Real.log (ydvisc * u) + t.cs_turb_cstlog * t.cs_turb_xkappa + 1
      ≤ Real.exp (Real.log (ydvisc * u) + t.cs_turb_cstlog * t.cs_turb_xkappa) :=
    Real.add_one_le_exp _
  have hsplit : ydvisc * u
      = Real.exp (-t.cs_turb_cstlog * t.cs_turb_xkappa)
        * Real.exp (Real.log (ydvisc * u) + t.cs_turb_cstlog * t.cs_turb_xkappa) := by
    rw [← Real.exp_add]
    have e : -t.cs_turb_cstlog * t.cs_turb_xkappa
        + (Real.log (ydvisc * u) + t.cs_turb_cstlog * t.cs_turb_xkappa)
        = Real.log (ydvisc * u) := by ring
    rw [e, Real.exp_log hx]
  have hge : Real.exp (-t.cs_turb_cstlog * t.cs_turb_xkappa)
      * (Real.log (ydvisc * u) + t.cs_turb_xkappa * t.cs_turb_cstlog + 1) ≤ ydvisc * u := by
    have h1 := mul_le_mul_of_nonneg_left hexp
      (Real.exp_pos (-t.cs_turb_cstlog * t.cs_turb_xkappa)).le
    rw [← hsplit] at h1
    have e : Real.log (ydvisc * u) + t.cs_turb_xkappa * t.cs_turb_cstlog + 1
        = Real.log (ydvisc * u) + t.cs_turb_cstlog * t.cs_turb_xkappa + 1 := by ring
    rw [e]
    exact h1
  have hnum : 0 ≤ t.cs_turb_xkappa * vel := mul_nonneg hk.le hv
  refine ⟨hD, ?_, ?_⟩
  · unfold ustar_update
    simp only [realLibm]
    exact div_pos (by linarith) hD0
  · unfold ustar_update
    simp only [realLibm]
    rw [div_le_iff₀ hd, div_mul_eq_mul_div, le_div_iff₀ hD0]
    have h2 : 0 ≤ t.cs_turb_xkappa * vel * ydvisc := mul_nonneg hnum hd.le
    have e : (t.cs_turb_xkappa * vel + u) * ydvisc
        = t.cs_turb_xkappa * vel * ydvisc + ydvisc * u := by ring
    rw [e]
    linarith

/-- C22. 1-scale log law over the reals, log branch (`l_visc > 0`, `y > 0`,
`kappa > 0`, `reynolds > ypluli^2`), with `ustarmin = exp(-cstlog*kappa)/(y/l_visc)`:
the seed `CS_MAX(ustarwer, ustarmin)` and every `ustaro` used by an update of
the loop are `>= ustarmin`, every divisor
`log((y/l_visc)*ustaro) + kappa*cstlog + 1` is `>= 1` and every iterate
`ustar` is `> 0`; the `ustaro` left by the function is one of these values, and
the returned `ustar`, its update, is `> 0`. -/
theorem log_divisors_ge_one (t : cs_turb_t ℝ) (g : cs_wall_functions_t ℝ) (ifac : Int)
    (l_visc vel y : ℝ) (s : Outputs ℝ) (ustarmin ustaro0 : ℝ)
    (hl : 0 < l_visc) (hy : 0 < y) (hk : 0 < t.cs_turb_xkappa)
    (hre : vel * (y / l_visc) > g.ypluli * g.ypluli)
    (hmin : ustarmin = Real.exp (-t.cs_turb_cstlog * t.cs_turb_xkappa) / (y / l_visc))
    (hseed : ustaro0
      = CS_MAX (realLibm.pow (|vel| / t.cs_turb_apow / realLibm.pow (y / l_visc) t.cs_turb_bpow)
                  t.cs_turb_dpow) ustarmin) :
    (∀ u ∈ ustaro0 :: ustar_loop_ustaro realLibm t vel (y / l_visc) 0.001 100 0 ustaro0
              (ustar_update realLibm t vel (y / l_visc) ustaro0),
        ustarmin ≤ u
        ∧ 1 ≤ Real.log (y / l_visc * u) + t.cs_turb_xkappa * t.cs_turb_cstlog + 1
        ∧ 0 < ustar_update realLibm t vel (y / l_visc) u)
    ∧ (∃ u ∈ ustaro0 :: ustar_loop_ustaro realLibm t vel (y / l_visc) 0.001 100 0 ustaro0
              (ustar_update realLibm t vel (y / l_visc) ustaro0),
        (cs_wall_functions_1scale_log_run realLibm t g ifac l_visc vel y s).ustaro = some u
        ∧ (cs_wall_functions_1scale_log realLibm t g ifac l_visc vel y s).ustar
            = ustar_update realLibm t vel (y / l_visc) u)
    ∧ 0 < (cs_wall_functions_1scale_log realLibm t g ifac l_visc vel y s).ustar := by
  have hd : 0 < y / l_visc := div_pos hy hl
  have hv : 0 < vel := by
    have h0 : 0 ≤ g.ypluli * g.ypluli := mul_self_nonneg _
    have h1 : 0 < vel * (y / l_visc) := lt_of_le_of_lt h0 hre
    exact (pos_iff_pos_of_mul_pos h1).mpr hd
  have hs0 : ustarmin ≤ ustaro0 := by
    rw [hseed]
    exact le_CS_MAX_right _ _
  have hstep : ∀ u, ustarmin ≤ u → ustarmin ≤ ustar_update realLibm t vel (y / l_visc) u := by
    intro u hu
    rw [hmin] at hu ⊢
    exact (update_keeps_ustarmin t vel (y / l_visc) u hk hv.le hd hu).2.2
  have hall : ∀ u ∈ ustaro0 :: ustar_loop_ustaro realLibm t vel (y / l_visc) 0.001 100 0 ustaro0
      (ustar_update realLibm t vel (y / l_visc) ustaro0), ustarmin ≤ u := by
    intro u hu
    rcases List.mem_cons.mp hu with h1 | h1
    · rw [h1]
      exact hs0
    · exact ustar_loop_ustaro_forall realLibm t vel (y / l_visc) 0.001 100 (fun u => ustarmin ≤ u)
        hstep 0 ustaro0 _ (hstep _ hs0) u h1
  have hprop : ∀ u, ustarmin ≤ u →
      ustarmin ≤ u
      ∧ 1 ≤ Real.log (y / l_visc * u) + t.cs_turb_xkappa * t.cs_turb_cstlog + 1
      ∧ 0 < ustar_update realLibm t vel (y / l_visc) u := by
    intro u hu
    have hu2 := hu
    rw [hmin] at hu2
    have h := update_keeps_ustarmin t vel (y / l_visc) u hk hv.le hd hu2
    exact ⟨hu, h.1, h.2.1⟩
  have hfin := ustar_loop_final realLibm t vel (y / l_visc) 0.001 100 0 ustaro0
    (ustar_update realLibm t vel (y / l_visc) ustaro0) rfl
  have hnre : ¬ (vel * (y / l_visc) ≤ g.ypluli * g.ypluli) := not_le.mpr hre
  have hrun1 : (cs_wall_functions_1scale_log_run realLibm t g ifac l_visc vel y s).ustaro
      = some (ustar_loop realLibm t vel (y / l_visc) 0.001 100 0 ustaro0
          (ustar_update realLibm t vel (y / l_visc) ustaro0)).2.1 := by
    unfold cs_wall_functions_1scale_log_run
    simp only [if_neg hnre]
    rw [hseed, hmin]
    rfl
  have hrun2 : (cs_wall_functions_1scale_log realLibm t g ifac l_visc vel y s).ustar
      = (ustar_loop realLibm t vel (y / l_visc) 0.001 100 0 ustaro0
          (ustar_update realLibm t vel (y / l_visc) ustaro0)).2.2 := by
    unfold cs_wall_functions_1scale_log cs_wall_functions_1scale_log_run
    simp only [if_neg hnre]
    rw [hseed, hmin]
    rfl
  refine ⟨fun u hu => hprop u (hall u hu), ⟨_, hfin.1, hrun1, ?_⟩, ?_⟩
  · rw [hrun2]
    exact hfin.2
  · rw [hrun2, hfin.2]
    exact (hprop _ (hall _ hfin.1)).2.2

/-- C22, witness: `vel = 1`, `y = 0.01`, `l_visc = 1e-5` with the standard
constants (`reynolds = 1000 > 10.88^2`). -/
theorem log_divisors_ge_one_witness :
    ((0 : ℝ) < 1e-5 ∧ (0 : ℝ) < 0.01 ∧ 0 < stdTurb.cs_turb_xkappa
      ∧ (1 : ℝ) * (0.01 / 1e-5) > (stdConf .CS_WALL_F_1SCALE_LOG).ypluli
          * (stdConf .CS_WALL_F_1SCALE_LOG).ypluli)
    ∧ (∀ u ∈ CS_MAX (realLibm.pow (|(1 : ℝ)| / stdTurb.cs_turb_apow
                  / realLibm.pow (0.01 / 1e-5) stdTurb.cs_turb_bpow) stdTurb.cs_turb_dpow)
                (Real.exp (-stdTurb.cs_turb_cstlog * stdTurb.cs_turb_xkappa) / (0.01 / 1e-5))
          :: ustar_loop_ustaro realLibm stdTurb 1 (0.01 / 1e-5) 0.001 100 0
              (CS_MAX (realLibm.pow (|(1 : ℝ)| / stdTurb.cs_turb_apow
                  / realLibm.pow (0.01 / 1e-5) stdTurb.cs_turb_bpow) stdTurb.cs_turb_dpow)
                (Real.exp (-stdTurb.cs_turb_cstlog * stdTurb.cs_turb_xkappa) / (0.01 / 1e-5)))
              (ustar_update realLibm stdTurb 1 (0.01 / 1e-5)
                (CS_MAX (realLibm.pow (|(1 : ℝ)| / stdTurb.cs_turb_apow
                    / realLibm.pow (0.01 / 1e-5) stdTurb.cs_turb_bpow) stdTurb.cs_turb_dpow)
                  (Real.exp (-stdTurb.cs_turb_cstlog * stdTurb.cs_turb_xkappa)
                    / (0.01 / 1e-5)))),
        Real.exp (-stdTurb.cs_turb_cstlog * stdTurb.cs_turb_xkappa) / (0.01 / 1e-5) ≤ u
        ∧ 1 ≤ Real.log (0.01 / 1e-5 * u) + stdTurb.cs_turb_xkappa * stdTurb.cs_turb_cstlog + 1
        ∧ 0 < ustar_update realLibm stdTurb 1 (0.01 / 1e-5) u)
    ∧ 0 < (cs_wall_functions_1scale_log realLibm stdTurb (stdConf .CS_WALL_F_1SCALE_LOG) 0
            1e-5 1 0.01 entry1).ustar := by
  have hk : 0 < stdTurb.cs_turb_xkappa := by
    simp only [stdTurb]
    norm_num
  have hre : (1 : ℝ) * (0.01 / 1e-5) > (stdConf .CS_WALL_F_1SCALE_LOG).ypluli
      * (stdConf .CS_WALL_F_1SCALE_LOG).ypluli := by
    simp only [stdConf]
    norm_num
  have h := log_divisors_ge_one stdTurb (stdConf .CS_WALL_F_1SCALE_LOG) 0 1e-5 1 0.01 entry1
    _ _ (by norm_num) (by norm_num) hk hre rfl rfl
  exact ⟨⟨by norm_num, by norm_num, hk, hre⟩, h.1, h.2.2⟩

/-! ## 1-scale log law: fixed points of the update -/

/-- A positive `u` with a non-zero divisor is a fixed point of the update if and
only if it solves the log law `vel/u = log(ydvisc*u)/kappa + cstlog`. -/
lemma update_fixed_iff {α : Type} [LinearOrderedField α] (m : Libm α) (t : cs_turb_t α)
    (vel ydvisc u : α) (hk : 0 < t.cs_turb_xkappa) (hu : 0 < u)
    (hD : m.log (ydvisc * u) + t.cs_turb_xkappa * t.cs_turb_cstlog + 1 ≠ 0) :
    ustar_update m t vel ydvisc u = u
      ↔ vel / u = m.log (ydvisc * u) / t.cs_turb_xkappa + t.cs_turb_cstlog := by
  unfold ustar_update
  rw [div_eq_iff hD, div_eq_iff hu.ne']
  generalize m.log (ydvisc * u) = lg
  constructor
  · intro h
    have h1 : t.cs_turb_xkappa * vel = t.cs_turb_xkappa * ((lg / t.cs_turb_xkappa
        + t.cs_turb_cstlog) * u) := by
      field_simp
      linarith
    exact mul_left_cancel₀ hk.ne' h1
  · intro h
    rw [h]
    field_simp
    ring

/-- 1-scale log law, log branch: `ypup` is `yplus / (log(yplus)/kappa + cstlog)`. -/
lemma log_branch_ypup {α : Type} [LinearOrderedField α] (m : Libm α) (t : cs_turb_t α)
    (g : cs_wall_functions_t α) (ifac : Int) (l_visc vel y : α) (s : Outputs α)
    (hre : ¬ (vel * (y / l_visc) ≤ g.ypluli * g.ypluli)) :
    (cs_wall_functions_1scale_log m t g ifac l_visc vel y s).ypup
      = (cs_wall_functions_1scale_log m t g ifac l_visc vel y s).yplus
        / (m.log (cs_wall_functions_1scale_log m t g ifac l_visc vel y s).yplus
            / t.cs_turb_xkappa + t.cs_turb_cstlog)
    ∧ (cs_wall_functions_1scale_log m t g ifac l_visc vel y s).yplus
      = (cs_wall_functions_1scale_log m t g ifac l_visc vel y s).ustar * (y / l_visc) := by
  unfold cs_wall_functions_1scale_log cs_wall_functions_1scale_log_run
  simp only [if_neg hre, and_self]

/-- C23. 1-scale log law: for `l_visc > 0`, `y > 0`, `kappa > 0` and `u > 0` with
`log((y/l_visc)*u) + kappa*cstlog + 1 != 0`, `u` is a fixed point of the update
map if and only if `vel/u = log((y/l_visc)*u)/kappa + cstlog`; and when a call
in the log branch returns such a fixed point as `ustar`, its outputs satisfy
`ypup * vel = yplus * ustar`. -/
theorem log_fixed_point_iff_log_law {α : Type} [LinearOrderedField α] (m : Libm α)
    (t : cs_turb_t α) (g : cs_wall_functions_t α) (ifac : Int) (l_visc vel y u : α)
    (s : Outputs α) (hl : 0 < l_visc) (hy : 0 < y) (hk : 0 < t.cs_turb_xkappa) (hu : 0 < u)
    (hD : m.log (y / l_visc * u) + t.cs_turb_xkappa * t.cs_turb_cstlog + 1 ≠ 0) :
    (ustar_update m t vel (y / l_visc) u = u
      ↔ vel / u = m.log (y / l_visc * u) / t.cs_turb_xkappa + t.cs_turb_cstlog)
    ∧ (vel * (y / l_visc) > g.ypluli * g.ypluli →
        (cs_wall_functions_1scale_log m t g ifac l_visc vel y s).ustar = u →
        ustar_update m t vel (y / l_visc) u = u →
        (cs_wall_functions_1scale_log m t g ifac l_visc vel y s).ypup * vel
          = (cs_wall_functions_1scale_log m t g ifac l_visc vel y s).yplus
            * (cs_wall_functions_1scale_log m t g ifac l_visc vel y s).ustar) := by
  have hiff := update_fixed_iff m t vel (y / l_visc) u hk hu hD
  refine ⟨hiff, ?_⟩
  intro hre hust hfix
  have hd : 0 < y / l_visc := div_pos hy hl
  have hv : 0 < vel :=
    (pos_iff_pos_of_mul_pos (lt_of_le_of_lt (mul_self_nonneg g.ypluli) hre)).mpr hd
  have hlaw := hiff.mp hfix
  have ho := log_branch_ypup m t g ifac l_visc vel y s (not_le.mpr hre)
  rw [ho.1, ho.2, hust, mul_comm u (y / l_visc), ← hlaw]
  field_simp
  ring

/-- C23, witness: with `kappa = 0.42`, `cstlog = 5.2`, `ypluli = 1` and the seed
constants `apow = 5.2`, `bpow = 0`, `dpow = 1`, the call at `vel = 5.2`,
`y = l_visc = 1` is in the log branch and returns the fixed point `ustar = 1`. -/
theorem log_fixed_point_iff_log_law_witness :
    ((0 : ℝ) < 1 ∧ (0 : ℝ) < 0.42
      ∧ Real.log (1 / 1 * 1) + (0.42 : ℝ) * 5.2 + 1 ≠ 0
      ∧ (5.2 : ℝ) * (1 / 1) > 1 * 1)
    ∧ (cs_wall_functions_1scale_log realLibm ⟨0.42, 5.2, 5.2, 0, 1, 0.5, 1.8, 0.6, 25.6⟩
          ⟨.CS_WALL_F_1SCALE_LOG, 0, 1⟩ 0 1 5.2 1 entry1).ustar = 1
    ∧ ustar_update realLibm ⟨0.42, 5.2, 5.2, 0, 1, 0.5, 1.8, 0.6, 25.6⟩ 5.2 (1 / 1) 1 = 1
    ∧ (5.2 : ℝ) / 1 = Real.log (1 / 1 * 1) / 0.42 + 5.2
    ∧ (cs_wall_functions_1scale_log realLibm ⟨0.42, 5.2, 5.2, 0, 1, 0.5, 1.8, 0.6, 25.6⟩
          ⟨.CS_WALL_F_1SCALE_LOG, 0, 1⟩ 0 1 5.2 1 entry1).ypup * 5.2
        = (cs_wall_functions_1scale_log realLibm ⟨0.42, 5.2, 5.2, 0, 1, 0.5, 1.8, 0.6, 25.6⟩
            ⟨.CS_WALL_F_1SCALE_LOG, 0, 1⟩ 0 1 5.2 1 entry1).yplus
          * (cs_wall_functions_1scale_log realLibm ⟨0.42, 5.2, 5.2, 0, 1, 0.5, 1.8, 0.6, 25.6⟩
            ⟨.CS_WALL_F_1SCALE_LOG, 0, 1⟩ 0 1 5.2 1 entry1).ustar := by
  have hlog : Real.log (1 / 1 * 1) = 0 := by norm_num
  have hD : Real.log (1 / 1 * 1) + (0.42 : ℝ) * 5.2 + 1 ≠ 0 := by
    rw [hlog]
    norm_num
  have hre : (5.2 : ℝ) * (1 / 1) > 1 * 1 := by norm_num
  have hupd : ustar_update realLibm ⟨0.42, 5.2, 5.2, 0, 1, 0.5, 1.8, 0.6, 25.6⟩
      5.2 (1 / 1) 1 = 1 := by
    unfold ustar_update
    simp only [realLibm]
    rw [hlog]
    norm_num
  have he : Real.exp (-5.2 * 0.42) < 1 :=
    lt_of_lt_of_eq (Real.exp_lt_exp.mpr (by norm_num : (-5.2 * 0.42 : ℝ) < 0)) Real.exp_zero
  have hseed : CS_MAX (realLibm.pow (|(5.2 : ℝ)| / 5.2 / realLibm.pow (1 / 1) 0) 1)
      (realLibm.exp (-5.2 * 0.42) / (1 / 1)) = 1 := by
    have h1 : realLibm.pow (|(5.2 : ℝ)| / 5.2 / realLibm.pow (1 / 1) 0) 1 = 1 := by
      simp only [realLibm]
      rw [Real.rpow_zero, Real.rpow_one, abs_of_pos (by norm_num)]
      norm_num
    have h2 : realLibm.exp (-5.2 * 0.42) / (1 / 1) = Real.exp (-5.2 * 0.42) := by
      simp only [realLibm]
      norm_num
    rw [h1, h2]
    unfold CS_MAX
    rw [if_pos he]
  have hust : (cs_wall_functions_1scale_log realLibm ⟨0.42, 5.2, 5.2, 0, 1, 0.5, 1.8, 0.6, 25.6⟩
      ⟨.CS_WALL_F_1SCALE_LOG, 0, 1⟩ 0 1 5.2 1 entry1).ustar = 1 := by
    have hnre : ¬ ((5.2 : ℝ) * (1 / 1) ≤ 1 * 1) := by norm_num
    have hstop : ¬ (0 < 100 ∧ |(1 : ℝ) - 1| ≥ 0.001 * 1) := by norm_num
    unfold cs_wall_functions_1scale_log cs_wall_functions_1scale_log_run
    simp only [if_neg hnre]
    rw [hseed, hupd, ustar_loop, if_neg hstop]
  have h := log_fixed_point_iff_log_law realLibm ⟨0.42, 5.2, 5.2, 0, 1, 0.5, 1.8, 0.6, 25.6⟩
    ⟨.CS_WALL_F_1SCALE_LOG, 0, 1⟩ 0 1 5.2 1 1 entry1
    (by norm_num) (by norm_num) (by norm_num) (by norm_num) hD
  exact ⟨⟨by norm_num, by norm_num, hD, hre⟩, hust, hupd,
    by rw [hlog]; norm_num, h.2 hre hust hupd⟩

/-! ## The linear profile `u+ = y+` -/

/-- The linear profile formed from `ustar = sqrt(vel / ydvisc)` and
`yplus = ustar * ydvisc`. -/
lemma linear_profile (vel ydvisc : ℝ) (hv : 0 ≤ vel) (hd : 0 < ydvisc) :
    Real.sqrt (vel / ydvisc) * (Real.sqrt (vel / ydvisc) * ydvisc) = vel
    ∧ (Real.sqrt (vel / ydvisc) * ydvisc) ^ 2 = vel * ydvisc := by
  have h := Real.mul_self_sqrt (div_nonneg hv hd.le)
  constructor
  · rw [← mul_assoc, h]
    field_simp
  · have e : (Real.sqrt (vel / ydvisc) * ydvisc) ^ 2
        = Real.sqrt (vel / ydvisc) * Real.sqrt (vel / ydvisc) * (ydvisc * ydvisc) := by ring
    rw [e, h]
    field_simp
    ring

/-- C24. Over the reals, with `l_visc > 0`, `y > 0`, `vel >= 0`: the disabled
variant, the 1-scale power law in its sublayer branch (power-law
`yplus <= ypluli`) and the 1-scale log law in its sublayer branch
(`vel*y/l_visc <= ypluli^2`) return `ustar * yplus = vel` and
`yplus^2 = vel*y/l_visc`. -/
theorem linear_sublayer_profile (t : cs_turb_t ℝ) (g : cs_wall_functions_t ℝ) (ifac : Int)
    (l_visc t_visc vel y : ℝ) (s : Outputs ℝ) (hl : 0 < l_visc) (hy : 0 < y) (hv : 0 ≤ vel) :
    ((cs_wall_functions_disabled realLibm g l_visc t_visc vel y s).ustar
        * (cs_wall_functions_disabled realLibm g l_visc t_visc vel y s).yplus = vel
      ∧ (cs_wall_functions_disabled realLibm g l_visc t_visc vel y s).yplus ^ 2
        = vel * y / l_visc)
    ∧ (power_law_yplus realLibm t l_visc vel y ≤ g.ypluli →
        (cs_wall_functions_1scale_power realLibm t g l_visc vel y s).ustar
          * (cs_wall_functions_1scale_power realLibm t g l_visc vel y s).yplus = vel
        ∧ (cs_wall_functions_1scale_power realLibm t g l_visc vel y s).yplus ^ 2
          = vel * y / l_visc)
    ∧ (vel * (y / l_visc) ≤ g.ypluli * g.ypluli →
        (cs_wall_functions_1scale_log realLibm t g ifac l_visc vel y s).ustar
          * (cs_wall_functions_1scale_log realLibm t g ifac l_visc vel y s).yplus = vel
        ∧ (cs_wall_functions_1scale_log realLibm t g ifac l_visc vel y s).yplus ^ 2
          = vel * y / l_visc) := by
  have hd : 0 < y / l_visc := div_pos hy hl
  have hlin := linear_profile vel (y / l_visc) hv hd
  have e : vel * (y / l_visc) = vel * y / l_visc := by ring
  rw [e] at hlin
  refine ⟨?_, ?_, ?_⟩
  · have h := Real.mul_self_sqrt (div_nonneg (mul_nonneg hv hl.le) hy.le)
    have h1 : (cs_wall_functions_disabled realLibm g l_visc t_visc vel y s).ustar
        = Real.sqrt (vel * l_visc / y) := by
      unfold cs_wall_functions_disabled
      simp only [realLibm]
      split_ifs <;> rfl
    have h2 : (cs_wall_functions_disabled realLibm g l_visc t_visc vel y s).yplus
        = Real.sqrt (vel * l_visc / y) * y / l_visc := by
      unfold cs_wall_functions_disabled
      simp only [realLibm]
      split_ifs <;> rfl
    rw [h1, h2]
    constructor
    · have e1 : Real.sqrt (vel * l_visc / y) * (Real.sqrt (vel * l_visc / y) * y / l_visc)
          = Real.sqrt (vel * l_visc / y) * Real.sqrt (vel * l_visc / y) * (y / l_visc) := by
        ring
      rw [e1, h]
      field_simp
    · have e1 : (Real.sqrt (vel * l_visc / y) * y / l_visc) ^ 2
          = Real.sqrt (vel * l_visc / y) * Real.sqrt (vel * l_visc / y)
            * (y / l_visc * (y / l_visc)) := by ring
      rw [e1, h]
      field_simp
      ring
  · intro hc
    have hc2 : realLibm.pow (vel / (t.cs_turb_apow * realLibm.pow (y / l_visc) t.cs_turb_bpow))
        t.cs_turb_dpow * (y / l_visc) ≤ g.ypluli := hc
    unfold cs_wall_functions_1scale_power
    simp only [if_pos hc2]
    exact hlin
  · intro hc
    unfold cs_wall_functions_1scale_log cs_wall_functions_1scale_log_run
    simp only [if_pos hc]
    exact hlin

/-- C24, witness: `l_visc = 1e-5`, `vel = 1`, `y = 0.001` with `ypluli = 10.88`
(`reynolds = 100 <= 10.88^2`). -/
theorem linear_sublayer_profile_witness :
    ((0 : ℝ) < 1e-5 ∧ (0 : ℝ) < 0.001 ∧ (0 : ℝ) ≤ 1)
    ∧ ((cs_wall_functions_disabled realLibm (stdConf .CS_WALL_F_DISABLED) 1e-5 0 1 0.001
          entry1).ustar
        * (cs_wall_functions_disabled realLibm (stdConf .CS_WALL_F_DISABLED) 1e-5 0 1 0.001
          entry1).yplus = 1
      ∧ (cs_wall_functions_disabled realLibm (stdConf .CS_WALL_F_DISABLED) 1e-5 0 1 0.001
          entry1).yplus ^ 2 = 1 * 0.001 / 1e-5)
    ∧ ((cs_wall_functions_1scale_log realLibm stdTurb (stdConf .CS_WALL_F_DISABLED) 0
          1e-5 1 0.001 entry1).ustar
        * (cs_wall_functions_1scale_log realLibm stdTurb (stdConf .CS_WALL_F_DISABLED) 0
          1e-5 1 0.001 entry1).yplus = 1
      ∧ (cs_wall_functions_1scale_log realLibm stdTurb (stdConf .CS_WALL_F_DISABLED) 0
          1e-5 1 0.001 entry1).yplus ^ 2 = 1 * 0.001 / 1e-5) := by
  have h := linear_sublayer_profile stdTurb (stdConf .CS_WALL_F_DISABLED) 0 1e-5 0 1 0.001
    entry1 (by norm_num) (by norm_num) (by norm_num)
  exact ⟨⟨by norm_num, by norm_num, by norm_num⟩, h.1,
    h.2.2 (by simp only [stdConf]; norm_num)⟩

/-! ## 2-scale log law: the blended velocity scale -/

/-- The square root of a convex combination of `a^2` and `b^2` (`a, b >= 0`)
lies between `min a b` and `max a b`. -/
lemma sqrt_convex_between (a b w : ℝ) (ha : 0 ≤ a) (hb : 0 ≤ b) (hw0 : 0 ≤ w) (hw1 : w ≤ 1) :
    0 ≤ (1 - w) * (a * a) + w * (b * b)
    ∧ min a b ≤ Real.sqrt ((1 - w) * (a * a) + w * (b * b))
    ∧ Real.sqrt ((1 - w) * (a * a) + w * (b * b)) ≤ max a b := by
  have h1w : 0 ≤ 1 - w := by linarith
  have hS : 0 ≤ (1 - w) * (a * a) + w * (b * b) :=
    add_nonneg (mul_nonneg h1w (mul_self_nonneg a)) (mul_nonneg hw0 (mul_self_nonneg b))
  refine ⟨hS, ?_, ?_⟩
  · rcases le_total a b with h | h
    · rw [min_eq_left h, Real.le_sqrt ha hS]
      have h2 : a * a ≤ b * b := mul_self_le_mul_self ha h
      have h3 : 0 ≤ w * (b * b - a * a) := mul_nonneg hw0 (by linarith)
      nlinarith
    · rw [min_eq_right h, Real.le_sqrt hb hS]
      have h2 : b * b ≤ a * a := mul_self_le_mul_self hb h
      have h3 : 0 ≤ (1 - w) * (a * a - b * b) := mul_nonneg h1w (by linarith)
      nlinarith
  · rcases le_total a b with h | h
    · rw [max_eq_right h, Real.sqrt_le_iff]
      have h2 : a * a ≤ b * b := mul_self_le_mul_self ha h
      have h3 : 0 ≤ (1 - w) * (b * b - a * a) := mul_nonneg h1w (by linarith)
      exact ⟨hb, by nlinarith⟩
    · rw [max_eq_left h, Real.sqrt_le_iff]
      have h2 : b * b ≤ a * a := mul_self_le_mul_self hb h
      have h3 : 0 ≤ w * (a * a - b * b) := mul_nonneg hw0 (by linarith)
      exact ⟨ha, by nlinarith⟩

/-- The velocity scale and the dimensionless distance returned by
`cs_wall_functions_2scales_log`, in both branches. -/
lemma two_scales_log_uk_yplus {α : Type} [LinearOrderedField α] (m : Libm α) (t : cs_turb_t α)
    (g : cs_wall_functions_t α) (l_visc t_visc vel y kinetic_en : α) (s : Outputs α) :
    (cs_wall_functions_2scales_log m t g l_visc t_visc vel y kinetic_en s).uk
      = m.sqrt ((1 - blending_weight m l_visc y kinetic_en) * t.cs_turb_cmu025
                  * t.cs_turb_cmu025 * kinetic_en
                + blending_weight m l_visc y kinetic_en * l_visc * vel / y)
    ∧ (cs_wall_functions_2scales_log m t g l_visc t_visc vel y kinetic_en s).yplus
      = (cs_wall_functions_2scales_log m t g l_visc t_visc vel y kinetic_en s).uk * y / l_visc := by
  unfold cs_wall_functions_2scales_log blending_weight
  dsimp only
  constructor <;> split_ifs <;> rfl

/-- C25. 2-scale log law over the reals, for `l_visc > 0`, `y > 0`, `vel >= 0`,
`kinetic_en >= 0` (and `cmu025 >= 0`): the weight `g = exp(-sqrt(kinetic_en)*y/l_visc/11)`
satisfies `0 < g <= 1`, the argument `(1-g)*cmu025^2*kinetic_en + g*l_visc*vel/y`
of the square root is `>= 0`, the returned `uk` is its square root and lies
between the minimum and the maximum of `cmu025*sqrt(kinetic_en)` and
`sqrt(l_visc*vel/y)`; for `kinetic_en = 0`, `uk = sqrt(l_visc*vel/y)` and
`yplus = sqrt(vel*y/l_visc)`. -/
theorem two_scales_log_blending (t : cs_turb_t ℝ) (g : cs_wall_functions_t ℝ)
    (l_visc t_visc vel y kinetic_en : ℝ) (s : Outputs ℝ)
    (hl : 0 < l_visc) (hy : 0 < y) (hv : 0 ≤ vel) (hk : 0 ≤ kinetic_en)
    (hc : 0 ≤ t.cs_turb_cmu025) :
    (0 < blending_weight realLibm l_visc y kinetic_en
      ∧ blending_weight realLibm l_visc y kinetic_en ≤ 1)
    ∧ 0 ≤ (1 - blending_weight realLibm l_visc y kinetic_en) * t.cs_turb_cmu025
            * t.cs_turb_cmu025 * kinetic_en
          + blending_weight realLibm l_visc y kinetic_en * l_visc * vel / y
    ∧ (cs_wall_functions_2scales_log realLibm t g l_visc t_visc vel y kinetic_en s).uk
        = Real.sqrt ((1 - blending_weight realLibm l_visc y kinetic_en) * t.cs_turb_cmu025
                      * t.cs_turb_cmu025 * kinetic_en
                    + blending_weight realLibm l_visc y kinetic_en * l_visc * vel / y)
    ∧ min (t.cs_turb_cmu025 * Real.sqrt kinetic_en) (Real.sqrt (l_visc * vel / y))
        ≤ (cs_wall_functions_2scales_log realLibm t g l_visc t_visc vel y kinetic_en s).uk
    ∧ (cs_wall_functions_2scales_log realLibm t g l_visc t_visc vel y kinetic_en s).uk
        ≤ max (t.cs_turb_cmu025 * Real.sqrt kinetic_en) (Real.sqrt (l_visc * vel / y))
    ∧ (kinetic_en = 0 →
        (cs_wall_functions_2scales_log realLibm t g l_visc t_visc vel y kinetic_en s).uk
          = Real.sqrt (l_visc * vel / y)
        ∧ (cs_wall_functions_2scales_log realLibm t g l_visc t_visc vel y kinetic_en s).yplus
          = Real.sqrt (vel * y / l_visc)) := by
  have hd : 0 < y / l_visc := div_pos hy hl
  have hw0 : 0 < blending_weight realLibm l_visc y kinetic_en := Real.exp_pos _
  have hw1 : blending_weight realLibm l_visc y kinetic_en ≤ 1 := by
    unfold blending_weight
    simp only [realLibm]
    rw [Real.exp_le_one_iff]
    have h0 : 0 ≤ Real.sqrt kinetic_en * y / l_visc :=
      div_nonneg (mul_nonneg (Real.sqrt_nonneg _) hy.le) hl.le
    have h1 : -(Real.sqrt kinetic_en * y / l_visc) / 11
        = -((Real.sqrt kinetic_en * y / l_visc) / 11) := by ring
    rw [h1]
    have h2 : 0 ≤ Real.sqrt kinetic_en * y / l_visc / 11 := div_nonneg h0 (by norm_num)
    linarith
  have hB : 0 ≤ l_visc * vel / y := div_nonneg (mul_nonneg hl.le hv) hy.le
  have hA : 0 ≤ t.cs_turb_cmu025 * Real.sqrt kinetic_en := mul_nonneg hc (Real.sqrt_nonneg _)
  have hconv := sqrt_convex_between (t.cs_turb_cmu025 * Real.sqrt kinetic_en)
    (Real.sqrt (l_visc * vel / y)) (blending_weight realLibm l_visc y kinetic_en)
    hA (Real.sqrt_nonneg _) hw0.le hw1
  have e : (1 - blending_weight realLibm l_visc y kinetic_en)
        * (t.cs_turb_cmu025 * Real.sqrt kinetic_en * (t.cs_turb_cmu025 * Real.sqrt kinetic_en))
      + blending_weight realLibm l_visc y kinetic_en
        * (Real.sqrt (l_visc * vel / y) * Real.sqrt (l_visc * vel / y))
      = (1 - blending_weight realLibm l_visc y kinetic_en) * t.cs_turb_cmu025
            * t.cs_turb_cmu025 * kinetic_en
          + blending_weight realLibm l_visc y kinetic_en * l_visc * vel / y := by
    have e1 : t.cs_turb_cmu025 * Real.sqrt kinetic_en * (t.cs_turb_cmu025 * Real.sqrt kinetic_en)
        = t.cs_turb_cmu025 * t.cs_turb_cmu025
          * (Real.sqrt kinetic_en * Real.sqrt kinetic_en) := by ring
    rw [e1, Real.mul_self_sqrt hk, Real.mul_self_sqrt hB]
    ring
  rw [e] at hconv
  have huk := (two_scales_log_uk_yplus realLibm t g l_visc t_visc vel y kinetic_en s).1
  have hyp := (two_scales_log_uk_yplus realLibm t g l_visc t_visc vel y kinetic_en s).2
  have huk2 : (cs_wall_functions_2scales_log realLibm t g l_visc t_visc vel y kinetic_en s).uk
        = Real.sqrt ((1 - blending_weight realLibm l_visc y kinetic_en) * t.cs_turb_cmu025
                      * t.cs_turb_cmu025 * kinetic_en
                    + blending_weight realLibm l_visc y kinetic_en * l_visc * vel / y) := huk
  refine ⟨⟨hw0, hw1⟩, hconv.1, huk2, ?_, ?_, ?_⟩
  · rw [huk2]
    exact hconv.2.1
  · rw [huk2]
    exact hconv.2.2
  · intro hk0
    have hw : blending_weight realLibm l_visc y kinetic_en = 1 := by
      unfold blending_weight
      simp only [realLibm]
      rw [hk0, Real.sqrt_zero]
      norm_num
    have hu : (cs_wall_functions_2scales_log realLibm t g l_visc t_visc vel y kinetic_en s).uk
        = Real.sqrt (l_visc * vel / y) := by
      rw [huk2, hw, hk0]
      congr 1
      ring
    refine ⟨hu, ?_⟩
    rw [hyp, hu]
    symm
    rw [Real.sqrt_eq_iff_mul_self_eq (div_nonneg (mul_nonneg hv hy.le) hl.le)
      (div_nonneg (mul_nonneg (Real.sqrt_nonneg _) hy.le) hl.le)]
    have e2 : Real.sqrt (l_visc * vel / y) * y / l_visc
        * (Real.sqrt (l_visc * vel / y) * y / l_visc)
        = Real.sqrt (l_visc * vel / y) * Real.sqrt (l_visc * vel / y)
          * (y / l_visc * (y / l_visc)) := by ring
    rw [e2, Real.mul_self_sqrt hB]
    field_simp
    ring

/-- C25, witness: `l_visc = 1e-5`, `y = 0.001`, `vel = 1`, `kinetic_en = 0` with the
standard constants. -/
theorem two_scales_log_blending_witness :
    ((0 : ℝ) < 1e-5 ∧ (0 : ℝ) < 0.001 ∧ (0 : ℝ) ≤ 1 ∧ (0 : ℝ) ≤ 0
      ∧ 0 ≤ stdTurb.cs_turb_cmu025)
    ∧ (cs_wall_functions_2scales_log realLibm stdTurb (stdConf .CS_WALL_F_2SCALES_LOG)
        1e-5 1e-5 1 0.001 0 entry1).uk = Real.sqrt (1e-5 * 1 / 0.001)
    ∧ (cs_wall_functions_2scales_log realLibm stdTurb (stdConf .CS_WALL_F_2SCALES_LOG)
        1e-5 1e-5 1 0.001 0 entry1).yplus = Real.sqrt (1 * 0.001 / 1e-5) := by
  have hc : 0 ≤ stdTurb.cs_turb_cmu025 := Real.sqrt_nonneg _
  have h := two_scales_log_blending stdTurb (stdConf .CS_WALL_F_2SCALES_LOG)
    1e-5 1e-5 1 0.001 0 entry1 (by norm_num) (by norm_num) (by norm_num) (le_refl _) hc
  exact ⟨⟨by norm_num, by norm_num, by norm_num, le_refl _, hc⟩, h.2.2.2.2.2 rfl⟩

/-! ## 2-scale log law: the clamp of the production correction -/

/-- The clamped ratio lies between `min(kappa, 1/yplus)` and `kappa` for
`yplus > 0`. -/
lemma rcprod_bounds {α : Type} [LinearOrderedField α] (m : Libm α) (t : cs_turb_t α)
    (l_visc t_visc yplus : α) (hy : 0 < yplus) :
    min t.cs_turb_xkappa (1 / yplus) ≤ rcprod m t l_visc t_visc yplus
    ∧ rcprod m t l_visc t_visc yplus ≤ t.cs_turb_xkappa := by
  unfold rcprod
  rw [CS_MIN_eq_min, CS_MAX_eq_max]
  refine ⟨min_le_min le_rfl ?_, min_le_left _ _⟩
  exact div_le_div_of_nonneg_right (le_max_left _ _) hy.le

/-- C26. 2-scale log law, log branch (returned `yplus > ypluli > 0`): the ratio
`rcprod = CS_MIN(kappa, CS_MAX(1, sqrt(kappa*l_visc*yplus/t_visc))/yplus)`
satisfies `min(kappa, 1/yplus) <= rcprod <= kappa`, and the call returns
`ypup = yplus/(log(yplus)/kappa + cstlog)` and
`cofimp = 1 - ypup/kappa*(2*rcprod - 1/(2*yplus))`. -/
theorem two_scales_log_rcprod_clamp {α : Type} [LinearOrderedField α] (m : Libm α)
    (t : cs_turb_t α) (g : cs_wall_functions_t α) (l_visc t_visc vel y kinetic_en : α)
    (s : Outputs α) (hp : 0 < g.ypluli)
    (hlog : (cs_wall_functions_2scales_log m t g l_visc t_visc vel y kinetic_en s).yplus
      > g.ypluli) :
    min t.cs_turb_xkappa
        (1 / (cs_wall_functions_2scales_log m t g l_visc t_visc vel y kinetic_en s).yplus)
      ≤ rcprod m t l_visc t_visc
          (cs_wall_functions_2scales_log m t g l_visc t_visc vel y kinetic_en s).yplus
    ∧ rcprod m t l_visc t_visc
          (cs_wall_functions_2scales_log m t g l_visc t_visc vel y kinetic_en s).yplus
      ≤ t.cs_turb_xkappa
    ∧ (cs_wall_functions_2scales_log m t g l_visc t_visc vel y kinetic_en s).ypup
      = (cs_wall_functions_2scales_log m t g l_visc t_visc vel y kinetic_en s).yplus
        / (m.log (cs_wall_functions_2scales_log m t g l_visc t_visc vel y kinetic_en s).yplus
            / t.cs_turb_xkappa + t.cs_turb_cstlog)
    ∧ (cs_wall_functions_2scales_log m t g l_visc t_visc vel y kinetic_en s).cofimp
      = 1 - (cs_wall_functions_2scales_log m t g l_visc t_visc vel y kinetic_en s).ypup
            / t.cs_turb_xkappa
            * (2 * rcprod m t l_visc t_visc
                    (cs_wall_functions_2scales_log m t g l_visc t_visc vel y kinetic_en s).yplus
               - 1 / (2 * (cs_wall_functions_2scales_log m t g l_visc t_visc vel y
                            kinetic_en s).yplus)) := by
  have hb := rcprod_bounds m t l_visc t_visc _ (lt_trans hp hlog)
  refine ⟨hb.1, hb.2, ?_, ?_⟩
  · have hc : m.sqrt ((1 - m.exp (-(m.sqrt kinetic_en * y / l_visc) / 11)) * t.cs_turb_cmu025
          * t.cs_turb_cmu025 * kinetic_en
          + m.exp (-(m.sqrt kinetic_en * y / l_visc) / 11) * l_visc * vel / y) * y / l_visc
        > g.ypluli := by
      have h := hlog
      unfold cs_wall_functions_2scales_log at h
      dsimp only at h
      split_ifs at h <;> exact h
    unfold cs_wall_functions_2scales_log
    simp only [if_pos hc]
  · have hc : m.sqrt ((1 - m.exp (-(m.sqrt kinetic_en * y / l_visc) / 11)) * t.cs_turb_cmu025
          * t.cs_turb_cmu025 * kinetic_en
          + m.exp (-(m.sqrt kinetic_en * y / l_visc) / 11) * l_visc * vel / y) * y / l_visc
        > g.ypluli := by
      have h := hlog
      unfold cs_wall_functions_2scales_log at h
      dsimp only at h
      split_ifs at h <;> exact h
    unfold cs_wall_functions_2scales_log rcprod
    simp only [if_pos hc]

/-- C26, witness: `l_visc = 1e-5`, `t_visc = 1e-5`, `vel = 1`, `y = 0.001`,
`kinetic_en = 1` with the standard constants, a call of the log branch. -/
theorem two_scales_log_rcprod_clamp_witness :
    (0 < (stdConf .CS_WALL_F_2SCALES_LOG).ypluli
      ∧ (cs_wall_functions_2scales_log realLibm stdTurb (stdConf .CS_WALL_F_2SCALES_LOG)
          1e-5 1e-5 1 0.001 1 entry1).yplus > (stdConf .CS_WALL_F_2SCALES_LOG).ypluli)
    ∧ min stdTurb.cs_turb_xkappa
        (1 / (cs_wall_functions_2scales_log realLibm stdTurb (stdConf .CS_WALL_F_2SCALES_LOG)
          1e-5 1e-5 1 0.001 1 entry1).yplus)
      ≤ rcprod realLibm stdTurb 1e-5 1e-5
          (cs_wall_functions_2scales_log realLibm stdTurb (stdConf .CS_WALL_F_2SCALES_LOG)
            1e-5 1e-5 1 0.001 1 entry1).yplus
    ∧ rcprod realLibm stdTurb 1e-5 1e-5
          (cs_wall_functions_2scales_log realLibm stdTurb (stdConf .CS_WALL_F_2SCALES_LOG)
            1e-5 1e-5 1 0.001 1 entry1).yplus
      ≤ stdTurb.cs_turb_xkappa := by
  have hp : 0 < (stdConf .CS_WALL_F_2SCALES_LOG).ypluli := by
    simp only [stdConf]
    norm_num
  have hu := blend_scale_ge
  have hy : Real.sqrt ((1 - Real.exp (-(Real.sqrt 1 * 0.001 / 1e-5) / 11))
        * stdTurb.cs_turb_cmu025 * stdTurb.cs_turb_cmu025 * 1
        + Real.exp (-(Real.sqrt 1 * 0.001 / 1e-5) / 11) * 1e-5 * 1 / 0.001) * 0.001 / 1e-5
      > (stdConf .CS_WALL_F_2SCALES_LOG).ypluli := by
    simp only [stdConf]
    rw [gt_iff_lt, lt_div_iff₀ (by norm_num)]
    nlinarith
  have hlog : (cs_wall_functions_2scales_log realLibm stdTurb (stdConf .CS_WALL_F_2SCALES_LOG)
      1e-5 1e-5 1 0.001 1 entry1).yplus > (stdConf .CS_WALL_F_2SCALES_LOG).ypluli := by
    unfold cs_wall_functions_2scales_log
    simp only [realLibm]
    simp only [if_pos hy]
    exact hy
  have h := two_scales_log_rcprod_clamp realLibm stdTurb (stdConf .CS_WALL_F_2SCALES_LOG)
    1e-5 1e-5 1 0.001 1 entry1 hp hlog
  exact ⟨⟨hp, hlog⟩, h.1, h.2.1⟩

/-! ## Van Driest: the floor of `yplus` and the sublayer regime -/

/-- C27. Van Driest, for every input: the returned `yplus` is
`max(uk*y/l_visc, 1e-4)`, hence `>= 1e-4`; when `yr+ = yplus + dyrp <= 0.1` the
call returns `ustar = vel/yplus`, a division by a number `>= 1e-4`, and with
`wf = true` it sets `iuntur = 0`, `lmk = 0`, `ypup = 1`, `cofimp = 0`, adds one
to `nsubla` and leaves `nlogla` unchanged. -/
theorem vdriest_floor_and_sublayer {α : Type} [LinearOrderedField α] (m : Libm α)
    (t : cs_turb_t α) (rnnb l_visc vel y kinetic_en kr : α) (wf : Bool) (s : Outputs α) :
    (cs_wall_functions_2scales_vdriest m t rnnb l_visc vel y kinetic_en kr wf s).yplus
      = max ((cs_wall_functions_2scales_vdriest m t rnnb l_visc vel y kinetic_en kr wf s).uk
              * y / l_visc) 1e-4
    ∧ 1e-4 ≤ (cs_wall_functions_2scales_vdriest m t rnnb l_visc vel y kinetic_en kr wf s).yplus
    ∧ ((cs_wall_functions_2scales_vdriest m t rnnb l_visc vel y kinetic_en kr wf s).yplus
          + vdriest_dyrp m l_visc kr
              (cs_wall_functions_2scales_vdriest m t rnnb l_visc vel y kinetic_en kr wf s).uk
          ≤ 1e-1 →
        (cs_wall_functions_2scales_vdriest m t rnnb l_visc vel y kinetic_en kr wf s).ustar
          = vel / (cs_wall_functions_2scales_vdriest m t rnnb l_visc vel y kinetic_en kr wf
                    s).yplus
        ∧ (wf = true →
            (cs_wall_functions_2scales_vdriest m t rnnb l_visc vel y kinetic_en kr wf s).iuntur
              = 0
            ∧ (cs_wall_functions_2scales_vdriest m t rnnb l_visc vel y kinetic_en kr wf s).lmk
              = 0
            ∧ (cs_wall_functions_2scales_vdriest m t rnnb l_visc vel y kinetic_en kr wf s).ypup
              = 1
            ∧ (cs_wall_functions_2scales_vdriest m t rnnb l_visc vel y kinetic_en kr wf
                s).cofimp = 0
            ∧ (cs_wall_functions_2scales_vdriest m t rnnb l_visc vel y kinetic_en kr wf
                s).nsubla = s.nsubla + 1
            ∧ (cs_wall_functions_2scales_vdriest m t rnnb l_visc vel y kinetic_en kr wf
                s).nlogla = s.nlogla)) := by
  have hyp := vdriest_yplus m t rnnb l_visc vel y kinetic_en kr wf s
  rw [CS_MAX_eq_max] at hyp
  refine ⟨hyp, ?_, ?_⟩
  · rw [hyp]
    exact le_max_right _ _
  · intro hsub
    refine ⟨?_, ?_⟩
    · rw [vdriest_ustar, if_pos hsub]
    · intro hwf
      subst hwf
      rw [vdriest_yplus, vdriest_uk] at hsub
      unfold vdriest_dyrp at hsub
      simp only [if_true] at hsub
      unfold cs_wall_functions_2scales_vdriest
      simp only [if_true, if_pos hsub, and_self]

/-- The sublayer regime of the Van Driest variant at `kinetic_en = 0` on a
smooth wall (`kr = 0`), `wf = true`: `uk = 0`, `yplus = 1e-4`, `dyrp = 0`. -/
theorem vdriest_floor_and_sublayer_witness :
    (cs_wall_functions_2scales_vdriest realLibm stdTurb 1 1e-5 1 0.001 0 0 true entry1).yplus
        + vdriest_dyrp realLibm 1e-5 0
            (cs_wall_functions_2scales_vdriest realLibm stdTurb 1 1e-5 1 0.001 0 0 true
              entry1).uk ≤ 1e-1
    ∧ (cs_wall_functions_2scales_vdriest realLibm stdTurb 1 1e-5 1 0.001 0 0 true entry1).yplus
        = 1e-4
    ∧ (cs_wall_functions_2scales_vdriest realLibm stdTurb 1 1e-5 1 0.001 0 0 true entry1).ustar
        = 1 / 1e-4
    ∧ (cs_wall_functions_2scales_vdriest realLibm stdTurb 1 1e-5 1 0.001 0 0 true entry1).iuntur
        = 0
    ∧ (cs_wall_functions_2scales_vdriest realLibm stdTurb 1 1e-5 1 0.001 0 0 true entry1).nsubla
        = entry1.nsubla + 1 := by
  have huk : (cs_wall_functions_2scales_vdriest realLibm stdTurb 1 1e-5 1 0.001 0 0 true
      entry1).uk = 0 := by
    rw [vdriest_uk]
    simp only [if_true, realLibm]
    rw [mul_zero, Real.sqrt_zero, Real.sqrt_zero]
  have h := vdriest_floor_and_sublayer realLibm stdTurb 1 1e-5 1 0.001 0 0 true entry1
  have hy : (cs_wall_functions_2scales_vdriest realLibm stdTurb 1 1e-5 1 0.001 0 0 true
      entry1).yplus = 1e-4 := by
    rw [h.1, huk]
    norm_num
  have hd : vdriest_dyrp realLibm 1e-5 0
      (cs_wall_functions_2scales_vdriest realLibm stdTurb 1 1e-5 1 0.001 0 0 true entry1).uk
      = 0 := by
    rw [huk]
    unfold vdriest_dyrp
    simp only [realLibm]
    norm_num
  have hsub : (cs_wall_functions_2scales_vdriest realLibm stdTurb 1 1e-5 1 0.001 0 0 true
        entry1).yplus
      + vdriest_dyrp realLibm 1e-5 0
          (cs_wall_functions_2scales_vdriest realLibm stdTurb 1 1e-5 1 0.001 0 0 true
            entry1).uk ≤ 1e-1 := by
    rw [hy, hd]
    norm_num
  have h2 := h.2.2 hsub
  refine ⟨hsub, hy, ?_, (h2.2 rfl).1, (h2.2 rfl).2.2.2.2.1⟩
  rw [h2.1, hy]

/-! ## Van Driest: the matching point of the asymptotic branch -/

/-- C28. Van Driest asymptotic branch over the reals, `kappa > 0`, for every
roughness shift `dyrp` with `200 + dyrp > 0`: a call with `yr+ > 200` returns
`ustar = vel / u+` with
`u+ = 16.088739022054590 + log(yr+/(200 + dyrp))/kappa`; this `u+` is exactly
`16.088739022054590` at `yr+ = 200 + dyrp` (`yplus = 200`), it is
`16.088739022054590 + log(200/(200 + dyrp))/kappa` at `yr+ = 200`, and the
latter equals `16.088739022054590` if and only if `dyrp = 0`. -/
theorem vdriest_asym_matching_point (t : cs_turb_t ℝ) (dyrp : ℝ)
    (hk : 0 < t.cs_turb_xkappa) (hd : 0 < 200 + dyrp) :
    (∀ (rnnb l_visc vel y kinetic_en kr : ℝ) (wf : Bool) (s : Outputs ℝ),
        ¬ ((cs_wall_functions_2scales_vdriest realLibm t rnnb l_visc vel y kinetic_en kr wf
              s).yplus
            + vdriest_dyrp realLibm l_visc kr
                (cs_wall_functions_2scales_vdriest realLibm t rnnb l_visc vel y kinetic_en kr wf
                  s).uk ≤ 200) →
        (cs_wall_functions_2scales_vdriest realLibm t rnnb l_visc vel y kinetic_en kr wf s).ustar
          = vel / vdriest_uplus_asym realLibm t
              ((cs_wall_functions_2scales_vdriest realLibm t rnnb l_visc vel y kinetic_en kr wf
                  s).yplus
                + vdriest_dyrp realLibm l_visc kr
                    (cs_wall_functions_2scales_vdriest realLibm t rnnb l_visc vel y kinetic_en
                      kr wf s).uk)
              (vdriest_dyrp realLibm l_visc kr
                (cs_wall_functions_2scales_vdriest realLibm t rnnb l_visc vel y kinetic_en kr wf
                  s).uk))
    ∧ vdriest_uplus_asym realLibm t (200 + dyrp) dyrp = 16.088739022054590
    ∧ vdriest_uplus_asym realLibm t 200 dyrp
        = 16.088739022054590 + Real.log (200 / (200 + dyrp)) / t.cs_turb_xkappa
    ∧ (vdriest_uplus_asym realLibm t 200 dyrp = 16.088739022054590 ↔ dyrp = 0) := by
  refine ⟨?_, ?_, rfl, ?_⟩
  · intro rnnb l_visc vel y kinetic_en kr wf s h200
    have h01 : ¬ ((cs_wall_functions_2scales_vdriest realLibm t rnnb l_visc vel y kinetic_en kr
          wf s).yplus
        + vdriest_dyrp realLibm l_visc kr
            (cs_wall_functions_2scales_vdriest realLibm t rnnb l_visc vel y kinetic_en kr wf
              s).uk ≤ 1e-1) := by
      intro h
      apply h200
      refine le_trans h ?_
      norm_num
    rw [vdriest_ustar, if_neg h01, if_neg h200]
  · unfold vdriest_uplus_asym
    simp only [realLibm]
    rw [div_self hd.ne', Real.log_one, zero_div, add_zero]
  · unfold vdriest_uplus_asym
    simp only [realLibm]
    have hpos : (0 : ℝ) < 200 / (200 + dyrp) := div_pos (by norm_num) hd
    constructor
    · intro h
      have h1 : Real.log (200 / (200 + dyrp)) / t.cs_turb_xkappa = 0 := by linarith
      have h2 : Real.log (200 / (200 + dyrp)) = 0 := by
        rcases div_eq_zero_iff.mp h1 with h3 | h3
        · exact h3
        · exact absurd h3 hk.ne'
      have h3 : 200 / (200 + dyrp) = 1 := by
        rcases Real.log_eq_zero.mp h2 with h4 | h4 | h4
        · linarith
        · exact h4
        · linarith
      rw [div_eq_one_iff_eq hd.ne'] at h3
      linarith
    · intro h
      rw [h, add_zero, div_self (by norm_num), Real.log_one, zero_div, add_zero]

/-- C28, witness: a smooth wall, `dyrp = 0`, with the standard constants. -/
theorem vdriest_asym_matching_point_witness :
    (0 < stdTurb.cs_turb_xkappa ∧ (0 : ℝ) < 200 + 0)
    ∧ vdriest_uplus_asym realLibm stdTurb (200 + 0) 0 = 16.088739022054590
    ∧ (vdriest_uplus_asym realLibm stdTurb 200 0 = 16.088739022054590 ↔ (0 : ℝ) = 0) := by
  have hk : 0 < stdTurb.cs_turb_xkappa := by
    simp only [stdTurb]
    norm_num
  have h := vdriest_asym_matching_point stdTurb 0 hk (by norm_num)
  exact ⟨⟨hk, by norm_num⟩, h.2.1, h.2.2.2⟩

/-! ## Two-scale variants: `ypup * vel = (yplus - dplus) * ustar` -/

/-- C29. For `vel >= 0`: the 2-scale log law returns `ypup * vel = yplus * ustar`
in its log branch and in its sublayer branch when `yplus > 1e-12`; the scalable
variant returns `ypup * vel = (yplus - dplus) * ustar`; the Van Driest variant
with `wf = true` returns `ypup * vel = yplus * ustar` in its three regimes. -/
theorem velocity_ratio_consistency {α : Type} [LinearOrderedField α] (m : Libm α)
    (t : cs_turb_t α) (g : cs_wall_functions_t α)
    (rnnb l_visc t_visc vel y kinetic_en kr : α) (s : Outputs α) (hv : 0 ≤ vel) :
    ((cs_wall_functions_2scales_log m t g l_visc t_visc vel y kinetic_en s).yplus > g.ypluli
        ∨ (cs_wall_functions_2scales_log m t g l_visc t_visc vel y kinetic_en s).yplus > 1e-12 →
      (cs_wall_functions_2scales_log m t g l_visc t_visc vel y kinetic_en s).ypup * vel
        = (cs_wall_functions_2scales_log m t g l_visc t_visc vel y kinetic_en s).yplus
          * (cs_wall_functions_2scales_log m t g l_visc t_visc vel y kinetic_en s).ustar)
    ∧ (cs_wall_functions_2scales_scalable m t g l_visc t_visc vel y kinetic_en s).ypup * vel
        = ((cs_wall_functions_2scales_scalable m t g l_visc t_visc vel y kinetic_en s).yplus
            - (cs_wall_functions_2scales_scalable m t g l_visc t_visc vel y kinetic_en s).dplus)
          * (cs_wall_functions_2scales_scalable m t g l_visc t_visc vel y kinetic_en s).ustar
    ∧ (cs_wall_functions_2scales_vdriest m t rnnb l_visc vel y kinetic_en kr true s).ypup * vel
        = (cs_wall_functions_2scales_vdriest m t rnnb l_visc vel y kinetic_en kr true s).yplus
          * (cs_wall_functions_2scales_vdriest m t rnnb l_visc vel y kinetic_en kr true
              s).ustar := by
  refine ⟨?_, ?_, ?_⟩
  · unfold cs_wall_functions_2scales_log
    dsimp only
    split_ifs with h1 h2
    · intro _
      dsimp only
      rw [div_mul_eq_mul_div, mul_div_assoc]
    · intro _
      dsimp only
      have hpos : (0 : α) < 1e-12 := by norm_num
      have hy := lt_trans hpos h2
      rw [abs_of_nonneg (div_nonneg hv hy.le), one_mul, mul_div_cancel₀ _ hy.ne']
    · intro h
      dsimp only at h
      rcases h with h | h
      · exact absurd h h1
      · exact absurd h h2
  · have hu : (cs_wall_functions_2scales_scalable m t g l_visc t_visc vel y kinetic_en s).ustar
        = vel / (m.log (cs_wall_functions_2scales_scalable m t g l_visc t_visc vel y
                          kinetic_en s).yplus / t.cs_turb_xkappa + t.cs_turb_cstlog) := rfl
    have hp : (cs_wall_functions_2scales_scalable m t g l_visc t_visc vel y kinetic_en s).ypup
        = ((cs_wall_functions_2scales_scalable m t g l_visc t_visc vel y kinetic_en s).yplus
            - (cs_wall_functions_2scales_scalable m t g l_visc t_visc vel y kinetic_en s).dplus)
          / (m.log (cs_wall_functions_2scales_scalable m t g l_visc t_visc vel y
                      kinetic_en s).yplus / t.cs_turb_xkappa + t.cs_turb_cstlog) := rfl
    rw [hu, hp, div_mul_eq_mul_div, mul_div_assoc]
  · have hfl : (0 : α) < CS_MAX (m.sqrt (m.sqrt ((1 - t.cs_turb_crij2) / t.cs_turb_crij1 * rnnb
        * kinetic_en)) * y / l_visc) 1e-4 :=
      lt_of_lt_of_le (by norm_num) (le_CS_MAX_right _ _)
    unfold cs_wall_functions_2scales_vdriest
    simp only [if_true]
    split_ifs
    · dsimp only
      rw [one_mul, mul_div_cancel₀ _ hfl.ne']
    · dsimp only
      rw [div_mul_eq_mul_div, mul_div_assoc]
    · dsimp only
      rw [div_mul_eq_mul_div, mul_div_assoc]

/-- C29, witness: `l_visc = 1e-5`, `t_visc = 1e-5`, `vel = 1`, `y = 1e-4`,
`kinetic_en = 0.3` with the standard constants. -/
theorem velocity_ratio_consistency_witness :
    (0 : ℝ) ≤ 1
    ∧ (cs_wall_functions_2scales_scalable realLibm stdTurb
          (stdConf .CS_WALL_F_SCALABLE_2SCALES_LOG) 1e-5 1e-5 1 1e-4 0.3 entry1).ypup * 1
        = ((cs_wall_functions_2scales_scalable realLibm stdTurb
              (stdConf .CS_WALL_F_SCALABLE_2SCALES_LOG) 1e-5 1e-5 1 1e-4 0.3 entry1).yplus
            - (cs_wall_functions_2scales_scalable realLibm stdTurb
                (stdConf .CS_WALL_F_SCALABLE_2SCALES_LOG) 1e-5 1e-5 1 1e-4 0.3 entry1).dplus)
          * (cs_wall_functions_2scales_scalable realLibm stdTurb
              (stdConf .CS_WALL_F_SCALABLE_2SCALES_LOG) 1e-5 1e-5 1 1e-4 0.3 entry1).ustar
    ∧ (cs_wall_functions_2scales_vdriest realLibm stdTurb 1 1e-5 1 1e-4 0.3 0 true
          entry1).ypup * 1
        = (cs_wall_functions_2scales_vdriest realLibm stdTurb 1 1e-5 1 1e-4 0.3 0 true
            entry1).yplus
          * (cs_wall_functions_2scales_vdriest realLibm stdTurb 1 1e-5 1 1e-4 0.3 0 true
              entry1).ustar :=
  ⟨by norm_num,
   (velocity_ratio_consistency realLibm stdTurb (stdConf .CS_WALL_F_SCALABLE_2SCALES_LOG)
      1 1e-5 1e-5 1 1e-4 0.3 0 entry1 (by norm_num)).2⟩

/-! ## 1-scale power law: `cofimp` in the log layer -/

/-- C30. 1-scale power law over the reals with `dpow = 1/(1 + bpow)`: the
exponent `bpow + 1 - 1/dpow` is `0`, and every call of the log branch
(power-law `yplus > ypluli`) returns
`cofimp = 1 + bpow*(2^(bpow-1) - 2)`, whatever `vel`, `y` and `l_visc`. -/
theorem power_cofimp_input_independent (t : cs_turb_t ℝ) (g : cs_wall_functions_t ℝ)
    (l_visc vel y : ℝ) (s : Outputs ℝ)
    (hd : t.cs_turb_dpow = 1 / (1 + t.cs_turb_bpow))
    (hlog : power_law_yplus realLibm t l_visc vel y > g.ypluli) :
    t.cs_turb_bpow + 1 - 1 / t.cs_turb_dpow = 0
    ∧ (cs_wall_functions_1scale_power realLibm t g l_visc vel y s).cofimp
        = 1 + t.cs_turb_bpow * ((2 : ℝ) ^ (t.cs_turb_bpow - 1) - 2) := by
  have he : t.cs_turb_bpow + 1 - 1 / t.cs_turb_dpow = 0 := by
    rw [hd, one_div_one_div]
    ring
  refine ⟨he, ?_⟩
  have hc : ¬ (realLibm.pow (vel / (t.cs_turb_apow * realLibm.pow (y / l_visc) t.cs_turb_bpow))
      t.cs_turb_dpow * (y / l_visc) ≤ g.ypluli) := not_le.mpr hlog
  unfold cs_wall_functions_1scale_power
  simp only [if_neg hc]
  rw [he]
  simp only [realLibm]
  rw [Real.rpow_zero, mul_one]

/-- C30, witness: the scenario `vel = 20`, `y = 0.01`, `l_visc = 1.5e-5` with the
standard constants, a call of the log branch. -/
theorem power_cofimp_input_independent_witness :
    (stdTurb.cs_turb_dpow = 1 / (1 + stdTurb.cs_turb_bpow)
      ∧ power_law_yplus realLibm stdTurb 1.5e-5 20 0.01
          > (stdConf .CS_WALL_F_1SCALE_POWER).ypluli)
    ∧ (cs_wall_functions_1scale_power realLibm stdTurb (stdConf .CS_WALL_F_1SCALE_POWER)
        1.5e-5 20 0.01 entry1).cofimp
        = 1 + stdTurb.cs_turb_bpow * ((2 : ℝ) ^ (stdTurb.cs_turb_bpow - 1) - 2) := by
  have hu := power_scenario_ustar_ge
  have hlog : power_law_yplus realLibm stdTurb 1.5e-5 20 0.01
      > (stdConf .CS_WALL_F_1SCALE_POWER).ypluli := by
    unfold power_law_yplus
    simp only [realLibm, stdTurb, stdConf]
    nlinarith
  exact ⟨⟨rfl, hlog⟩,
    (power_cofimp_input_independent stdTurb (stdConf .CS_WALL_F_1SCALE_POWER)
      1.5e-5 20 0.01 entry1 rfl hlog).2⟩

/-! ## The regime indicator is set to zero or left alone -/

/-- C31. After a call of any of the six variants `iuntur` is `0` or the value
found on entry.  The scalable variant leaves `iuntur` unchanged in both of its
branches; the log-layer branches of the 1-scale power law (power-law
`yplus > ypluli`), of the 1-scale log law (`vel*y/l_visc > ypluli^2`), of the
2-scale log law (returned `yplus > ypluli`) and of the Van Driest variant
(`yr+ = yplus + dyrp > 0.1`) leave it unchanged, and so does the Van Driest
variant with `wf = false`. -/
theorem iuntur_zero_or_unchanged {α : Type} [LinearOrderedField α] (m : Libm α)
    (t : cs_turb_t α) (g : cs_wall_functions_t α) (ifac : Int)
    (rnnb l_visc t_visc vel y kinetic_en kr : α) (wf : Bool) (s : Outputs α) :
    (((cs_wall_functions_disabled m g l_visc t_visc vel y s).iuntur = 0
        ∨ (cs_wall_functions_disabled m g l_visc t_visc vel y s).iuntur = s.iuntur)
      ∧ ((cs_wall_functions_1scale_power m t g l_visc vel y s).iuntur = 0
        ∨ (cs_wall_functions_1scale_power m t g l_visc vel y s).iuntur = s.iuntur)
      ∧ ((cs_wall_functions_1scale_log m t g ifac l_visc vel y s).iuntur = 0
        ∨ (cs_wall_functions_1scale_log m t g ifac l_visc vel y s).iuntur = s.iuntur)
      ∧ ((cs_wall_functions_2scales_log m t g l_visc t_visc vel y kinetic_en s).iuntur = 0
        ∨ (cs_wall_functions_2scales_log m t g l_visc t_visc vel y kinetic_en s).iuntur
            = s.iuntur)
      ∧ ((cs_wall_functions_2scales_scalable m t g l_visc t_visc vel y kinetic_en s).iuntur = 0
        ∨ (cs_wall_functions_2scales_scalable m t g l_visc t_visc vel y kinetic_en s).iuntur
            = s.iuntur)
      ∧ ((cs_wall_functions_2scales_vdriest m t rnnb l_visc vel y kinetic_en kr wf s).iuntur = 0
        ∨ (cs_wall_functions_2scales_vdriest m t rnnb l_visc vel y kinetic_en kr wf s).iuntur
            = s.iuntur))
    ∧ (cs_wall_functions_2scales_scalable m t g l_visc t_visc vel y kinetic_en s).iuntur
        = s.iuntur
    ∧ (power_law_yplus m t l_visc vel y > g.ypluli →
        (cs_wall_functions_1scale_power m t g l_visc vel y s).iuntur = s.iuntur)
    ∧ (vel * (y / l_visc) > g.ypluli * g.ypluli →
        (cs_wall_functions_1scale_log m t g ifac l_visc vel y s).iuntur = s.iuntur)
    ∧ ((cs_wall_functions_2scales_log m t g l_visc t_visc vel y kinetic_en s).yplus > g.ypluli →
        (cs_wall_functions_2scales_log m t g l_visc t_visc vel y kinetic_en s).iuntur
          = s.iuntur)
    ∧ ((cs_wall_functions_2scales_vdriest m t rnnb l_visc vel y kinetic_en kr wf s).yplus
          + vdriest_dyrp m l_visc kr
              (cs_wall_functions_2scales_vdriest m t rnnb l_visc vel y kinetic_en kr wf s).uk
          > 1e-1 →
        (cs_wall_functions_2scales_vdriest m t rnnb l_visc vel y kinetic_en kr wf s).iuntur
          = s.iuntur)
    ∧ (wf = false →
        (cs_wall_functions_2scales_vdriest m t rnnb l_visc vel y kinetic_en kr wf s).iuntur
          = s.iuntur) := by
  have hscal : (cs_wall_functions_2scales_scalable m t g l_visc t_visc vel y kinetic_en s).iuntur
      = s.iuntur := by
    unfold cs_wall_functions_2scales_scalable
    dsimp only
    split_ifs <;> rfl
  refine ⟨⟨?_, ?_, ?_, ?_, Or.inr hscal, ?_⟩, hscal, ?_, ?_, ?_, ?_, ?_⟩
  · left
    unfold cs_wall_functions_disabled
    dsimp only
    split_ifs <;> rfl
  · unfold cs_wall_functions_1scale_power
    dsimp only
    split_ifs
    · exact Or.inl rfl
    · exact Or.inr rfl
  · unfold cs_wall_functions_1scale_log cs_wall_functions_1scale_log_run
    by_cases hc : vel * (y / l_visc) ≤ g.ypluli * g.ypluli
    · simp only [if_pos hc]
      exact Or.inl trivial
    · simp only [if_neg hc]
      exact Or.inr trivial
  · unfold cs_wall_functions_2scales_log
    dsimp only
    split_ifs
    · exact Or.inr rfl
    · exact Or.inl rfl
    · exact Or.inl rfl
  · unfold cs_wall_functions_2scales_vdriest
    cases wf <;> simp only [if_true, if_false, Bool.false_eq_true] <;> split_ifs <;>
      first
      | exact Or.inl rfl
      | exact Or.inr rfl
  · intro h
    have hc : ¬ (m.pow (vel / (t.cs_turb_apow * m.pow (y / l_visc) t.cs_turb_bpow))
        t.cs_turb_dpow * (y / l_visc) ≤ g.ypluli) := not_le.mpr h
    unfold cs_wall_functions_1scale_power
    simp only [if_neg hc]
  · intro h
    have hc : ¬ (vel * (y / l_visc) ≤ g.ypluli * g.ypluli) := not_le.mpr h
    unfold cs_wall_functions_1scale_log cs_wall_functions_1scale_log_run
    simp only [if_neg hc]
  · intro h
    unfold cs_wall_functions_2scales_log at h ⊢
    dsimp only at h ⊢
    split_ifs at h ⊢ with h1 <;>
      first
      | rfl
      | exact absurd h h1
  · intro h
    have hc := not_le.mpr h
    rw [vdriest_yplus, vdriest_uk] at hc
    unfold vdriest_dyrp at hc
    unfold cs_wall_functions_2scales_vdriest
    cases wf
    · simp only [if_false, Bool.false_eq_true] at hc ⊢
      simp only [if_neg hc]
      split_ifs <;> rfl
    · simp only [if_true] at hc ⊢
      simp only [if_neg hc]
      split_ifs <;> rfl
  · intro h
    subst h
    unfold cs_wall_functions_2scales_vdriest
    simp only [if_false, Bool.false_eq_true]
    split_ifs <;> rfl

end CsWall
